import Mathlib

/-!
# gc_auth_service: token issuance, validation, refresh and the auth gate

A shallow embedding of `pkg/jwt/jwt.go`, `internal/middleware/auth.go` and the
refresh handler of `internal/handlers/auth.go`, together with a model of the
libraries they call: `crypto/sha256`, `crypto/sha512`, `crypto/hmac`,
`encoding/base64` (RawURLEncoding), `encoding/json`, `strconv.ParseFloat`,
`math.Modf`, `time`, `github.com/google/uuid` and
`github.com/golang-jwt/jwt/v5`.

Conventions of the embedding.

* A Go `[]byte`, and a Go `string` that the program receives from its caller
  (a token, a header value, an e-mail, a user name, the secret), is a
  `List Nat` of byte values (`Bytes`): it need not be valid UTF-8.
* A Go `string` that the program sets from a literal or from the text of a
  UUID, or that the JSON decoder has produced, is valid UTF-8 and is a Lean
  `String`; it becomes bytes by UTF-8.
* A `time.Time` is an `Int`: nanoseconds since the Unix epoch. A
  `time.Duration` is an `Int` of nanoseconds kept in the range of `int64`.
* `time.Now()` is not a function of the program state, so every call of it is
  an explicit argument of the embedded function, in evaluation order.
* A `float64` is a sign, a natural number and a power of two; the conversion
  of a `float64` outside the range of `int64` to `int64` is that of amd64.
-/

/-- A Go byte slice. -/
abbrev Bytes := List Nat

/-- The bytes of an ASCII string literal. -/
def ascii (s : String) : Bytes := s.data.map Char.toNat

-- Equality of results is decidable when equality of errors and of values is.
deriving instance DecidableEq for Except

namespace sha2

/-- Round constants of SHA-256 (crypto/sha256). -/
def K256 : List Nat :=
  [0x428a2f98, 0x71374491, 0xb5c0fbcf, 0xe9b5dba5, 0x3956c25b, 0x59f111f1, 0x923f82a4, 0xab1c5ed5,
   0xd807aa98, 0x12835b01, 0x243185be, 0x550c7dc3, 0x72be5d74, 0x80deb1fe, 0x9bdc06a7, 0xc19bf174,
   0xe49b69c1, 0xefbe4786, 0x0fc19dc6, 0x240ca1cc, 0x2de92c6f, 0x4a7484aa, 0x5cb0a9dc, 0x76f988da,
   0x983e5152, 0xa831c66d, 0xb00327c8, 0xbf597fc7, 0xc6e00bf3, 0xd5a79147, 0x06ca6351, 0x14292967,
   0x27b70a85, 0x2e1b2138, 0x4d2c6dfc, 0x53380d13, 0x650a7354, 0x766a0abb, 0x81c2c92e, 0x92722c85,
   0xa2bfe8a1, 0xa81a664b, 0xc24b8b70, 0xc76c51a3, 0xd192e819, 0xd6990624, 0xf40e3585, 0x106aa070,
   0x19a4c116, 0x1e376c08, 0x2748774c, 0x34b0bcb5, 0x391c0cb3, 0x4ed8aa4a, 0x5b9cca4f, 0x682e6ff3,
   0x748f82ee, 0x78a5636f, 0x84c87814, 0x8cc70208, 0x90befffa, 0xa4506ceb, 0xbef9a3f7, 0xc67178f2]

/-- Initial hash value of SHA-256. -/
def H256 : List Nat :=
  [0x6a09e667, 0xbb67ae85, 0x3c6ef372, 0xa54ff53a, 0x510e527f, 0x9b05688c, 0x1f83d9ab, 0x5be0cd19]

/-- Round constants of SHA-384 and SHA-512 (crypto/sha512). -/
def K512 : List Nat :=
  [0x428a2f98d728ae22, 0x7137449123ef65cd, 0xb5c0fbcfec4d3b2f, 0xe9b5dba58189dbbc,
   0x3956c25bf348b538, 0x59f111f1b605d019, 0x923f82a4af194f9b, 0xab1c5ed5da6d8118,
   0xd807aa98a3030242, 0x12835b0145706fbe, 0x243185be4ee4b28c, 0x550c7dc3d5ffb4e2,
   0x72be5d74f27b896f, 0x80deb1fe3b1696b1, 0x9bdc06a725c71235, 0xc19bf174cf692694,
   0xe49b69c19ef14ad2, 0xefbe4786384f25e3, 0x0fc19dc68b8cd5b5, 0x240ca1cc77ac9c65,
   0x2de92c6f592b0275, 0x4a7484aa6ea6e483, 0x5cb0a9dcbd41fbd4, 0x76f988da831153b5,
   0x983e5152ee66dfab, 0xa831c66d2db43210, 0xb00327c898fb213f, 0xbf597fc7beef0ee4,
   0xc6e00bf33da88fc2, 0xd5a79147930aa725, 0x06ca6351e003826f, 0x142929670a0e6e70,
   0x27b70a8546d22ffc, 0x2e1b21385c26c926, 0x4d2c6dfc5ac42aed, 0x53380d139d95b3df,
   0x650a73548baf63de, 0x766a0abb3c77b2a8, 0x81c2c92e47edaee6, 0x92722c851482353b,
   0xa2bfe8a14cf10364, 0xa81a664bbc423001, 0xc24b8b70d0f89791, 0xc76c51a30654be30,
   0xd192e819d6ef5218, 0xd69906245565a910, 0xf40e35855771202a, 0x106aa07032bbd1b8,
   0x19a4c116b8d2d0c8, 0x1e376c085141ab53, 0x2748774cdf8eeb99, 0x34b0bcb5e19b48a8,
   0x391c0cb3c5c95a63, 0x4ed8aa4ae3418acb, 0x5b9cca4f7763e373, 0x682e6ff3d6b2b8a3,
   0x748f82ee5defb2fc, 0x78a5636f43172f60, 0x84c87814a1f0ab72, 0x8cc702081a6439ec,
   0x90befffa23631e28, 0xa4506cebde82bde9, 0xbef9a3f7b2c67915, 0xc67178f2e372532b,
   0xca273eceea26619c, 0xd186b8c721c0c207, 0xeada7dd6cde0eb1e, 0xf57d4f7fee6ed178,
   0x06f067aa72176fba, 0x0a637dc5a2c898a6, 0x113f9804bef90dae, 0x1b710b35131c471b,
   0x28db77f523047d84, 0x32caab7b40c72493, 0x3c9ebe0a15c9bebc, 0x431d67c49c100d4c,
   0x4cc5d4becb3e42b6, 0x597f299cfc657e2a, 0x5fcb6fab3ad6faec, 0x6c44198c4a475817]

/-- Initial hash value of SHA-512. -/
def H512 : List Nat :=
  [0x6a09e667f3bcc908, 0xbb67ae8584caa73b, 0x3c6ef372fe94f82b, 0xa54ff53a5f1d36f1,
   0x510e527fade682d1, 0x9b05688c2b3e6c1f, 0x1f83d9abfb41bd6b, 0x5be0cd19137e2179]

/-- Initial hash value of SHA-384. -/
def H384 : List Nat :=
  [0xcbbb9d5dc1059ed8, 0x629a292a367cd507, 0x9159015a3070dd17, 0x152fecd8f70e5939,
   0x67332667ffc00b31, 0x8eb44a8768581511, 0xdb0c2e0d64f98fa7, 0x47b5481dbefa4fa4]

/-- What distinguishes the 32-bit from the 64-bit members of SHA-2: word size,
number of rounds, round constants and the rotation amounts. -/
structure Params where
  wordBits : Nat
  rounds : Nat
  K : List Nat
  bigS0 : Nat × Nat × Nat
  bigS1 : Nat × Nat × Nat
  smallS0 : Nat × Nat × Nat
  smallS1 : Nat × Nat × Nat

def p256 : Params :=
  ⟨32, 64, K256, (2, 13, 22), (6, 11, 25), (7, 18, 3), (17, 19, 10)⟩

def p512 : Params :=
  ⟨64, 80, K512, (28, 34, 39), (14, 18, 41), (1, 8, 7), (19, 61, 6)⟩

/-- Rotate the w-bit word x right by n. -/
def rotr (w x n : Nat) : Nat := ((x >>> n) ||| (x <<< (w - n))) % 2 ^ w

def bigSigma (w : Nat) (r : Nat × Nat × Nat) (x : Nat) : Nat :=
  rotr w x r.1 ^^^ rotr w x r.2.1 ^^^ rotr w x r.2.2

def smallSigma (w : Nat) (r : Nat × Nat × Nat) (x : Nat) : Nat :=
  rotr w x r.1 ^^^ rotr w x r.2.1 ^^^ (x >>> r.2.2)

def ch (w x y z : Nat) : Nat := (x &&& y) ^^^ ((2 ^ w - 1 - x) &&& z)

def maj (x y z : Nat) : Nat := (x &&& y) ^^^ (x &&& z) ^^^ (y &&& z)

/-- Big-endian value of a list of bytes. -/
def beWord (bs : Bytes) : Nat := bs.foldl (fun acc b => acc * 256 + b % 256) 0

/-- The n low-order bytes of x, most significant first. -/
def beBytes : Nat → Nat → Bytes
  | 0, _ => []
  | n + 1, x => (x / 256 ^ n) % 256 :: beBytes n x

/-- The first n pieces of k bytes each. -/
def chunks (k : Nat) : Nat → Bytes → List Bytes
  | 0, _ => []
  | n + 1, bs => bs.take k :: chunks k n (bs.drop k)

/-- Message schedule. The window holds the sixteen most recent words, newest
first; each step emits the oldest word and appends the next one. -/
def schedule (p : Params) : Nat → List Nat → List Nat
  | 0, win => win.reverse
  | n + 1, win =>
    let w := (smallSigma p.wordBits p.smallS1 (win.getD 1 0) + win.getD 6 0
              + smallSigma p.wordBits p.smallS0 (win.getD 14 0) + win.getD 15 0) % 2 ^ p.wordBits
    win.reverse.take 1 ++ schedule p n (w :: win.take 15)

/-- The eight working variables. -/
structure St where
  a : Nat
  b : Nat
  c : Nat
  d : Nat
  e : Nat
  f : Nat
  g : Nat
  h : Nat
deriving DecidableEq, Repr

def round (p : Params) (s : St) (k w : Nat) : St :=
  let m := 2 ^ p.wordBits
  let t1 := (s.h + bigSigma p.wordBits p.bigS1 s.e + ch p.wordBits s.e s.f s.g + k + w) % m
  let t2 := (bigSigma p.wordBits p.bigS0 s.a + maj s.a s.b s.c) % m
  ⟨(t1 + t2) % m, s.a, s.b, s.c, (s.d + t1) % m, s.e, s.f, s.g⟩

def rounds (p : Params) : St → List Nat → List Nat → St
  | s, k :: ks, w :: ws => rounds p (round p s k w) ks ws
  | s, _, _ => s

/-- One application of the compression function to a block. -/
def compress (p : Params) (s : St) (block : Bytes) : St :=
  let m := 2 ^ p.wordBits
  let ws0 := (chunks (p.wordBits / 8) 16 block).map beWord
  let ws := (schedule p (p.rounds - 16) ws0.reverse).take p.rounds
  let r := rounds p s p.K ws
  ⟨(s.a + r.a) % m, (s.b + r.b) % m, (s.c + r.c) % m, (s.d + r.d) % m,
   (s.e + r.e) % m, (s.f + r.f) % m, (s.g + r.g) % m, (s.h + r.h) % m⟩

/-- Padding: a one bit, zeros, and the bit length of the message. -/
def pad (p : Params) (msg : Bytes) : Bytes :=
  let blk := p.wordBits * 2
  let lenBytes := p.wordBits / 4
  let used := (msg.length + 1 + lenBytes) % blk
  let zeros := if used = 0 then 0 else blk - used
  msg ++ 0x80 :: List.replicate zeros 0 ++ beBytes lenBytes (msg.length * 8)

def mkSt : List Nat → St
  | [a, b, c, d, e, f, g, h] => ⟨a, b, c, d, e, f, g, h⟩
  | _ => ⟨0, 0, 0, 0, 0, 0, 0, 0⟩

def digest (p : Params) (iv : List Nat) (outLen : Nat) (msg : Bytes) : Bytes :=
  let padded := pad p msg
  let blocks := chunks (p.wordBits * 2) (padded.length / (p.wordBits * 2)) padded
  let s := blocks.foldl (compress p) (mkSt iv)
  ([s.a, s.b, s.c, s.d, s.e, s.f, s.g, s.h].flatMap (beBytes (p.wordBits / 8))).take outLen

/-- Function sha256.Sum256. -/
def sum256 : Bytes → Bytes := digest p256 H256 32

/-- Function sha512.Sum384. -/
def sum384 : Bytes → Bytes := digest p512 H384 48

/-- Function sha512.Sum512. -/
def sum512 : Bytes → Bytes := digest p512 H512 64

end sha2

namespace hmac

/-- The hash functions the HMAC signing methods of the token library use
(crypto.SHA256, crypto.SHA384, crypto.SHA512). -/
inductive Hash
  | SHA256
  | SHA384
  | SHA512
deriving DecidableEq, Repr

def Hash.sum : Hash → Bytes → Bytes
  | .SHA256 => sha2.sum256
  | .SHA384 => sha2.sum384
  | .SHA512 => sha2.sum512

def Hash.blockSize : Hash → Nat
  | .SHA256 => 64
  | .SHA384 => 128
  | .SHA512 => 128

/-- The key, hashed when longer than a block, padded with zeros to a block and
combined with the pad byte. -/
def keyPad (h : Hash) (key : Bytes) (padByte : Nat) : Bytes :=
  let k0 := if key.length > h.blockSize then h.sum key else key
  (k0 ++ List.replicate (h.blockSize - k0.length) 0).map (fun b => b ^^^ padByte)

/-- The MAC that hmac.New(h, key) computes over msg. -/
def sum (h : Hash) (key msg : Bytes) : Bytes :=
  h.sum (keyPad h key 0x5c ++ h.sum (keyPad h key 0x36 ++ msg))

/-- Function hmac.Equal: equality of the two MACs (in constant time, which the
embedding does not observe). -/
def Equal (mac1 mac2 : Bytes) : Bool := decide (mac1 = mac2)

end hmac

namespace base64

/-- The URL alphabet of encoding/base64: the character of a six-bit value. -/
def encodeChar (v : Nat) : Nat :=
  if v < 26 then 65 + v
  else if v < 52 then 97 + (v - 26)
  else if v < 62 then 48 + (v - 52)
  else if v = 62 then 45
  else 95

/-- The six-bit value of a character of the URL alphabet. -/
def decodeChar (c : Nat) : Option Nat :=
  if 65 ≤ c ∧ c ≤ 90 then some (c - 65)
  else if 97 ≤ c ∧ c ≤ 122 then some (c - 97 + 26)
  else if 48 ≤ c ∧ c ≤ 57 then some (c - 48 + 52)
  else if c = 45 then some 62
  else if c = 95 then some 63
  else none

/-- RawURLEncoding.EncodeToString: no padding characters. -/
def encode : Bytes → Bytes
  | a :: b :: c :: rest =>
    encodeChar (a / 4) :: encodeChar (a % 4 * 16 + b / 16)
      :: encodeChar (b % 16 * 4 + c / 64) :: encodeChar (c % 64) :: encode rest
  | [a, b] => [encodeChar (a / 4), encodeChar (a % 4 * 16 + b / 16), encodeChar (b % 16 * 4)]
  | [a] => [encodeChar (a / 4), encodeChar (a % 4 * 16)]
  | [] => []

def decodeChars : Bytes → Option (List Nat)
  | [] => some []
  | c :: cs =>
    match decodeChar c with
    | none => none
    | some v => (decodeChars cs).map (fun vs => v :: vs)

/-- Four six-bit values give three bytes. At the end of the input three values
give two bytes and two values give one byte, the bits left over being dropped
without a check (the decoder is not in strict mode); one value alone is
corrupt input. -/
def decodeSextets : List Nat → Option Bytes
  | s0 :: s1 :: s2 :: s3 :: rest =>
    (decodeSextets rest).map (fun bs =>
      (s0 * 4 + s1 / 16) :: (s1 % 16 * 16 + s2 / 4) :: (s2 % 4 * 64 + s3) :: bs)
  | [s0, s1, s2] => some [s0 * 4 + s1 / 16, s1 % 16 * 16 + s2 / 4]
  | [s0, s1] => some [s0 * 4 + s1 / 16]
  | [_] => none
  | [] => some []

/-- RawURLEncoding.DecodeString: carriage returns and line feeds are skipped,
any other character outside the alphabet (the padding character included) is
corrupt input. -/
def decode (s : Bytes) : Option Bytes :=
  match decodeChars (s.filter (fun c => c != 10 && c != 13)) with
  | none => none
  | some vs => decodeSextets vs

end base64

namespace utf8

/-- The UTF-8 encoding of a character. -/
def encodeChar (c : Char) : Bytes :=
  let n := c.toNat
  if n < 0x80 then [n]
  else if n < 0x800 then [0xC0 + n / 64, 0x80 + n % 64]
  else if n < 0x10000 then [0xE0 + n / 4096, 0x80 + n / 64 % 64, 0x80 + n % 64]
  else [0xF0 + n / 262144, 0x80 + n / 4096 % 64, 0x80 + n / 64 % 64, 0x80 + n % 64]

/-- Conversion of text to bytes. -/
def encode (cs : List Char) : Bytes := cs.flatMap encodeChar

def isCont (b : Nat) : Bool := 0x80 ≤ b && b ≤ 0xBF

/-- Function utf8.DecodeRune: the code point at the head of the bytes and its
width; an invalid or short sequence gives U+FFFD with width 1. -/
def decodeRune : Bytes → Nat × Nat
  | [] => (0xFFFD, 0)
  | b0 :: r =>
    if b0 < 0x80 then (b0, 1)
    else if 0xC2 ≤ b0 ∧ b0 ≤ 0xDF then
      match r with
      | b1 :: _ =>
        if isCont b1 then ((b0 - 0xC0) * 64 + (b1 - 0x80), 2) else (0xFFFD, 1)
      | _ => (0xFFFD, 1)
    else if 0xE0 ≤ b0 ∧ b0 ≤ 0xEF then
      match r with
      | b1 :: b2 :: _ =>
        let lo := if b0 = 0xE0 then 0xA0 else 0x80
        let hi := if b0 = 0xED then 0x9F else 0xBF
        if lo ≤ b1 ∧ b1 ≤ hi ∧ isCont b2 then
          ((b0 - 0xE0) * 4096 + (b1 - 0x80) * 64 + (b2 - 0x80), 3)
        else (0xFFFD, 1)
      | _ => (0xFFFD, 1)
    else if 0xF0 ≤ b0 ∧ b0 ≤ 0xF4 then
      match r with
      | b1 :: b2 :: b3 :: _ =>
        let lo := if b0 = 0xF0 then 0x90 else 0x80
        let hi := if b0 = 0xF4 then 0x8F else 0xBF
        if lo ≤ b1 ∧ b1 ≤ hi ∧ isCont b2 ∧ isCont b3 then
          ((b0 - 0xF0) * 262144 + (b1 - 0x80) * 4096 + (b2 - 0x80) * 64 + (b3 - 0x80), 4)
        else (0xFFFD, 1)
      | _ => (0xFFFD, 1)
    else (0xFFFD, 1)

def decodeAux : Nat → Bytes → List Char
  | 0, _ => []
  | _, [] => []
  | fuel + 1, b :: bs =>
    let r := decodeRune (b :: bs)
    Char.ofNat r.1 :: decodeAux fuel ((b :: bs).drop r.2)

/-- Conversion of bytes to text, every invalid byte becoming U+FFFD, as the
JSON decoder reads the bytes of a string. -/
def decode (bs : Bytes) : List Char := decodeAux bs.length bs

end utf8

namespace json

/-- A JSON number as the decimal it spells: the sign, the digits of its integer
and fraction parts read as one natural number, and the power of ten that
scales it. -/
structure Number where
  neg : Bool
  mant : Nat
  exp : Int
deriving DecidableEq, Repr

/-- The number an integer is written as. -/
def Number.ofInt (i : Int) : Number := ⟨decide (i < 0), i.natAbs, 0⟩

mutual
/-- A value the encoder writes or the decoder reads: null, a Boolean, a number,
a string of valid text, a Go string as the program holds it (any bytes; the
decoder never yields one), an array, or an object with its members in the
order of the text. -/
inductive Value
  | null
  | bool (b : Bool)
  | num (n : Number)
  | str (s : String)
  | raw (b : Bytes)
  | arr (xs : Elems)
  | obj (ms : Members)
/-- The elements of an array. -/
inductive Elems
  | nil
  | cons (v : Value) (rest : Elems)
/-- The members of an object. -/
inductive Members
  | nil
  | cons (k : String) (v : Value) (rest : Members)
end

-- Equality of values is decidable.
deriving instance DecidableEq for Value

/-- The elements as a list. -/
def Elems.toList : Elems → List Value
  | .nil => []
  | .cons v rest => v :: rest.toList

/-- The members as a list. -/
def Members.toList : Members → List (String × Value)
  | .nil => []
  | .cons k v rest => (k, v) :: rest.toList

/-- Lower-case hexadecimal digit of a value below 16. -/
def hexDigit (v : Nat) : Char := Char.ofNat (if v < 10 then 48 + v else 87 + v)

/-- How the encoder writes one character of a string (HTML escaping is on, as
in json.Marshal): the quote and the backslash get a backslash, control
characters their short form or a u-escape, and so do the characters
less-than, greater-than, ampersand, U+2028 and U+2029. -/
def escapeChar (c : Char) : List Char :=
  let n := c.toNat
  if n = 0x22 then [Char.ofNat 0x5C, Char.ofNat 0x22]
  else if n = 0x5C then [Char.ofNat 0x5C, Char.ofNat 0x5C]
  else if n = 0x08 then [Char.ofNat 0x5C, Char.ofNat 0x62]
  else if n = 0x0C then [Char.ofNat 0x5C, Char.ofNat 0x66]
  else if n = 0x0A then [Char.ofNat 0x5C, Char.ofNat 0x6E]
  else if n = 0x0D then [Char.ofNat 0x5C, Char.ofNat 0x72]
  else if n = 0x09 then [Char.ofNat 0x5C, Char.ofNat 0x74]
  else if n < 0x20 ∨ n = 0x3C ∨ n = 0x3E ∨ n = 0x26 then
    [Char.ofNat 0x5C, Char.ofNat 0x75, Char.ofNat 0x30, Char.ofNat 0x30,
     hexDigit (n / 16), hexDigit (n % 16)]
  else if n = 0x2028 ∨ n = 0x2029 then
    [Char.ofNat 0x5C, Char.ofNat 0x75, Char.ofNat 0x32, Char.ofNat 0x30,
     Char.ofNat 0x32, hexDigit (n % 16)]
  else [c]

/-- A string of valid text as the encoder writes it, quotes included. -/
def quote (s : String) : List Char :=
  Char.ofNat 0x22 :: (s.data.flatMap escapeChar ++ [Char.ofNat 0x22])

/-- What the encoder writes for a byte that is not part of a valid UTF-8
sequence: the escape of U+FFFD. -/
def invalidEscape : List Char :=
  [Char.ofNat 0x5C, Char.ofNat 0x75, Char.ofNat 0x66, Char.ofNat 0x66, Char.ofNat 0x66,
   Char.ofNat 0x64]

/-- The inside of a Go string as the encoder writes it: rune by rune, a byte
that starts no valid sequence as the escape of U+FFFD. -/
def quoteAux : Nat → Bytes → List Char
  | 0, _ => []
  | _, [] => []
  | fuel + 1, b :: bs =>
    let r := utf8.decodeRune (b :: bs)
    (if r.1 = 0xFFFD ∧ r.2 = 1 then invalidEscape else escapeChar (Char.ofNat r.1))
      ++ quoteAux fuel ((b :: bs).drop r.2)

/-- A Go string as the encoder writes it, quotes included. -/
def quoteBytes (s : Bytes) : List Char :=
  Char.ofNat 0x22 :: (quoteAux s.length s ++ [Char.ofNat 0x22])

/-- Decimal digits of a number, most significant first. -/
def decDigits : Nat → Nat → List Char
  | 0, _ => []
  | fuel + 1, n =>
    if n < 10 then [Char.ofNat (48 + n)]
    else decDigits fuel (n / 10) ++ [Char.ofNat (48 + n % 10)]

/-- Function strconv.FormatInt in base 10. -/
def formatInt (i : Int) : List Char :=
  if i < 0 then Char.ofNat 0x2D :: decDigits (i.natAbs + 1) i.natAbs
  else decDigits (i.natAbs + 1) i.natAbs

/-- The text of a number: for a whole number what strconv.FormatInt writes,
for any other the digits followed by the letter e and the power of ten. -/
def Number.text (n : Number) : List Char :=
  (if n.neg then [Char.ofNat 0x2D] else []) ++ decDigits (n.mant + 1) n.mant
    ++ (if n.exp = 0 then [] else Char.ofNat 0x65 :: formatInt n.exp)

mutual
/-- A value as the encoder writes it. The program writes strings and whole
numbers only; an object is written in the order it holds its members. -/
def renderValue : Value → List Char
  | .null => "null".data
  | .bool true => "true".data
  | .bool false => "false".data
  | .num n => n.text
  | .str s => quote s
  | .raw b => quoteBytes b
  | .arr xs => Char.ofNat 0x5B :: (renderElems xs ++ [Char.ofNat 0x5D])
  | .obj ms => Char.ofNat 0x7B :: (renderFields ms ++ [Char.ofNat 0x7D])
/-- The elements of an array, separated by commas. -/
def renderElems : Elems → List Char
  | .nil => []
  | .cons v .nil => renderValue v
  | .cons v rest => renderValue v ++ Char.ofNat 0x2C :: renderElems rest
/-- The members of an object held in a value, separated by commas. -/
def renderFields : Members → List Char
  | .nil => []
  | .cons k v .nil => quote k ++ Char.ofNat 0x3A :: renderValue v
  | .cons k v rest => quote k ++ Char.ofNat 0x3A :: (renderValue v ++ Char.ofNat 0x2C :: renderFields rest)
end

def renderMembers : List (String × Value) → List Char
  | [] => []
  | [(k, v)] => quote k ++ Char.ofNat 0x3A :: renderValue v
  | (k, v) :: m :: ms =>
    quote k ++ Char.ofNat 0x3A :: (renderValue v ++ Char.ofNat 0x2C :: renderMembers (m :: ms))

/-- An object as the encoder writes it: no white space. -/
def renderObject (ms : List (String × Value)) : List Char :=
  Char.ofNat 0x7B :: (renderMembers ms ++ [Char.ofNat 0x7D])

/-- The bytes json.Marshal returns for an object with these members. -/
def Marshal (ms : List (String × Value)) : Bytes := utf8.encode (renderObject ms)

def isWs (c : Char) : Bool :=
  c.toNat = 0x20 || c.toNat = 0x09 || c.toNat = 0x0A || c.toNat = 0x0D

def skipWs : List Char → List Char
  | [] => []
  | c :: cs => if isWs c then skipWs cs else c :: cs

def hexVal (c : Char) : Option Nat :=
  let n := c.toNat
  if 48 ≤ n ∧ n ≤ 57 then some (n - 48)
  else if 97 ≤ n ∧ n ≤ 102 then some (n - 87)
  else if 65 ≤ n ∧ n ≤ 70 then some (n - 55)
  else none

/-- Value of four hexadecimal digits. -/
def hex4 (a b c d : Char) : Option Nat :=
  match hexVal a, hexVal b, hexVal c, hexVal d with
  | some x, some y, some z, some w => some (x * 4096 + y * 256 + z * 16 + w)
  | _, _, _, _ => none

/-- The character a one-letter escape stands for. -/
def simpleEscape (n : Nat) : Option Char :=
  if n = 0x22 ∨ n = 0x5C ∨ n = 0x2F then some (Char.ofNat n)
  else if n = 0x62 then some (Char.ofNat 0x08)
  else if n = 0x66 then some (Char.ofNat 0x0C)
  else if n = 0x6E then some (Char.ofNat 0x0A)
  else if n = 0x72 then some (Char.ofNat 0x0D)
  else if n = 0x74 then some (Char.ofNat 0x09)
  else none

def isSurrogate (r : Nat) : Bool := 0xD800 ≤ r && r < 0xE000

/-- The character of a u-escape with value r, given what follows it: a high
surrogate followed by the escape of a low surrogate is the pair, any other
surrogate is U+FFFD. The second component tells whether the following escape
was consumed. -/
def uEscape (r : Nat) (next : Option Nat) : Char × Bool :=
  if isSurrogate r then
    match next with
    | some r1 =>
      if r < 0xDC00 ∧ 0xDC00 ≤ r1 ∧ r1 < 0xE000 then
        (Char.ofNat ((r - 0xD800) * 1024 + (r1 - 0xDC00) + 0x10000), true)
      else (Char.ofNat 0xFFFD, false)
    | none => (Char.ofNat 0xFFFD, false)
  else (Char.ofNat r, false)

/-- The escape that may follow a u-escape: its value, when the text starts
with a backslash, the letter u and four hexadecimal digits. -/
def peekU : List Char → Option Nat
  | b :: u :: h1 :: h2 :: h3 :: h4 :: _ =>
    if b.toNat = 0x5C ∧ u.toNat = 0x75 then hex4 h1 h2 h3 h4 else none
  | _ => none

/-- The rest of a string after its opening quote: the text of the string and
what follows the closing quote. A raw control character, an unknown escape
and a missing closing quote are errors. -/
def parseStr : Nat → List Char → Option (List Char × List Char)
  | 0, _ => none
  | _, [] => none
  | fuel + 1, c :: cs =>
    let n := c.toNat
    if n = 0x22 then some ([], cs)
    else if n < 0x20 then none
    else if n = 0x5C then
      match cs with
      | [] => none
      | e :: cs1 =>
        if e.toNat = 0x75 then
          match cs1 with
          | h1 :: h2 :: h3 :: h4 :: cs2 =>
            match hex4 h1 h2 h3 h4 with
            | none => none
            | some r =>
              let d := uEscape r (peekU cs2)
              (parseStr fuel (if d.2 then cs2.drop 6 else cs2)).map
                (fun p => (d.1 :: p.1, p.2))
          | _ => none
        else
          match simpleEscape e.toNat with
          | none => none
          | some ch => (parseStr fuel cs1).map (fun p => (ch :: p.1, p.2))
    else (parseStr fuel cs).map (fun p => (c :: p.1, p.2))

def isDigit (c : Char) : Bool := 48 ≤ c.toNat && c.toNat ≤ 57

def digitsValue (ds : List Char) : Nat := ds.foldl (fun a d => a * 10 + (d.toNat - 48)) 0

/-- The integer part of a number: a run of digits, not empty, and no leading
zero before another digit. -/
def parseNat (cs : List Char) : Option (Nat × List Char) :=
  match cs.span isDigit with
  | ([], _) => none
  | (d :: ds, rest) =>
    if d.toNat = 48 ∧ ds ≠ [] then none else some (digitsValue (d :: ds), rest)

/-- The fraction of a number: a point and at least one digit, or nothing. -/
def scanFraction (cs : List Char) : Option (List Char × List Char) :=
  match cs with
  | [] => some ([], [])
  | c :: cs1 =>
    if c.toNat = 0x2E then
      match cs1.span isDigit with
      | ([], _) => none
      | (d :: ds, rest) => some (d :: ds, rest)
    else some ([], c :: cs1)

/-- The exponent of a number: the letter e of either case, an optional sign
and at least one digit, or nothing. -/
def scanExponent (cs : List Char) : Option (Int × List Char) :=
  match cs with
  | [] => some (0, [])
  | c :: cs1 =>
    if c.toNat = 0x65 ∨ c.toNat = 0x45 then
      match cs1 with
      | [] => none
      | s :: cs2 =>
        if s.toNat = 0x2D then
          match cs2.span isDigit with
          | ([], _) => none
          | (d :: ds, rest) => some (-(digitsValue (d :: ds) : Int), rest)
        else
          match (if s.toNat = 0x2B then cs2 else s :: cs2).span isDigit with
          | ([], _) => none
          | (d :: ds, rest) => some ((digitsValue (d :: ds) : Int), rest)
    else some (0, c :: cs1)

/-- A number without its sign at the head of the text: the integer part, an
optional fraction and an optional exponent. -/
def scanUnsigned (neg : Bool) (cs : List Char) : Option (Number × List Char) :=
  match parseNat cs with
  | none => none
  | some (ip, cs1) =>
    match scanFraction cs1 with
    | none => none
    | some (fs, cs2) =>
      match scanExponent cs2 with
      | none => none
      | some (e, cs3) =>
        some (⟨neg, ip * 10 ^ fs.length + digitsValue fs, e - (fs.length : Int)⟩, cs3)

/-- A number at the head of the text, by the grammar of JSON: an optional
minus sign, the integer part, an optional fraction and an optional
exponent. -/
def scanNumber (cs : List Char) : Option (Number × List Char) :=
  match cs with
  | [] => none
  | c :: cs1 => if c.toNat = 0x2D then scanUnsigned true cs1 else scanUnsigned false (c :: cs1)

/-- The nesting of arrays and objects the decoder accepts. -/
def maxNestingDepth : Nat := 10000

mutual
/-- A value at the head of the text and what follows it. The first argument
bounds the recursion, the second counts the arrays and objects that are open
around the value. -/
def parseValue : Nat → Nat → List Char → Option (Value × List Char)
  | 0, _, _ => none
  | fuel + 1, depth, cs =>
    match cs with
    | [] => none
    | c :: cs1 =>
      if c.toNat = 0x22 then (parseStr cs1.length cs1).map (fun p => (.str ⟨p.1⟩, p.2))
      else if c.toNat = 0x7B then
        if maxNestingDepth ≤ depth then none
        else
          match skipWs cs1 with
          | [] => none
          | d :: cs2 =>
            if d.toNat = 0x7D then some (.obj .nil, cs2)
            else (parseMembers fuel (depth + 1) cs1).map (fun p => (.obj p.1, p.2))
      else if c.toNat = 0x5B then
        if maxNestingDepth ≤ depth then none
        else
          match skipWs cs1 with
          | [] => none
          | d :: cs2 =>
            if d.toNat = 0x5D then some (.arr .nil, cs2)
            else (parseElems fuel (depth + 1) cs1).map (fun p => (.arr p.1, p.2))
      else if "true".data.isPrefixOf cs then some (.bool true, cs.drop 4)
      else if "false".data.isPrefixOf cs then some (.bool false, cs.drop 5)
      else if "null".data.isPrefixOf cs then some (.null, cs.drop 4)
      else (scanNumber cs).map (fun p => (.num p.1, p.2))
/-- The members of an object after its opening brace, up to and including the
closing brace. -/
def parseMembers : Nat → Nat → List Char → Option (Members × List Char)
  | 0, _, _ => none
  | fuel + 1, depth, cs =>
    match skipWs cs with
    | [] => none
    | q :: cs1 =>
      if q.toNat ≠ 0x22 then none
      else
        match parseStr cs1.length cs1 with
        | none => none
        | some (k, cs2) =>
          match skipWs cs2 with
          | [] => none
          | col :: cs3 =>
            if col.toNat ≠ 0x3A then none
            else
              match parseValue fuel depth (skipWs cs3) with
              | none => none
              | some (v, cs4) =>
                match skipWs cs4 with
                | [] => none
                | d :: cs5 =>
                  if d.toNat = 0x2C then
                    (parseMembers fuel depth cs5).map (fun p => (.cons ⟨k⟩ v p.1, p.2))
                  else if d.toNat = 0x7D then some (.cons ⟨k⟩ v .nil, cs5)
                  else none
/-- The elements of an array after its opening bracket, up to and including
the closing bracket. -/
def parseElems : Nat → Nat → List Char → Option (Elems × List Char)
  | 0, _, _ => none
  | fuel + 1, depth, cs =>
    match parseValue fuel depth (skipWs cs) with
    | none => none
    | some (v, cs1) =>
      match skipWs cs1 with
      | [] => none
      | d :: cs2 =>
        if d.toNat = 0x2C then (parseElems fuel depth cs2).map (fun p => (.cons v p.1, p.2))
        else if d.toNat = 0x5D then some (.cons v .nil, cs2)
        else none
end

/-- A whole JSON text: one value, with white space around it at most. -/
def parseText (cs : List Char) : Option Value :=
  match parseValue (cs.length + 1) 0 (skipWs cs) with
  | some (v, rest) => if skipWs rest = [] then some v else none
  | none => none

/-- The members json.Unmarshal finds in the bytes when it decodes into a
struct: those of an object in the order of the text; null sets nothing, and
any other value is an error. -/
def Unmarshal (bs : Bytes) : Option (List (String × Value)) :=
  match parseText (utf8.decode bs) with
  | some (.obj ms) => some ms.toList
  | some .null => some []
  | _ => none

/-- The value a Go map holds for a key after decoding: the last member with
that name. -/
def lookup (ms : List (String × Value)) (k : String) : Option Value :=
  (ms.reverse.find? (fun m => m.1 = k)).map (fun m => m.2)

/-- Simple case folding of the characters that can occur in a field name: a
letter and its capital are one, and so are U+017F with the letter s and
U+212A with the letter k. -/
def foldRune (n : Nat) : Nat :=
  if 97 ≤ n ∧ n ≤ 122 then n - 32
  else if n = 0x17F then 83
  else if n = 0x212A then 75
  else n

/-- Whether a member name selects the struct field with this JSON name. -/
def keyMatches (key field : String) : Bool :=
  key.data.map (fun c => foldRune c.toNat) = field.data.map (fun c => foldRune c.toNat)

end json

namespace strconv

/-- A finite float64: the sign, a natural number and the power of two that
scales it. -/
structure Float64 where
  neg : Bool
  mant : Nat
  exp : Int
deriving DecidableEq, Repr

/-- The number of binary digits of n, for a first argument that is at least
that number. -/
def bitLen : Nat → Nat → Nat
  | 0, _ => 0
  | fuel + 1, n => if n = 0 then 0 else bitLen fuel (n / 2) + 1

/-- The position of the highest binary digit of n that is one. -/
def log2 (n : Nat) : Nat := bitLen n n - 1

/-- Whether p / q is at least 2 ^ e. -/
def atLeastPow (p q : Nat) (e : Int) : Bool :=
  if 0 ≤ e then decide (q * 2 ^ e.toNat ≤ p) else decide (q ≤ p * 2 ^ (-e).toNat)

/-- The float64 nearest to the positive ratio p / q, a tie going to the even
neighbour: a number below 2 ^ 53 and a power of two that is at least -1074.
Nothing when the nearest value is beyond the largest float64. -/
def roundRatio (p q : Nat) : Option (Nat × Int) :=
  if p = 0 then some (0, 0)
  else
    let e0 : Int := (log2 p : Int) - (log2 q : Int)
    let e : Int := if atLeastPow p q e0 then e0 else e0 - 1
    let u : Int := max (e - 52) (-1074)
    let num : Nat := if u < 0 then p * 2 ^ (-u).toNat else p
    let den : Nat := if u < 0 then q else q * 2 ^ u.toNat
    let m0 := num / den
    let r := num % den
    let m := if den < 2 * r ∨ (2 * r = den ∧ m0 % 2 = 1) then m0 + 1 else m0
    if 971 < u ∨ (u = 971 ∧ 2 ^ 53 ≤ m) then none else some (m, u)

/-- Function strconv.ParseFloat with bit size 64 on the text of a JSON number:
the nearest float64, or nothing when the number is out of range. A number
below half the smallest float64 is zero. -/
def ParseFloat (n : json.Number) : Option Float64 :=
  if n.mant = 0 then some ⟨n.neg, 0, 0⟩
  else if 342 ≤ n.exp then none
  else if n.exp < 0 ∧ (log2 n.mant : Int) + 1076 ≤ 3 * (-n.exp) then some ⟨n.neg, 0, 0⟩
  else
    match (if 0 ≤ n.exp then roundRatio (n.mant * 10 ^ n.exp.toNat) 1
        else roundRatio n.mant (10 ^ (-n.exp).toNat)) with
    | none => none
    | some (m, e) => some ⟨n.neg, m, e⟩

/-- The whole part of the float, toward zero. -/
def Float64.trunc (f : Float64) : Int :=
  let a : Nat := if 0 ≤ f.exp then f.mant * 2 ^ f.exp.toNat else f.mant / 2 ^ (-f.exp).toNat
  if f.neg then -(a : Int) else (a : Int)

/-- The conversion of a float64 to int64: the whole part when it is an int64,
and the smallest int64 otherwise. -/
def Float64.int64 (f : Float64) : Int :=
  if -(2 : Int) ^ 63 ≤ f.trunc ∧ f.trunc < 2 ^ 63 then f.trunc else -(2 : Int) ^ 63

/-- The conversion to int64 of a float64 that may be out of range, which is
the smallest int64 then. -/
def int64Of (f : Option Float64) : Int :=
  match f with
  | some x => x.int64
  | none => -(2 : Int) ^ 63

/-- The product of two floats, rounded; nothing when it is out of range. -/
def Float64.mul (f g : Float64) : Option Float64 :=
  let e := f.exp + g.exp
  match (if 0 ≤ e then roundRatio (f.mant * g.mant * 2 ^ e.toNat) 1
      else roundRatio (f.mant * g.mant) (2 ^ (-e).toNat)) with
  | none => none
  | some (m, u) => some ⟨f.neg != g.neg, m, u⟩

end strconv

namespace math

/-- Function math.Modf: the whole part and the fraction of a float, both with
the sign of the float. -/
def Modf (f : strconv.Float64) : strconv.Float64 × strconv.Float64 :=
  if 0 ≤ f.exp then (f, ⟨f.neg, 0, 0⟩)
  else (⟨f.neg, f.mant / 2 ^ (-f.exp).toNat, 0⟩, ⟨f.neg, f.mant % 2 ^ (-f.exp).toNat, f.exp⟩)

end math

namespace json

mutual
/-- Whether every number in the value is a float64, as decoding into an
interface value requires. -/
def Value.numbersFit : Value → Bool
  | .num n => (strconv.ParseFloat n).isSome
  | .arr xs => xs.numbersFit
  | .obj ms => ms.numbersFit
  | _ => true
/-- Whether every number in the elements is a float64. -/
def Elems.numbersFit : Elems → Bool
  | .nil => true
  | .cons v rest => v.numbersFit && rest.numbersFit
/-- Whether every number in the members is a float64. -/
def Members.numbersFit : Members → Bool
  | .nil => true
  | .cons _ v rest => v.numbersFit && rest.numbersFit
end

/-- The members json.Unmarshal finds in the bytes when it decodes into a map
from strings to interface values: those of an object, each number a float64;
null leaves the map without members, and any other value is an error. -/
def UnmarshalMap (bs : Bytes) : Option (List (String × Value)) :=
  match parseText (utf8.decode bs) with
  | some (.obj ms) => if ms.numbersFit then some ms.toList else none
  | some .null => some []
  | _ => none

end json

namespace uuid

/-- Type uuid.UUID: sixteen bytes, held as the 128-bit number they spell in
big-endian order. -/
structure UUID where
  val : Nat
  isLt : val < 2 ^ 128
deriving DecidableEq

/-- The zero value of the type. -/
def Nil : UUID := ⟨0, by norm_num⟩

/-- The n low-order hexadecimal digits of x, most significant first. -/
def hexDigits : Nat → Nat → List Char
  | 0, _ => []
  | n + 1, x => json.hexDigit (x / 16 ^ n % 16) :: hexDigits n x

/-- Method String: the form xxxxxxxx-xxxx-xxxx-xxxx-xxxxxxxxxxxx in lower
case. -/
def UUID.String (u : UUID) : String :=
  let h := hexDigits 32 u.val
  ⟨h.take 8 ++ Char.ofNat 0x2D :: ((h.drop 8).take 4 ++ Char.ofNat 0x2D ::
    ((h.drop 12).take 4 ++ Char.ofNat 0x2D :: ((h.drop 16).take 4 ++ Char.ofNat 0x2D ::
      h.drop 20)))⟩

/-- The values of a run of hexadecimal digits of either case. -/
def hexValues : Bytes → Option (List Nat)
  | [] => some []
  | c :: cs =>
    match json.hexVal (Char.ofNat c) with
    | none => none
    | some v => (hexValues cs).map (fun vs => v :: vs)

def hexNumber (vs : List Nat) : Nat := vs.foldl (fun a v => a * 16 + v) 0

/-- An ASCII letter in lower case. -/
def lower (b : Nat) : Nat := if 65 ≤ b ∧ b ≤ 90 then b + 32 else b

/-- The 36 bytes in which ParseBytes looks for the canonical form: the bytes
themselves when there are 36 of them, what follows the prefix urn:uuid: (in
either case) when there are 45, and what follows the first byte when there
are 38, as for a form in braces; of such a form only the middle 36 bytes are
examined. -/
def canonicalPart (b : Bytes) : Option Bytes :=
  if b.length = 36 then some b
  else if b.length = 36 + 9 then
    (if (b.take 9).map lower = ascii "urn:uuid:" then some (b.drop 9) else none)
  else if b.length = 36 + 2 then some ((b.drop 1).take 36)
  else none

/-- Function uuid.ParseBytes, which UnmarshalText calls: 32 hexadecimal digits,
or the canonical form of 36 bytes, with hyphens at positions 8, 13, 18 and 23
and hexadecimal digits of either case elsewhere, as it stands, after the
prefix urn:uuid: or between two more bytes. -/
def ParseBytes (b : Bytes) : Option UUID :=
  if b.length = 32 then
    (hexValues b).map (fun vs => ⟨hexNumber vs % 2 ^ 128, Nat.mod_lt _ (by norm_num)⟩)
  else
    match canonicalPart b with
    | none => none
    | some cs =>
      if cs.getD 8 0 = 0x2D ∧ cs.getD 13 0 = 0x2D ∧ cs.getD 18 0 = 0x2D
          ∧ cs.getD 23 0 = 0x2D then
        (hexValues (cs.take 8 ++ ((cs.drop 9).take 4 ++ ((cs.drop 14).take 4
            ++ ((cs.drop 19).take 4 ++ cs.drop 24))))).map
          (fun vs => ⟨hexNumber vs % 2 ^ 128, Nat.mod_lt _ (by norm_num)⟩)
      else none

end uuid

namespace time

/-- Constant time.Second, in nanoseconds. -/
def Second : Int := 1000000000

/-- Constant time.Hour. -/
def Hour : Int := 3600 * Second

/-- The value an int64 holds after an arithmetic result x: two's complement
wrap-around. -/
def wrap64 (x : Int) : Int := (x + 2 ^ 63) % 2 ^ 64 - 2 ^ 63

/-- Method Time.Add. -/
def Add (t d : Int) : Int := t + d

/-- Method Time.Truncate: t rounded down to a multiple of d; unchanged when d
is not positive. -/
def Truncate (t d : Int) : Int := if d ≤ 0 then t else t - t % d

/-- Method Time.Before. -/
def Before (t u : Int) : Bool := decide (t < u)

/-- Method Time.Unix: whole seconds since the epoch. -/
def Unix (t : Int) : Int := t / Second

/-- The seconds from the first of January of the year 1, from which a Time
counts its seconds, to the Unix epoch. -/
def unixToInternal : Int := 62135596800

/-- The quotient of two int64, which Go truncates toward zero. -/
def quo (a b : Int) : Int := Int.sign a * Int.sign b * ((a.natAbs / b.natAbs : Nat) : Int)

/-- Function time.Unix: the time sec seconds and nsec nanoseconds after the
epoch. The nanoseconds are brought into the range of one second, and the
seconds, counted from the year 1, are an int64. -/
def UnixTime (sec nsec : Int) : Int :=
  let n : Int := if nsec < 0 ∨ 1000000000 ≤ nsec then quo nsec 1000000000 else 0
  let sec1 : Int := wrap64 (sec + n)
  let nsec1 : Int := nsec - n * 1000000000
  let sec2 : Int := if nsec1 < 0 then wrap64 (sec1 - 1) else sec1
  let nsec2 : Int := if nsec1 < 0 then nsec1 + 1000000000 else nsec1
  (wrap64 (sec2 + unixToInternal) - unixToInternal) * Second + nsec2

end time

namespace gojwt

/-- Type jwt.NumericDate: a time.Time. -/
structure NumericDate where
  Time : Int
deriving DecidableEq, Repr

/-- Variable jwt.TimePrecision, at its default. -/
def TimePrecision : Int := time.Second

/-- Function jwt.NewNumericDate: the time truncated to the precision. -/
def NewNumericDate (t : Int) : NumericDate := ⟨time.Truncate t TimePrecision⟩

/-- Function newNumericDateFromSeconds: the date of a number of seconds given
as a float64, as NumericDate.UnmarshalJSON builds it: the whole part and the
fraction by math.Modf, each converted to int64, the fraction after its
product with 1e9 (the smallest int64 when that product is out of range). -/
def newNumericDateFromSeconds (f : strconv.Float64) : NumericDate :=
  let p := math.Modf f
  NewNumericDate (time.UnixTime p.1.int64 (strconv.int64Of (p.2.mul ⟨false, 1000000000, 0⟩)))

/-- Type jwt.RegisteredClaims, without the audience, which this service never
sets. -/
structure RegisteredClaims where
  Issuer : String
  Subject : String
  ExpiresAt : Option NumericDate
  NotBefore : Option NumericDate
  IssuedAt : Option NumericDate
  ID : String
deriving DecidableEq

/-- The signing methods the library registers. -/
inductive SigningMethod
  | HS256 | HS384 | HS512
  | RS256 | RS384 | RS512
  | PS256 | PS384 | PS512
  | ES256 | ES384 | ES512
  | EdDSA
  | none
deriving DecidableEq, Repr

/-- Method Alg: the name a method has in the header. -/
def SigningMethod.Alg : SigningMethod → String
  | .HS256 => "HS256" | .HS384 => "HS384" | .HS512 => "HS512"
  | .RS256 => "RS256" | .RS384 => "RS384" | .RS512 => "RS512"
  | .PS256 => "PS256" | .PS384 => "PS384" | .PS512 => "PS512"
  | .ES256 => "ES256" | .ES384 => "ES384" | .ES512 => "ES512"
  | .EdDSA => "EdDSA"
  | .none => "none"

/-- Function jwt.GetSigningMethod: the method registered under a name. -/
def GetSigningMethod (alg : String) : Option SigningMethod :=
  [SigningMethod.HS256, .HS384, .HS512, .RS256, .RS384, .RS512, .PS256, .PS384, .PS512,
   .ES256, .ES384, .ES512, .EdDSA, .none].find? (fun m => m.Alg = alg)

/-- The type assertion to *jwt.SigningMethodHMAC: the hash of a method of the
HMAC family, nothing for any other method. -/
def SigningMethod.asHMAC : SigningMethod → Option hmac.Hash
  | .HS256 => some .SHA256
  | .HS384 => some .SHA384
  | .HS512 => some .SHA512
  | _ => Option.none

/-- The errors of parsing: the sentinel each is wrapped in, and for invalid
claims which of the two time checks failed. -/
inductive Error
  | malformed
  | unverifiable
  | signatureInvalid
  | invalidClaims (expired notValidYet : Bool)
  | invalidKeyType
  | other
deriving DecidableEq, Repr

/-- Method Sign with a byte-slice key: the HMAC of the signing string for a
method of the HMAC family; every other method refuses a key of that type. -/
def SigningMethod.Sign (m : SigningMethod) (signingString key : Bytes) : Except Error Bytes :=
  match m.asHMAC with
  | some h => .ok (hmac.sum h key signingString)
  | Option.none => .error .invalidKeyType

/-- Method Verify with a byte-slice key. -/
def SigningMethod.Verify (m : SigningMethod) (signingString sig key : Bytes) : Except Error Unit :=
  match m.asHMAC with
  | some h =>
    if hmac.Equal sig (hmac.sum h key signingString) then .ok () else .error .signatureInvalid
  | Option.none => .error .invalidKeyType

/-- Function strings.Split with the separator ".". -/
def splitDots : Bytes → List Bytes
  | [] => [[]]
  | c :: cs =>
    if c = 46 then [] :: splitDots cs
    else
      match splitDots cs with
      | [] => [[c]]
      | p :: ps => (c :: p) :: ps

/-- The two time checks of Validator.Validate with no leeway: the token is
expired unless now is before exp, and not valid yet when now is before nbf. An
absent claim passes, and the issued-at claim is not checked. -/
def validateTimes (now : Int) (c : RegisteredClaims) : Except Error Unit :=
  let expired :=
    match c.ExpiresAt with
    | some e => !(time.Before now e.Time)
    | Option.none => false
  let early :=
    match c.NotBefore with
    | some n => time.Before now n.Time
    | Option.none => false
  if expired || early then .error (.invalidClaims expired early) else .ok ()

end gojwt

namespace jwt

/-- Claims represents the JWT claims. -/
structure Claims where
  UserID : uuid.UUID
  Email : Bytes
  Username : Bytes
  RegisteredClaims : gojwt.RegisteredClaims
deriving DecidableEq

/-- The zero value of the struct, which ValidateToken passes to the parser. -/
def Claims.zero : Claims := ⟨uuid.Nil, [], [], ⟨"", "", none, none, none, ""⟩⟩

/-- A string member with omitempty. -/
def omitEmpty (name value : String) : List (String × json.Value) :=
  if value = "" then [] else [(name, .str value)]

/-- A NumericDate member with omitempty: the whole seconds of the date. -/
def omitNil (name : String) (d : Option gojwt.NumericDate) : List (String × json.Value) :=
  match d with
  | none => []
  | some d => [(name, .num (json.Number.ofInt (time.Unix (time.Truncate d.Time gojwt.TimePrecision))))]

/-- The members json.Marshal writes for the struct, in the order of its
fields. -/
def Claims.members (c : Claims) : List (String × json.Value) :=
  [("user_id", .str c.UserID.String), ("email", .raw c.Email), ("username", .raw c.Username)]
    ++ (omitEmpty "iss" c.RegisteredClaims.Issuer
    ++ (omitEmpty "sub" c.RegisteredClaims.Subject
    ++ (omitNil "exp" c.RegisteredClaims.ExpiresAt
    ++ (omitNil "nbf" c.RegisteredClaims.NotBefore
    ++ (omitNil "iat" c.RegisteredClaims.IssuedAt
    ++ omitEmpty "jti" c.RegisteredClaims.ID)))))

/-- Decoding into a string field whose text the embedding holds as a String:
a string sets it, null leaves it, any other value is an error. -/
def setString (v : json.Value) (old : String) : Option String :=
  match v with
  | .str s => some s
  | .null => some old
  | _ => none

/-- Decoding into a string field whose text the embedding holds as bytes. -/
def setBytes (v : json.Value) (old : Bytes) : Option Bytes :=
  match v with
  | .str s => some (utf8.encode s.data)
  | .null => some old
  | _ => none

/-- Decoding into a UUID field, through its UnmarshalText. -/
def setUUID (v : json.Value) (old : uuid.UUID) : Option uuid.UUID :=
  match v with
  | .str s => uuid.ParseBytes (utf8.encode s.data)
  | .null => some old
  | _ => none

/-- Method NumericDate.UnmarshalJSON on a number: the number is read as a
json.Number, converted by its method Float64, and the date is that of the
float. -/
def floatDate (n : json.Number) : Option gojwt.NumericDate :=
  (strconv.ParseFloat n).map gojwt.newNumericDateFromSeconds

/-- Decoding into a NumericDate pointer, given how the date of a number is
read: null clears the pointer; a number, or a string that spells a number, is
read; any other value is an error. -/
def setDateWith (read : json.Number → Option gojwt.NumericDate) (v : json.Value) :
    Option (Option gojwt.NumericDate) :=
  match v with
  | .num n => (read n).map some
  | .str s =>
    match json.scanNumber s.data with
    | some (n, []) => (read n).map some
    | _ => none
  | .null => some none
  | _ => none

/-- Decoding into the audience, a ClaimStrings, which the embedding does not
keep: a string, an array of strings and null are read, any other value is an
error. -/
def setAudience (v : json.Value) : Option Unit :=
  match v with
  | .str _ => some ()
  | .null => some ()
  | .arr xs =>
    if xs.toList.all (fun x => match x with | .str _ => true | _ => false) then some ()
    else none
  | _ => none

/-- Decoding of one member into the struct, given how the date of a number is
read: the field the name selects is set, a value of the wrong type is an
error, an unknown name is skipped. -/
def setFieldWith (read : json.Number → Option gojwt.NumericDate) (c : Claims)
    (m : String × json.Value) : Option Claims :=
  let r := c.RegisteredClaims
  if json.keyMatches m.1 "user_id" then (setUUID m.2 c.UserID).map (fun u => { c with UserID := u })
  else if json.keyMatches m.1 "email" then (setBytes m.2 c.Email).map (fun s => { c with Email := s })
  else if json.keyMatches m.1 "username" then
    (setBytes m.2 c.Username).map (fun s => { c with Username := s })
  else if json.keyMatches m.1 "iss" then
    (setString m.2 r.Issuer).map (fun s => { c with RegisteredClaims := { r with Issuer := s } })
  else if json.keyMatches m.1 "sub" then
    (setString m.2 r.Subject).map (fun s => { c with RegisteredClaims := { r with Subject := s } })
  else if json.keyMatches m.1 "aud" then
    (setAudience m.2).map (fun _ => c)
  else if json.keyMatches m.1 "exp" then
    (setDateWith read m.2).map (fun d => { c with RegisteredClaims := { r with ExpiresAt := d } })
  else if json.keyMatches m.1 "nbf" then
    (setDateWith read m.2).map (fun d => { c with RegisteredClaims := { r with NotBefore := d } })
  else if json.keyMatches m.1 "iat" then
    (setDateWith read m.2).map (fun d => { c with RegisteredClaims := { r with IssuedAt := d } })
  else if json.keyMatches m.1 "jti" then
    (setString m.2 r.ID).map (fun s => { c with RegisteredClaims := { r with ID := s } })
  else some c

/-- Decoding of one member into the struct by json.Unmarshal. -/
def setField (c : Claims) (m : String × json.Value) : Option Claims :=
  setFieldWith floatDate c m

/-- What json.Unmarshal makes of the bytes, starting from the given struct. -/
def unmarshalClaims (bs : Bytes) (c : Claims) : Option Claims :=
  match json.Unmarshal bs with
  | none => none
  | some ms => ms.foldlM setField c

end jwt

namespace gojwt

/-- Type jwt.Token, for the claims type of this service. -/
structure Token where
  Raw : Bytes
  Method : SigningMethod
  Header : List (String × json.Value)
  Claims : jwt.Claims
  Signature : Bytes
  Valid : Bool
deriving DecidableEq

/-- Function jwt.NewWithClaims. The header is a map with the keys typ and alg,
which the encoder writes in the order of the keys. -/
def NewWithClaims (method : SigningMethod) (claims : jwt.Claims) : Token :=
  ⟨[], method, [("alg", .str method.Alg), ("typ", .str "JWT")], claims, [], false⟩

/-- Method SigningString: the encoded header, a dot, the encoded claims. -/
def Token.SigningString (t : Token) : Bytes :=
  base64.encode (json.Marshal t.Header) ++ 46 :: base64.encode (json.Marshal t.Claims.members)

/-- Method SignedString: the signing string, a dot, the encoded signature. -/
def Token.SignedString (t : Token) (key : Bytes) : Except Error Bytes :=
  match t.Method.Sign t.SigningString key with
  | .error e => .error e
  | .ok sig => .ok (t.SigningString ++ 46 :: base64.encode sig)

/-- The value of the header member alg when it is a string. -/
def headerAlg (header : List (String × json.Value)) : Option String :=
  match json.lookup header "alg" with
  | some (.str a) => some a
  | _ => Option.none

/-- Method Parser.ParseUnverified of the default parser: three segments, the
header and the claims decoded, the method looked up by the header member
alg. -/
def ParseUnverified (tokenString : Bytes) (claims : jwt.Claims) :
    Except Error (Token × Bytes × Bytes × Bytes) :=
  match splitDots tokenString with
  | [p0, p1, p2] =>
    match base64.decode p0 with
    | Option.none => .error .malformed
    | some headerBytes =>
      match json.UnmarshalMap headerBytes with
      | Option.none => .error .malformed
      | some header =>
        match base64.decode p1 with
        | Option.none => .error .malformed
        | some claimBytes =>
          match jwt.unmarshalClaims claimBytes claims with
          | Option.none => .error .malformed
          | some cl =>
            match headerAlg header with
            | Option.none => .error .unverifiable
            | some alg =>
              match GetSigningMethod alg with
              | Option.none => .error .unverifiable
              | some method => .ok (⟨tokenString, method, header, cl, [], false⟩, p0, p1, p2)
  | _ => .error .malformed

/-- Function jwt.ParseWithClaims with the default parser and validator. The
argument now is the reading of time.Now() the validator takes. -/
def ParseWithClaims (now : Int) (tokenString : Bytes) (claims : jwt.Claims)
    (keyFunc : Token → Except Error Bytes) : Except Error Token :=
  match ParseUnverified tokenString claims with
  | .error e => .error e
  | .ok (token, p0, p1, p2) =>
    match base64.decode p2 with
    | Option.none => .error .malformed
    | some sig =>
      match keyFunc token with
      | .error _ => .error .unverifiable
      | .ok key =>
        match token.Method.Verify (p0 ++ 46 :: p1) sig key with
        | .error _ => .error .signatureInvalid
        | .ok _ =>
          match validateTimes now token.Claims.RegisteredClaims with
          | .error e => .error e
          | .ok _ => .ok { token with Signature := sig, Valid := true }

end gojwt

namespace jwt

/-- Service handles JWT operations. -/
structure Service where
  secretKey : Bytes
  expiry : Int
deriving DecidableEq

/-- New creates a new JWT service. The product of the hours and time.Hour is
an int64. -/
def New (secretKey : Bytes) (expiryHours : Int) : Service :=
  ⟨secretKey, time.wrap64 (time.wrap64 expiryHours * time.Hour)⟩

/-- The claims GenerateToken builds (lines 35 to 46). The three times are the
readings of time.Now() for ExpiresAt, IssuedAt and NotBefore, in the order
the struct literal evaluates them. -/
def Service.accessClaims (s : Service) (tExp tIat tNbf : Int) (userID : uuid.UUID)
    (email username : Bytes) : Claims :=
  ⟨userID, email, username,
   ⟨"gc_auth_service", userID.String,
    some (gojwt.NewNumericDate (time.Add tExp s.expiry)),
    some (gojwt.NewNumericDate tNbf),
    some (gojwt.NewNumericDate tIat), ""⟩⟩

/-- GenerateToken generates a new JWT token for a user. -/
def Service.GenerateToken (s : Service) (tExp tIat tNbf : Int) (userID : uuid.UUID)
    (email username : Bytes) : Except gojwt.Error Bytes :=
  let claims := s.accessClaims tExp tIat tNbf userID email username
  let token := gojwt.NewWithClaims .HS256 claims
  token.SignedString s.secretKey

/-- The key function ValidateToken hands to the parser: the secret for a
method of the HMAC family, an error for any other. -/
def Service.keyFunc (s : Service) (token : gojwt.Token) : Except gojwt.Error Bytes :=
  match token.Method.asHMAC with
  | none => .error .other
  | some _ => .ok s.secretKey

/-- ValidateToken validates a JWT token and returns the claims. The argument
now is the reading of time.Now() taken inside the parser. -/
def Service.ValidateToken (s : Service) (now : Int) (tokenString : Bytes) : Except gojwt.Error Claims :=
  match gojwt.ParseWithClaims now tokenString Claims.zero s.keyFunc with
  | .error err => .error err
  | .ok token => if token.Valid then .ok token.Claims else .error .other

/-- The claims GenerateRefreshToken builds (lines 74 to 83). -/
def refreshClaims (tExp tIat tNbf : Int) (userID : uuid.UUID) : Claims :=
  ⟨userID, [], [],
   ⟨"gc_auth_service", userID.String,
    some (gojwt.NewNumericDate (time.Add tExp (7 * 24 * time.Hour))),
    some (gojwt.NewNumericDate tNbf),
    some (gojwt.NewNumericDate tIat), ""⟩⟩

/-- GenerateRefreshToken generates a refresh token (longer expiry). -/
def Service.GenerateRefreshToken (s : Service) (tExp tIat tNbf : Int) (userID : uuid.UUID) :
    Except gojwt.Error Bytes :=
  let claims := refreshClaims tExp tIat tNbf userID
  let token := gojwt.NewWithClaims .HS256 claims
  token.SignedString s.secretKey

end jwt

namespace models

/-- The payload of a response, where the handlers of this development set
one: the map the refresh handler returns. -/
inductive Data
  | none
  | refreshed (access_token : Bytes) (expires_in : Nat)
deriving DecidableEq

/-- APIResponse represents a standard API response. -/
structure APIResponse where
  Success : Bool
  Message : String
  Data : Data
  Error : String
deriving DecidableEq

/-- RefreshTokenRequest represents the request payload for token refresh. -/
structure RefreshTokenRequest where
  RefreshToken : Bytes
deriving DecidableEq

end models

namespace gin

/-- A value stored under a key of the request context. -/
inductive Any
  | uuid (u : uuid.UUID)
  | str (s : Bytes)
deriving DecidableEq

/-- What the embedded handlers read and write of a gin.Context: the
Authorization header of the request (none when the request has none), the
keys set on the context, the response written, and whether the chain of
handlers was aborted. -/
structure Context where
  Authorization : Option Bytes
  Keys : List (String × Any)
  Response : Option (Nat × models.APIResponse)
  Aborted : Bool
deriving DecidableEq

/-- Method GetHeader for the Authorization header: empty when absent. -/
def Context.GetHeader (c : Context) : Bytes := c.Authorization.getD []

/-- Method JSON: writes the status and the body. -/
def Context.JSON (c : Context) (code : Nat) (obj : models.APIResponse) : Context :=
  { c with Response := some (code, obj) }

/-- Method Abort: the pending handlers are not called. -/
def Context.Abort (c : Context) : Context := { c with Aborted := true }

/-- Method Set: stores the value under the key, replacing an earlier one. -/
def Context.Set (c : Context) (key : String) (value : Any) : Context :=
  { c with Keys := (c.Keys.filter (fun kv => kv.1 != key)) ++ [(key, value)] }

/-- Method Get. -/
def Context.Get (c : Context) (key : String) : Option Any :=
  (c.Keys.find? (fun kv => kv.1 = key)).map (fun kv => kv.2)

end gin

namespace strings

/-- Function strings.HasPrefix. -/
def HasPrefix (s p : Bytes) : Bool := p.isPrefixOf s

/-- Function strings.TrimPrefix. -/
def TrimPrefix (s p : Bytes) : Bytes := if HasPrefix s p then s.drop p.length else s

end strings

namespace middleware

/-- Constant http.StatusUnauthorized. -/
def StatusUnauthorized : Nat := 401

/-- AuthMiddleware validates JWT tokens. The argument now is the reading of
the clock inside ValidateToken, and next stands for the handlers that follow
in the chain, which c.Next() runs. The log line is not part of the
embedding. -/
def AuthMiddleware (jwtService : jwt.Service) (now : Int) (next : gin.Context → gin.Context)
    (c : gin.Context) : gin.Context :=
  let authHeader := c.GetHeader
  if authHeader = [] then
    (c.JSON StatusUnauthorized ⟨false, "Authorization header is required", .none, ""⟩).Abort
  else if !strings.HasPrefix authHeader (ascii "Bearer ") then
    (c.JSON StatusUnauthorized ⟨false, "Invalid authorization header format", .none, ""⟩).Abort
  else
    let token := strings.TrimPrefix authHeader (ascii "Bearer ")
    match jwtService.ValidateToken now token with
    | .error _ =>
      (c.JSON StatusUnauthorized ⟨false, "Invalid or expired token", .none, ""⟩).Abort
    | .ok claims =>
      next (((c.Set "user_id" (.uuid claims.UserID)).Set "user_email" (.str claims.Email)).Set
        "user_username" (.str claims.Username))

end middleware

namespace handlers

/-- AuthHandler handles authentication-related requests. Of its fields the
embedding keeps the token service. -/
structure AuthHandler where
  jwtService : jwt.Service
deriving DecidableEq

/-- NewAuthHandler creates a new auth handler. -/
def NewAuthHandler : AuthHandler :=
  ⟨jwt.New (ascii "your-secret-key-change-in-production") 24⟩

/-- RefreshToken handles token refresh. The argument bound is the outcome of
c.ShouldBindJSON: the request, or the text of the binding error. The four
times are the clock readings of ValidateToken and of GenerateToken. -/
def AuthHandler.RefreshToken (h : AuthHandler) (tValidate tExp tIat tNbf : Int)
    (bound : Except String models.RefreshTokenRequest) (c : gin.Context) : gin.Context :=
  match bound with
  | .error err => c.JSON 400 ⟨false, "Invalid request payload", .none, err⟩
  | .ok req =>
    match h.jwtService.ValidateToken tValidate req.RefreshToken with
    | .error _ => c.JSON 401 ⟨false, "Invalid or expired refresh token", .none, ""⟩
    | .ok claims =>
      match h.jwtService.GenerateToken tExp tIat tNbf claims.UserID claims.Email
          claims.Username with
      | .error _ => c.JSON 500 ⟨false, "Internal server error", .none, ""⟩
      | .ok accessToken =>
        c.JSON 200 ⟨true, "Token refreshed successfully",
          .refreshed accessToken (24 * 60 * 60), ""⟩

end handlers

/-! ### Definitions used to state the properties -/

namespace json

/-- A character that ends a value in what the encoder writes: a comma or a
closing brace. -/
def isDelim (r : Char) : Prop := r.toNat = 0x2C ∨ r.toNat = 0x7D

/-- The bytes a Go string has after the encoder wrote it and the decoder read
it: valid UTF-8, every byte that was not part of a valid sequence replaced by
U+FFFD. -/
def coerce (s : Bytes) : Bytes := utf8.encode (utf8.decode s)

end json

namespace uuid

/-- The values of the digits that hexDigits writes. -/
def digitValues : Nat → Nat → List Nat
  | 0, _ => []
  | n + 1, x => (x / 16 ^ n % 16) :: digitValues n x

end uuid

namespace gojwt

/-- A date as it reads back from the wire: at whole seconds. -/
def NumericDate.wire (d : NumericDate) : NumericDate := NewNumericDate d.Time

end gojwt

namespace gojwt

/-- A way of reading the date of a number reads back what the encoder wrote
for this date. -/
def readsBack (read : json.Number → Option NumericDate) (d : Option NumericDate) : Prop :=
  ∀ x, d = some x →
    read (json.Number.ofInt (time.Unix (time.Truncate x.Time TimePrecision))) = some x.wire

end gojwt

namespace jwt

/-- Claims as they read back from the wire: the e-mail and the user name as
valid UTF-8, every date at whole seconds. -/
def Claims.wire (c : Claims) : Claims :=
  ⟨c.UserID, json.coerce c.Email, json.coerce c.Username,
   ⟨c.RegisteredClaims.Issuer, c.RegisteredClaims.Subject,
    c.RegisteredClaims.ExpiresAt.map gojwt.NumericDate.wire,
    c.RegisteredClaims.NotBefore.map gojwt.NumericDate.wire,
    c.RegisteredClaims.IssuedAt.map gojwt.NumericDate.wire,
    c.RegisteredClaims.ID⟩⟩

end jwt

namespace gojwt

/-- The date a number of seconds spells, read exactly: the whole seconds at or
below the number. -/
def exactDate (n : json.Number) : Option NumericDate :=
  let m : Int := if n.neg then -(n.mant : Int) else (n.mant : Int)
  some ⟨(if 0 ≤ n.exp then m * 10 ^ n.exp.toNat else m / 10 ^ (-n.exp).toNat) * time.Second⟩

/-- The claims a token string carries: what its second segment spells, member
by member, each date read exactly. The header, the signature and the times
are not looked at. -/
def encodedClaims (tokenString : Bytes) : Option jwt.Claims :=
  match splitDots tokenString with
  | [_, p1, _] =>
    match base64.decode p1 with
    | Option.none => Option.none
    | some claimBytes =>
      match json.Unmarshal claimBytes with
      | Option.none => Option.none
      | some ms => ms.foldlM (jwt.setFieldWith exactDate) jwt.Claims.zero
  | _ => Option.none

/-- The header of a token string: the members of the JSON object in its first
segment, when the string has three segments and the first decodes to an
object. -/
def tokenHeader (tokenString : Bytes) : Option (List (String × json.Value)) :=
  match splitDots tokenString with
  | [p0, _, _] =>
    match base64.decode p0 with
    | Option.none => Option.none
    | some headerBytes => json.UnmarshalMap headerBytes
  | _ => Option.none

/-- The signing algorithm the header of a token string declares: the member
alg of its header, when that is a string. -/
def declaredAlg (tokenString : Bytes) : Option String :=
  match tokenHeader tokenString with
  | Option.none => Option.none
  | some header => headerAlg header

end gojwt

namespace json

/-- A value the program writes: a string, a whole number, a Boolean or null. -/
def Value.flat : Value → Bool
  | .arr _ => false
  | .obj _ => false
  | .num n => decide (n.exp = 0)
  | _ => true

/-- The value the decoder reads where the encoder wrote this one: a Go string
has become its text. -/
def Value.read : Value → Value
  | .raw b => .str ⟨utf8.decode b⟩
  | v => v

/-- The members of a list as the members of an object. -/
def Members.ofList : List (String × Value) → Members
  | [] => .nil
  | (k, v) :: ms => .cons k v (Members.ofList ms)

end json

namespace time

/-- A time whose whole seconds a float64 holds exactly: within 2 ^ 53 seconds
of the epoch. -/
def exact (t : Int) : Prop := -(2 ^ 53 * Second) ≤ t ∧ t ≤ 2 ^ 53 * Second

instance (t : Int) : Decidable (exact t) := inferInstanceAs (Decidable (_ ∧ _))

end time

/-- The bytes written as lower-case hexadecimal digits. -/
def hexString (bs : Bytes) : String :=
  ⟨bs.flatMap fun b => [json.hexDigit (b / 16 % 16), json.hexDigit (b % 16)]⟩

/-- The bytes with bit k of the byte at position i flipped. -/
def flipBit (bs : Bytes) (i k : Nat) : Bytes := bs.modify (fun b => b ^^^ 2 ^ k) i

/-- The third dot-separated part of a token string and the position at which
it starts. -/
def signatureSegment (tokenString : Bytes) : Option (Nat × Bytes) :=
  match gojwt.splitDots tokenString with
  | [p0, p1, p2] => some (p0.length + 1 + p1.length + 1, p2)
  | _ => none

/-! ### The scenario of the specification -/

namespace scenario

/-- The id 11111111-1111-1111-1111-111111111111. -/
def userID : uuid.UUID := ⟨0x11111111111111111111111111111111, by norm_num⟩

/-- The service with the secret s3cr3t and a lifetime of 24 hours. -/
def service : jwt.Service := jwt.New (ascii "s3cr3t") 24

/-- A clock reading: half a second past 1700000000 seconds. -/
def clock : Int := 1700000000500000000

/-- The claims of the access token issued at that reading. -/
def claims : jwt.Claims :=
  service.accessClaims clock clock clock userID (ascii "a@b.com") (ascii "alice")

/-- The access token issued at that reading. -/
def token : Bytes :=
  ascii ("eyJhbGciOiJIUzI1NiIsInR5cCI6IkpXVCJ9.eyJ1c2VyX2lkIjoiMTExMTExMTEtMTExMS0xMTExLTExMTEtMTExM" ++
    "TExMTExMTExIiwiZW1haWwiOiJhQGIuY29tIiwidXNlcm5hbWUiOiJhbGljZSIsImlzcyI6ImdjX2F1dGhfc2Vydml" ++
    "jZSIsInN1YiI6IjExMTExMTExLTExMTEtMTExMS0xMTExLTExMTExMTExMTExMSIsImV4cCI6MTcwMDA4NjQwMCwib" ++
    "mJmIjoxNzAwMDAwMDAwLCJpYXQiOjE3MDAwMDAwMDB9.rkaMghDKPMkdlJ8ejp2-b-IDg3ezWnLw8wLJcIHG3JU")

/-- The three segments of that token: header, claims and signature. -/
def segments : Bytes × Bytes × Bytes :=
  (ascii "eyJhbGciOiJIUzI1NiIsInR5cCI6IkpXVCJ9",
   ascii ("eyJ1c2VyX2lkIjoiMTExMTExMTEtMTExMS0xMTExLTExMTEtMTExM" ++
    "TExMTExMTExIiwiZW1haWwiOiJhQGIuY29tIiwidXNlcm5hbWUiOiJhbGljZSIsImlzcyI6ImdjX2F1dGhfc2Vydml" ++
    "jZSIsInN1YiI6IjExMTExMTExLTExMTEtMTExMS0xMTExLTExMTExMTExMTExMSIsImV4cCI6MTcwMDA4NjQwMCwib" ++
    "mJmIjoxNzAwMDAwMDAwLCJpYXQiOjE3MDAwMDAwMDB9"),
   ascii "rkaMghDKPMkdlJ8ejp2-b-IDg3ezWnLw8wLJcIHG3JU")

/-- What the parser makes of that token before it verifies the signature. -/
def parsed : gojwt.Token :=
  ⟨token, .HS256, [("alg", .str "HS256"), ("typ", .str "JWT")], claims, [], false⟩

/-- The same token with the second lowest bit of its last character flipped: the
letter U has become the letter W. -/
def flippedToken : Bytes :=
  ascii ("eyJhbGciOiJIUzI1NiIsInR5cCI6IkpXVCJ9.eyJ1c2VyX2lkIjoiMTExMTExMTEtMTExMS0xMTExLTExMTEtMTExM" ++
    "TExMTExMTExIiwiZW1haWwiOiJhQGIuY29tIiwidXNlcm5hbWUiOiJhbGljZSIsImlzcyI6ImdjX2F1dGhfc2Vydml" ++
    "jZSIsInN1YiI6IjExMTExMTExLTExMTEtMTExMS0xMTExLTExMTExMTExMTExMSIsImV4cCI6MTcwMDA4NjQwMCwib" ++
    "mJmIjoxNzAwMDAwMDAwLCJpYXQiOjE3MDAwMDAwMDB9.rkaMghDKPMkdlJ8ejp2-b-IDg3ezWnLw8wLJcIHG3JW")

/-- A token with the same claims whose header declares HS384 and whose signature
is the HMAC-SHA384 of its signing string under the secret of the service. -/
def hs384Token : Bytes :=
  ascii ("eyJhbGciOiJIUzM4NCIsInR5cCI6IkpXVCJ9.eyJ1c2VyX2lkIjoiMTExMTExMTEtMTExMS0xMTExLTExMTEtMTExM" ++
    "TExMTExMTExIiwiZW1haWwiOiJhQGIuY29tIiwidXNlcm5hbWUiOiJhbGljZSIsImlzcyI6ImdjX2F1dGhfc2Vydml" ++
    "jZSIsInN1YiI6IjExMTExMTExLTExMTEtMTExMS0xMTExLTExMTExMTExMTExMSIsImV4cCI6MTcwMDA4NjQwMCwib" ++
    "mJmIjoxNzAwMDAwMDAwLCJpYXQiOjE3MDAwMDAwMDB9.RtI1l9RXAgupTBGm3A6CFP6ECdaHxl49fZVaTT8YqPHqdh" ++
    "fl9DCcNUfSSCbE_fz-")

/-- A token with the same claims whose header declares the algorithm none and
whose signature is empty. -/
def noneToken : Bytes :=
  ascii ("eyJhbGciOiJub25lIiwidHlwIjoiSldUIn0.eyJ1c2VyX2lkIjoiMTExMTExMTEtMTExMS0xMTExLTExMTEtMTExMT" ++
    "ExMTExMTExIiwiZW1haWwiOiJhQGIuY29tIiwidXNlcm5hbWUiOiJhbGljZSIsImlzcyI6ImdjX2F1dGhfc2Vydmlj" ++
    "ZSIsInN1YiI6IjExMTExMTExLTExMTEtMTExMS0xMTExLTExMTExMTExMTExMSIsImV4cCI6MTcwMDA4NjQwMCwibm" ++
    "JmIjoxNzAwMDAwMDAwLCJpYXQiOjE3MDAwMDAwMDB9.")

/-- The sample token of the jwt.io debugger, signed with HS256 under the
secret your-256-bit-secret. Its claims are sub, name and iat. -/
def sampleToken : Bytes :=
  ascii ("eyJhbGciOiJIUzI1NiIsInR5cCI6IkpXVCJ9." ++
    "eyJzdWIiOiIxMjM0NTY3ODkwIiwibmFtZSI6IkpvaG4gRG9lIiwiaWF0IjoxNTE2MjM5MDIyfQ." ++
    "SflKxwRJSMeKKF2QT4fwpMeJf36POk6yJV_adQssw5c")

end scenario

/-! ## Properties -/

/-! ### Known answers

The hash functions, the MAC and the token format of the model, checked against
published values. -/

/-- SHA-256 of the text abc (FIPS 180-4). -/
theorem sum256_abc : hexString (sha2.sum256 (ascii "abc"))
    = "ba7816bf8f01cfea414140de5dae2223b00361a396177a9cb410ff61f20015ad" := by
  decide!

/-- SHA-384 of the text abc (FIPS 180-4). -/
theorem sum384_abc : hexString (sha2.sum384 (ascii "abc"))
    = "cb00753f45a35e8bb5a03d699ac65007272c32ab0eded1631a8b605a43ff5bed" ++
      "8086072ba1e7cc2358baeca134c825a7" := by
  decide!

/-- SHA-512 of the text abc (FIPS 180-4). -/
theorem sum512_abc : hexString (sha2.sum512 (ascii "abc"))
    = "ddaf35a193617abacc417349ae20413112e6fa4e89a97ea20a9eeee64b55d39a" ++
      "2192992a274fc1a836ba3c23a3feebbd454d4423643ce80e2a9ac94fa54ca49f" := by
  decide!

/-- HMAC-SHA-256, test case 2 of RFC 4231. -/
theorem hmac_sha256_rfc4231 :
    hexString (hmac.sum .SHA256 (ascii "Jefe") (ascii "what do ya want for nothing?"))
      = "5bdcc146bf60754e6a042426089575c75a003f089d2739839dec58b964ec3843" := by
  decide!

/-- HMAC-SHA-384, test case 2 of RFC 4231. -/
theorem hmac_sha384_rfc4231 :
    hexString (hmac.sum .SHA384 (ascii "Jefe") (ascii "what do ya want for nothing?"))
      = "af45d2e376484031617f78d2b58a6b1b9c7ef464f5a01b47e42ec3736322445e" ++
        "8e2240ca5e69e2c78b3239ecfab21649" := by
  decide!

/-- HMAC-SHA-512, test case 2 of RFC 4231. -/
theorem hmac_sha512_rfc4231 :
    hexString (hmac.sum .SHA512 (ascii "Jefe") (ascii "what do ya want for nothing?"))
      = "164b7a7bfcf819e2e395fbe73b56e0a387bd64222e831fd610270cd7ea250554" ++
        "9758bf75c05a994a6d034f65f8f0e6fdcaeab1a34d4a6b4b636e070a38bce737" := by
  decide!

/-- The sample token of the jwt.io debugger validates under its secret, with
the subject and the issue date it carries; the member name, which the claims
struct does not have, is skipped. -/
theorem sampleToken_validates :
    (jwt.New (ascii "your-256-bit-secret") 24).ValidateToken 1700000000000000000
        scenario.sampleToken
      = .ok ⟨uuid.Nil, [], [],
          ⟨"", "1234567890", none, none, some ⟨1516239022000000000⟩, ""⟩⟩ := by
  decide!

/-- The decoder of the header reads a member alg next to members that are
objects: the header with the members alg, typ and a jwk object declares
HS256. -/
theorem headerAlg_nested :
    (json.UnmarshalMap (ascii ("\x7b\x22alg\x22:\x22HS256\x22,\x22typ\x22:\x22JWT\x22," ++
      "\x22jwk\x22:\x7b\x22kty\x22:\x22oct\x22\x7d\x7d"))).bind gojwt.headerAlg
      = some "HS256" := by
  decide!

/-- Dates read through float64 and int64: 2 ^ 63 seconds becomes the least
int64, a fraction of a second is dropped, a number above 2 ^ 53 is rounded to
a float64, an exponent is read, a number too large for a float64 is an error,
and a date before the epoch goes down to the whole second below. -/
theorem floatDate_known :
    jwt.floatDate ⟨false, 9223372036854775808, 0⟩ = some ⟨-9223372036854775808000000000⟩
    ∧ jwt.floatDate ⟨false, 17000864005, -1⟩ = some ⟨1700086400000000000⟩
    ∧ jwt.floatDate ⟨false, 9007199254740993, 0⟩ = some ⟨9007199254740992000000000⟩
    ∧ jwt.floatDate ⟨false, 17, 8⟩ = some ⟨1700000000000000000⟩
    ∧ jwt.floatDate ⟨false, 1, 400⟩ = none
    ∧ jwt.floatDate ⟨true, 15, -1⟩ = some ⟨-2000000000⟩ := by
  decide!

/-- The forms of a UUID the decoder reads: 32 digits, the form with hyphens,
the same with the prefix urn:uuid: and the same within braces. -/
theorem ParseBytes_known :
    uuid.ParseBytes (ascii "11111111111111111111111111111111") = some scenario.userID
    ∧ uuid.ParseBytes (ascii "11111111-1111-1111-1111-111111111111") = some scenario.userID
    ∧ uuid.ParseBytes (ascii "urn:uuid:11111111-1111-1111-1111-111111111111")
        = some scenario.userID
    ∧ uuid.ParseBytes (ascii "\x7b11111111-1111-1111-1111-111111111111\x7d")
        = some scenario.userID
    ∧ uuid.ParseBytes (ascii "11111111-1111-1111-1111-11111111111") = none := by
  decide!

/-- The encoder writes a byte that is not valid UTF-8 as the escape of
U+FFFD, and the decoder of the claims reads a body with an exponent, an array
and a nested object. -/
theorem Marshal_invalid :
    json.Marshal [("email", .raw [0xFF, 0x61])]
      = ascii "\x7b\x22email\x22:\x22\x5cufffda\x22\x7d"
    ∧ (jwt.unmarshalClaims (ascii ("\x7b\x22exp\x22:1.7000864005e9,\x22aud\x22:[\x22a\x22]," ++
        "\x22x\x22:\x7b\x22y\x22:[1,2.5e-3,null]\x7d\x7d")) jwt.Claims.zero).map
          (fun c => c.RegisteredClaims.ExpiresAt)
        = some (some ⟨1700086400000000000⟩) := by
  decide!

namespace base64

theorem decodeChar_encodeChar (v : Nat) (h : v < 64) : decodeChar (encodeChar v) = some v := by
  unfold encodeChar decodeChar
  split_ifs <;> first | omega | (congr 1; omega)

theorem encodeChar_ge (v : Nat) : 45 ≤ encodeChar v ∧ encodeChar v ≠ 46 := by
  unfold encodeChar
  split_ifs <;> omega

/-- Every character the encoder writes passes the filter of the decoder and is
not a dot. -/
theorem encode_chars (bs : Bytes) : ∀ c ∈ encode bs, 45 ≤ c ∧ c ≠ 46 := by
  induction bs using encode.induct with
  | case1 a b c rest ih =>
    intro x hx
    simp only [encode, List.mem_cons] at hx
    rcases hx with h | h | h | h | h
    · subst h; exact encodeChar_ge _
    · subst h; exact encodeChar_ge _
    · subst h; exact encodeChar_ge _
    · subst h; exact encodeChar_ge _
    · exact ih x h
  | case2 a b =>
    intro x hx
    simp only [encode, List.mem_cons, List.mem_singleton, List.not_mem_nil, or_false] at hx
    rcases hx with h | h | h <;> (subst h; exact encodeChar_ge _)
  | case3 a =>
    intro x hx
    simp only [encode, List.mem_cons, List.mem_singleton, List.not_mem_nil, or_false] at hx
    rcases hx with h | h <;> (subst h; exact encodeChar_ge _)
  | case4 => intro x hx; simp [encode] at hx

theorem filter_encode (bs : Bytes) :
    (encode bs).filter (fun c => c != 10 && c != 13) = encode bs := by
  rw [List.filter_eq_self]
  intro c hc
  have := encode_chars bs c hc
  simp only [bne_iff_ne, ne_eq, Bool.and_eq_true, decide_eq_true_eq]
  omega

theorem decode_sextets_encode (bs : Bytes) (hb : ∀ b ∈ bs, b < 256) :
    ∃ vs, decodeChars (encode bs) = some vs ∧ decodeSextets vs = some bs := by
  induction bs using encode.induct with
  | case1 a b c rest ih =>
    have ha : a < 256 := hb a (by simp)
    have hb1 : b < 256 := hb b (by simp)
    have hc : c < 256 := hb c (by simp)
    obtain ⟨vs, h1, h2⟩ := ih (fun x hx => hb x (by simp [hx]))
    refine ⟨a / 4 :: (a % 4 * 16 + b / 16) :: (b % 16 * 4 + c / 64) :: c % 64 :: vs, ?_, ?_⟩
    · simp only [encode, decodeChars]
      rw [decodeChar_encodeChar _ (by omega), decodeChar_encodeChar _ (by omega),
        decodeChar_encodeChar _ (by omega), decodeChar_encodeChar _ (by omega), h1]
      rfl
    · simp only [decodeSextets, h2, Option.map_some']
      congr 2
      · omega
      · congr 1
        · omega
        · congr 1; omega
  | case2 a b =>
    have ha : a < 256 := hb a (by simp)
    have hb1 : b < 256 := hb b (by simp)
    refine ⟨[a / 4, a % 4 * 16 + b / 16, b % 16 * 4], ?_, ?_⟩
    · simp only [encode, decodeChars]
      rw [decodeChar_encodeChar _ (by omega), decodeChar_encodeChar _ (by omega),
        decodeChar_encodeChar _ (by omega)]
      rfl
    · simp only [decodeSextets]
      congr 2
      · omega
      · congr 1; omega
  | case3 a =>
    have ha : a < 256 := hb a (by simp)
    refine ⟨[a / 4, a % 4 * 16], ?_, ?_⟩
    · simp only [encode, decodeChars]
      rw [decodeChar_encodeChar _ (by omega), decodeChar_encodeChar _ (by omega)]
      rfl
    · simp only [decodeSextets]
      congr 2
      omega
  | case4 => exact ⟨[], rfl, rfl⟩

/-- Decoding undoes encoding. -/
theorem decode_encode_bytes (bs : Bytes) (hb : ∀ b ∈ bs, b < 256) : decode (encode bs) = some bs := by
  obtain ⟨vs, h1, h2⟩ := decode_sextets_encode bs hb
  simp only [decode, filter_encode, h1, h2]

theorem decodeChar_dot : decodeChar 46 = none := by decide

end base64

theorem char_range (c : Char) :
    c.toNat < 0xD800 ∨ (0xDFFF < c.toNat ∧ c.toNat < 0x110000) := c.valid

namespace utf8

theorem isCont_iff (b : Nat) : isCont b = true ↔ 0x80 ≤ b ∧ b ≤ 0xBF := by
  simp only [isCont, Bool.and_eq_true, decide_eq_true_eq]

theorem decodeRune_one (b0 : Nat) (rest : Bytes) (h : b0 < 0x80) :
    decodeRune (b0 :: rest) = (b0, 1) := by
  simp only [decodeRune, h, if_true]

theorem decodeRune_two (b0 b1 : Nat) (rest : Bytes) (h0 : 0xC2 ≤ b0 ∧ b0 ≤ 0xDF)
    (h1 : 0x80 ≤ b1 ∧ b1 ≤ 0xBF) :
    decodeRune (b0 :: b1 :: rest) = ((b0 - 0xC0) * 64 + (b1 - 0x80), 2) := by
  have e : ¬ b0 < 0x80 := by omega
  simp only [decodeRune, e, h0, (isCont_iff b1).2 h1, if_true, if_false, and_self]

theorem decodeRune_three (b0 b1 b2 : Nat) (rest : Bytes) (h0 : 0xE0 ≤ b0 ∧ b0 ≤ 0xEF)
    (h1 : (if b0 = 0xE0 then 0xA0 else 0x80) ≤ b1 ∧ b1 ≤ (if b0 = 0xED then 0x9F else 0xBF))
    (h2 : 0x80 ≤ b2 ∧ b2 ≤ 0xBF) :
    decodeRune (b0 :: b1 :: b2 :: rest)
      = ((b0 - 0xE0) * 4096 + (b1 - 0x80) * 64 + (b2 - 0x80), 3) := by
  have e : ¬ b0 < 0x80 := by omega
  have e1 : ¬ (0xC2 ≤ b0 ∧ b0 ≤ 0xDF) := by omega
  simp only [decodeRune, e, e1, h0, h1, (isCont_iff b2).2 h2, if_true, if_false, and_self]

theorem decodeRune_four (b0 b1 b2 b3 : Nat) (rest : Bytes) (h0 : 0xF0 ≤ b0 ∧ b0 ≤ 0xF4)
    (h1 : (if b0 = 0xF0 then 0x90 else 0x80) ≤ b1 ∧ b1 ≤ (if b0 = 0xF4 then 0x8F else 0xBF))
    (h2 : 0x80 ≤ b2 ∧ b2 ≤ 0xBF) (h3 : 0x80 ≤ b3 ∧ b3 ≤ 0xBF) :
    decodeRune (b0 :: b1 :: b2 :: b3 :: rest)
      = ((b0 - 0xF0) * 262144 + (b1 - 0x80) * 4096 + (b2 - 0x80) * 64 + (b3 - 0x80), 4) := by
  have e : ¬ b0 < 0x80 := by omega
  have e1 : ¬ (0xC2 ≤ b0 ∧ b0 ≤ 0xDF) := by omega
  have e2 : ¬ (0xE0 ≤ b0 ∧ b0 ≤ 0xEF) := by omega
  simp only [decodeRune, e, e1, e2, h0, h1, (isCont_iff b2).2 h2, (isCont_iff b3).2 h3,
    if_true, if_false, and_self]

theorem encodeChar_lt (c : Char) : ∀ b ∈ encodeChar c, b < 256 := by
  have hv := char_range c
  unfold encodeChar
  intro b hb
  simp only at hb
  split_ifs at hb <;> simp only [List.mem_cons, List.mem_singleton, List.not_mem_nil, or_false] at hb <;> omega

theorem encode_lt (cs : List Char) : ∀ b ∈ encode cs, b < 256 := by
  intro b hb
  simp only [encode, List.mem_flatMap] at hb
  obtain ⟨c, _, h⟩ := hb
  exact encodeChar_lt c b h

theorem decodeRune_encodeChar (c : Char) (rest : Bytes) :
    decodeRune (encodeChar c ++ rest) = (c.toNat, (encodeChar c).length) := by
  have hv := char_range c
  unfold encodeChar
  simp only
  split_ifs with h1 h2 h3
  · exact decodeRune_one _ _ h1
  · rw [List.cons_append, List.cons_append, List.nil_append,
      decodeRune_two _ _ _ (by omega) (by omega)]
    simp only [List.length_cons, List.length_nil, Prod.mk.injEq, and_true]
    omega
  · rw [List.cons_append, List.cons_append, List.cons_append, List.nil_append,
      decodeRune_three _ _ _ _ (by omega) (by split_ifs <;> omega) (by omega)]
    simp only [List.length_cons, List.length_nil, Prod.mk.injEq, and_true]
    omega
  · rw [List.cons_append, List.cons_append, List.cons_append, List.cons_append, List.nil_append,
      decodeRune_four _ _ _ _ _ (by omega) (by split_ifs <;> omega) (by omega) (by omega)]
    simp only [List.length_cons, List.length_nil, Prod.mk.injEq, and_true]
    omega

theorem encodeChar_length_pos (c : Char) : 0 < (encodeChar c).length := by
  unfold encodeChar
  simp only
  split_ifs <;> simp

theorem decodeAux_encode (cs : List Char) :
    ∀ fuel, (encode cs).length ≤ fuel → decodeAux fuel (encode cs) = cs := by
  induction cs with
  | nil => intro fuel _; cases fuel <;> rfl
  | cons c cs ih =>
    intro fuel hf
    have hl := encodeChar_length_pos c
    have he : encode (c :: cs) = encodeChar c ++ encode cs := by simp [encode]
    rw [he] at hf ⊢
    rw [List.length_append] at hf
    obtain ⟨b, bs, hb⟩ : ∃ b bs, encodeChar c ++ encode cs = b :: bs := by
      cases h : encodeChar c ++ encode cs with
      | nil => rw [List.append_eq_nil] at h; rw [h.1] at hl; simp at hl
      | cons b bs => exact ⟨b, bs, rfl⟩
    cases fuel with
    | zero => omega
    | succ fuel =>
      rw [hb, decodeAux, ← hb, decodeRune_encodeChar]
      simp only [List.drop_left, Char.ofNat_toNat]
      rw [ih fuel (by omega)]

/-- Decoding undoes encoding. -/
theorem decode_encode_text (cs : List Char) : decode (encode cs) = cs :=
  decodeAux_encode cs _ (le_refl _)

end utf8

theorem toNat_ofNat_small (n : Nat) (h : n < 0xD800) : (Char.ofNat n).toNat = n := by
  have hv : n.isValidChar := Or.inl h
  unfold Char.ofNat
  rw [dif_pos hv]
  rfl

theorem char_eq_of_toNat (c : Char) (n : Nat) (h : c.toNat = n) : c = Char.ofNat n := by
  rw [← h, Char.ofNat_toNat]

namespace json

theorem hexVal_hexDigit (v : Nat) (h : v < 16) : hexVal (hexDigit v) = some v := by
  unfold hexVal hexDigit
  by_cases h10 : v < 10
  · rw [if_pos h10, toNat_ofNat_small _ (by omega)]
    simp only
    rw [if_pos (by omega)]
    congr 1
    omega
  · rw [if_neg h10, toNat_ofNat_small _ (by omega)]
    simp only
    rw [if_neg (by omega), if_pos (by omega)]
    congr 1
    omega

theorem parseStr_quote (fuel : Nat) (q : Char) (rest : List Char) (hq : q.toNat = 0x22) :
    parseStr (fuel + 1) (q :: rest) = some ([], rest) := by
  simp only [parseStr, hq, if_true]

theorem parseStr_raw (fuel : Nat) (c : Char) (cs : List Char) (h1 : c.toNat ≠ 0x22)
    (h2 : ¬ c.toNat < 0x20) (h3 : c.toNat ≠ 0x5C) :
    parseStr (fuel + 1) (c :: cs) = (parseStr fuel cs).map (fun p => (c :: p.1, p.2)) := by
  simp only [parseStr, h1, h2, h3, if_false]

theorem parseStr_simple (fuel : Nat) (b e ch : Char) (cs : List Char) (hb : b.toNat = 0x5C)
    (he : e.toNat ≠ 0x75) (hs : simpleEscape e.toNat = some ch) :
    parseStr (fuel + 1) (b :: e :: cs) = (parseStr fuel cs).map (fun p => (ch :: p.1, p.2)) := by
  simp only [parseStr, hb, he, hs, if_false, if_true]
  simp

theorem parseStr_u (fuel : Nat) (b u h1 h2 h3 h4 : Char) (r : Nat) (cs : List Char)
    (hb : b.toNat = 0x5C) (hu : u.toNat = 0x75) (hx : hex4 h1 h2 h3 h4 = some r)
    (hr : isSurrogate r = false) :
    parseStr (fuel + 1) (b :: u :: h1 :: h2 :: h3 :: h4 :: cs)
      = (parseStr fuel cs).map (fun p => (Char.ofNat r :: p.1, p.2)) := by
  simp only [parseStr, hb, hu, hx, uEscape, hr, if_false, if_true]
  simp

theorem hex4_digits (a b c d : Nat) (ha : a < 16) (hb : b < 16) (hc : c < 16) (hd : d < 16) :
    hex4 (hexDigit a) (hexDigit b) (hexDigit c) (hexDigit d)
      = some (a * 4096 + b * 256 + c * 16 + d) := by
  simp only [hex4, hexVal_hexDigit _ ha, hexVal_hexDigit _ hb, hexVal_hexDigit _ hc,
    hexVal_hexDigit _ hd]

theorem hexDigit_zero : hexDigit 0 = Char.ofNat 0x30 := by decide
theorem hexDigit_two : hexDigit 2 = Char.ofNat 0x32 := by decide

/-- Reading back what the encoder wrote for one character of a string. -/
theorem parseStr_escapeChar (fuel : Nat) (c : Char) (rest : List Char) :
    parseStr (fuel + 1) (escapeChar c ++ rest)
      = (parseStr fuel rest).map (fun p => (c :: p.1, p.2)) := by
  have hbs : (Char.ofNat 0x5C).toNat = 0x5C := by decide
  unfold escapeChar
  simp only
  split_ifs with h1 h2 h3 h4 h5 h6 h7 h8 h9
  · rw [List.cons_append, List.cons_append, List.nil_append,
      parseStr_simple fuel _ _ c _ hbs (by decide)
        (by rw [char_eq_of_toNat c _ h1]; decide)]
  · rw [List.cons_append, List.cons_append, List.nil_append,
      parseStr_simple fuel _ _ c _ hbs (by decide)
        (by rw [char_eq_of_toNat c _ h2]; decide)]
  · rw [List.cons_append, List.cons_append, List.nil_append,
      parseStr_simple fuel _ _ c _ hbs (by decide)
        (by rw [char_eq_of_toNat c _ h3]; decide)]
  · rw [List.cons_append, List.cons_append, List.nil_append,
      parseStr_simple fuel _ _ c _ hbs (by decide)
        (by rw [char_eq_of_toNat c _ h4]; decide)]
  · rw [List.cons_append, List.cons_append, List.nil_append,
      parseStr_simple fuel _ _ c _ hbs (by decide)
        (by rw [char_eq_of_toNat c _ h5]; decide)]
  · rw [List.cons_append, List.cons_append, List.nil_append,
      parseStr_simple fuel _ _ c _ hbs (by decide)
        (by rw [char_eq_of_toNat c _ h6]; decide)]
  · rw [List.cons_append, List.cons_append, List.nil_append,
      parseStr_simple fuel _ _ c _ hbs (by decide)
        (by rw [char_eq_of_toNat c _ h7]; decide)]
  · have hx := hex4_digits 0 0 (c.toNat / 16) (c.toNat % 16) (by omega) (by omega)
      (by omega) (by omega)
    rw [hexDigit_zero] at hx
    simp only [List.cons_append, List.nil_append]
    rw [parseStr_u fuel _ _ _ _ _ _ _ _ hbs (by decide) hx
      (by simp only [isSurrogate, Bool.and_eq_false_imp, decide_eq_true_eq, decide_eq_false_iff_not]; omega)]
    have : 0 * 4096 + 0 * 256 + c.toNat / 16 * 16 + c.toNat % 16 = c.toNat := by omega
    rw [this, Char.ofNat_toNat]
  · have hx := hex4_digits 2 0 2 (c.toNat % 16) (by omega) (by omega)
      (by omega) (by omega)
    rw [hexDigit_zero, hexDigit_two] at hx
    simp only [List.cons_append, List.nil_append]
    rw [parseStr_u fuel _ _ _ _ _ _ _ _ hbs (by decide) hx
      (by simp only [isSurrogate, Bool.and_eq_false_imp, decide_eq_true_eq, decide_eq_false_iff_not]; omega)]
    have : 2 * 4096 + 0 * 256 + 2 * 16 + c.toNat % 16 = c.toNat := by omega
    rw [this, Char.ofNat_toNat]
  · rw [List.cons_append, List.nil_append, parseStr_raw fuel c rest h1 (by omega) h2]

/-- Reading back the body of a string the encoder wrote. -/
theorem parseStr_escaped (s : List Char) (q : Char) (hq : q.toNat = 0x22) (rest : List Char) :
    ∀ fuel, s.length + 1 ≤ fuel →
      parseStr fuel (s.flatMap escapeChar ++ q :: rest) = some (s, rest) := by
  induction s with
  | nil =>
    intro fuel hf
    obtain ⟨f, rfl⟩ : ∃ f, fuel = f + 1 := ⟨fuel - 1, by simp at hf; omega⟩
    simpa using parseStr_quote f q rest hq
  | cons c s ih =>
    intro fuel hf
    obtain ⟨f, rfl⟩ : ∃ f, fuel = f + 1 := ⟨fuel - 1, by simp at hf; omega⟩
    rw [List.flatMap_cons, List.append_assoc, parseStr_escapeChar, ih f (by simp at hf ⊢; omega)]
    rfl

theorem escapeChar_length_pos (c : Char) : 0 < (escapeChar c).length := by
  unfold escapeChar
  simp only
  split_ifs <;> simp

theorem escaped_length (s : List Char) : s.length ≤ (s.flatMap escapeChar).length := by
  induction s with
  | nil => simp
  | cons c s ih =>
    have := escapeChar_length_pos c
    simp only [List.flatMap_cons, List.length_append, List.length_cons]
    omega

end json

namespace json

theorem digit_char (d : Nat) (h : d < 10) :
    (Char.ofNat (48 + d)).toNat = 48 + d ∧ isDigit (Char.ofNat (48 + d)) = true := by
  have e := toNat_ofNat_small (48 + d) (by omega)
  refine ⟨e, ?_⟩
  simp only [isDigit, e, Bool.and_eq_true, decide_eq_true_eq]
  omega

theorem decDigits_isDigit : ∀ fuel n, ∀ c ∈ decDigits fuel n, isDigit c = true := by
  intro fuel
  induction fuel with
  | zero => intro n c hc; simp [decDigits] at hc
  | succ f ih =>
    intro n c hc
    unfold decDigits at hc
    split_ifs at hc with h
    · simp only [List.mem_singleton] at hc
      subst hc
      exact (digit_char n h).2
    · simp only [List.mem_append, List.mem_singleton] at hc
      rcases hc with hc | hc
      · exact ih _ c hc
      · subst hc
        exact (digit_char _ (by omega)).2

theorem digitsValue_append (xs : List Char) (d : Char) :
    digitsValue (xs ++ [d]) = digitsValue xs * 10 + (d.toNat - 48) := by
  simp [digitsValue, List.foldl_append]

theorem digitsValue_decDigits : ∀ fuel n, n < fuel → digitsValue (decDigits fuel n) = n := by
  intro fuel
  induction fuel with
  | zero => intro n h; omega
  | succ f ih =>
    intro n hn
    unfold decDigits
    split_ifs with h
    · simp [digitsValue, (digit_char n h).1]
    · rw [digitsValue_append, ih _ (by omega), (digit_char _ (by omega)).1]
      omega

/-- The digits of a number start with a digit that is zero only when the
number is zero and is written with that one digit. -/
theorem decDigits_head : ∀ fuel n, n < fuel →
    ∃ d ds, decDigits fuel n = d :: ds ∧ (d.toNat = 48 → ds = [])
      ∧ (0 < n → d.toNat ≠ 48) ∧ d.toNat ≠ 0x2D ∧ isDigit d = true := by
  intro fuel
  induction fuel with
  | zero => intro n h; omega
  | succ f ih =>
    intro n hn
    unfold decDigits
    split_ifs with h
    · refine ⟨_, [], rfl, fun _ => rfl, ?_, ?_, (digit_char n h).2⟩
      · intro hp; rw [(digit_char n h).1]; omega
      · rw [(digit_char n h).1]; omega
    · obtain ⟨d, ds, e, _, h2, h3, h4⟩ := ih (n / 10) (by omega)
      refine ⟨d, ds ++ [Char.ofNat (48 + n % 10)], by rw [e]; rfl, ?_, fun _ => h2 (by omega),
        h3, h4⟩
      intro h0
      exact absurd h0 (h2 (by omega))

theorem span_digits (ds : List Char) (r : Char) (rest : List Char)
    (hd : ∀ c ∈ ds, isDigit c = true) (hr : isDigit r = false) :
    (ds ++ r :: rest).span isDigit = (ds, r :: rest) := by
  induction ds with
  | nil => simp [List.span_eq_take_drop, List.takeWhile, List.dropWhile, hr]
  | cons d ds ih =>
    have h1 := hd d (by simp)
    have h2 := ih (fun c hc => hd c (by simp [hc]))
    simp only [List.span_eq_take_drop] at h2 ⊢
    simp only [List.cons_append, List.takeWhile_cons, List.dropWhile_cons, h1, if_true]
    rw [Prod.mk.injEq] at h2 ⊢
    exact ⟨by rw [h2.1], h2.2⟩

theorem parseNat_decDigits (n : Nat) (r : Char) (rest : List Char) (hr : isDigit r = false) :
    parseNat (decDigits (n + 1) n ++ r :: rest) = some (n, r :: rest) := by
  obtain ⟨d, ds, e, h0, _, _, _⟩ := decDigits_head (n + 1) n (by omega)
  have hs := span_digits (decDigits (n + 1) n) r rest (decDigits_isDigit _ _) hr
  have hv := digitsValue_decDigits (n + 1) n (by omega)
  unfold parseNat
  rw [hs, e]
  simp only
  rw [e] at hv
  by_cases hz : d.toNat = 48
  · rw [if_neg (by rw [h0 hz]; simp), hv]
  · rw [if_neg (by tauto), hv]

theorem isDelim_not_digit (r : Char) (h : isDelim r) : isDigit r = false := by
  unfold isDelim at h
  simp only [isDigit, Bool.and_eq_false_imp, decide_eq_true_eq, decide_eq_false_iff_not]
  omega

theorem scanUnsigned_decDigits (n : Nat) (neg : Bool) (r : Char) (rest : List Char)
    (hr : isDelim r) :
    scanUnsigned neg (decDigits (n + 1) n ++ r :: rest) = some (⟨neg, n, 0⟩, r :: rest) := by
  have hd := isDelim_not_digit r hr
  have hr1 : ¬ r.toNat = 0x2E := by unfold isDelim at hr; omega
  have hr2 : ¬ (r.toNat = 0x65 ∨ r.toNat = 0x45) := by unfold isDelim at hr; omega
  have hf : scanFraction (r :: rest) = some ([], r :: rest) := by
    simp only [scanFraction, hr1, if_false]
  have he : scanExponent (r :: rest) = some (0, r :: rest) := by
    simp only [scanExponent, hr2, if_false]
  unfold scanUnsigned
  rw [parseNat_decDigits _ r rest hd]
  simp only [hf, he, List.length_nil, pow_zero, mul_one, digitsValue, List.foldl_nil, add_zero,
    Nat.cast_zero, sub_zero]

theorem scanNumber_formatInt (i : Int) (r : Char) (rest : List Char) (hr : isDelim r) :
    scanNumber (formatInt i ++ r :: rest) = some (Number.ofInt i, r :: rest) := by
  have hm : (Char.ofNat 0x2D).toNat = 0x2D := by decide
  unfold formatInt
  split_ifs with hneg
  · simp only [List.cons_append, scanNumber, hm, if_true]
    rw [scanUnsigned_decDigits _ _ r rest hr]
    simp [Number.ofInt, hneg]
  · obtain ⟨d, ds, e, _, _, h3, _⟩ := decDigits_head (i.natAbs + 1) i.natAbs (by omega)
    have ht := scanUnsigned_decDigits i.natAbs false r rest hr
    rw [e] at ht ⊢
    simp only [List.cons_append, scanNumber, h3, if_false] at ht ⊢
    rw [ht]
    simp [Number.ofInt, hneg]

theorem text_ofInt (i : Int) : (Number.ofInt i).text = formatInt i := by
  unfold Number.text Number.ofInt formatInt
  by_cases h : i < 0
  · simp [h]
  · simp [h]

end json

namespace json

theorem skipWs_cons (c : Char) (cs : List Char) (h : isWs c = false) :
    skipWs (c :: cs) = c :: cs := by
  simp only [skipWs, h, Bool.false_eq_true, if_false]

theorem isDelim_not_ws (r : Char) (h : isDelim r) : isWs r = false := by
  unfold isDelim at h
  simp only [isWs, Bool.or_eq_false_iff, decide_eq_false_iff_not]
  omega

theorem quote_not_ws (q : Char) (h : q.toNat = 0x22) : isWs q = false := by
  simp only [isWs, Bool.or_eq_false_iff, decide_eq_false_iff_not]
  omega

theorem parseStr_invalidEscape (fuel : Nat) (rest : List Char) :
    parseStr (fuel + 1) (invalidEscape ++ rest)
      = (parseStr fuel rest).map (fun p => (Char.ofNat 0xFFFD :: p.1, p.2)) := by
  unfold invalidEscape
  exact parseStr_u fuel _ _ _ _ _ _ 0xFFFD rest (by decide) (by decide) (by decide) (by decide)

/-- Reading back the inside of a Go string the encoder wrote: the text of the
bytes, each invalid byte as U+FFFD. -/
theorem parseStr_quoteAux (q : Char) (hq : q.toNat = 0x22) (rest : List Char) :
    ∀ n b fuel, (utf8.decodeAux n b).length + 1 ≤ fuel →
      parseStr fuel (quoteAux n b ++ q :: rest) = some (utf8.decodeAux n b, rest) := by
  intro n
  induction n with
  | zero =>
    intro b fuel hf
    obtain ⟨f, rfl⟩ : ∃ f, fuel = f + 1 := ⟨fuel - 1, by omega⟩
    simp only [quoteAux, utf8.decodeAux, List.nil_append]
    exact parseStr_quote f q rest hq
  | succ n ih =>
    intro b fuel hf
    obtain ⟨f, rfl⟩ : ∃ f, fuel = f + 1 := ⟨fuel - 1, by omega⟩
    cases b with
    | nil =>
      simp only [quoteAux, utf8.decodeAux, List.nil_append]
      exact parseStr_quote f q rest hq
    | cons x xs =>
      simp only [quoteAux, utf8.decodeAux, List.append_assoc] at hf ⊢
      have hrec := ih ((x :: xs).drop (utf8.decodeRune (x :: xs)).2) f (by
        simp only [List.length_cons] at hf
        omega)
      by_cases hinv : (utf8.decodeRune (x :: xs)).1 = 0xFFFD ∧ (utf8.decodeRune (x :: xs)).2 = 1
      · rw [if_pos hinv, parseStr_invalidEscape, hrec, hinv.1]
        rfl
      · rw [if_neg hinv, parseStr_escapeChar, hrec]
        rfl

theorem quoteAux_length : ∀ n b, (utf8.decodeAux n b).length ≤ (quoteAux n b).length := by
  intro n
  induction n with
  | zero => intro b; simp [quoteAux, utf8.decodeAux]
  | succ n ih =>
    intro b
    cases b with
    | nil => simp [quoteAux, utf8.decodeAux]
    | cons x xs =>
      simp only [quoteAux, utf8.decodeAux, List.length_cons, List.length_append]
      have h := ih ((x :: xs).drop (utf8.decodeRune (x :: xs)).2)
      have hp : 0 < (if (utf8.decodeRune (x :: xs)).1 = 0xFFFD ∧ (utf8.decodeRune (x :: xs)).2 = 1
          then invalidEscape else escapeChar (Char.ofNat (utf8.decodeRune (x :: xs)).1)).length := by
        split_ifs
        · decide
        · exact escapeChar_length_pos _
      omega

theorem parseValue_str (fuel depth : Nat) (s : String) (r : Char) (rest : List Char) :
    parseValue (fuel + 1) depth (quote s ++ r :: rest) = some (.str s, r :: rest) := by
  have hq : (Char.ofNat 0x22).toNat = 0x22 := by decide
  unfold quote
  simp only [parseValue, List.cons_append, hq, if_true, List.append_assoc, List.nil_append]
  rw [parseStr_escaped s.data _ hq (r :: rest) _ (by
    have := escaped_length s.data
    simp only [List.length_append, List.length_cons]
    omega)]
  rfl

theorem parseValue_raw (fuel depth : Nat) (b : Bytes) (r : Char) (rest : List Char) :
    parseValue (fuel + 1) depth (quoteBytes b ++ r :: rest)
      = some (.str ⟨utf8.decode b⟩, r :: rest) := by
  have hq : (Char.ofNat 0x22).toNat = 0x22 := by decide
  unfold quoteBytes
  simp only [parseValue, List.cons_append, hq, if_true, List.append_assoc, List.nil_append]
  rw [parseStr_quoteAux _ hq (r :: rest) _ _ _ (by
    have := quoteAux_length b.length b
    simp only [List.length_append, List.length_cons]
    omega)]
  rfl

/-- The text of a whole number starts with a minus sign or a digit. -/
theorem text_head (n : Number) (h : n.exp = 0) :
    ∃ c cs, n.text = c :: cs ∧ (c.toNat = 0x2D ∨ isDigit c = true)
      ∧ ∀ r rest, scanNumber (c :: cs ++ r :: rest)
          = scanNumber (n.text ++ r :: rest) := by
  obtain ⟨d0, ds, e0, _, _, _, h4⟩ := decDigits_head (n.mant + 1) n.mant (by omega)
  unfold Number.text
  rw [h, e0]
  cases hneg : n.neg
  · exact ⟨d0, ds, by simp, Or.inr h4, fun _ _ => by simp⟩
  · exact ⟨Char.ofNat 0x2D, d0 :: ds, by simp, Or.inl (by decide), fun _ _ => by simp⟩

theorem scanNumber_text (n : Number) (h : n.exp = 0) (r : Char) (rest : List Char)
    (hr : isDelim r) :
    scanNumber (n.text ++ r :: rest) = some (n, r :: rest) := by
  have hm : (Char.ofNat 0x2D).toNat = 0x2D := by decide
  obtain ⟨neg, mant, exp⟩ := n
  simp only at h
  subst h
  unfold Number.text
  cases neg
  · obtain ⟨d, ds, e, _, _, h3, _⟩ := decDigits_head (mant + 1) mant (by omega)
    have ht := scanUnsigned_decDigits mant false r rest hr
    rw [e] at ht
    simp only [Bool.false_eq_true, if_false, if_true, List.nil_append, List.append_nil, e,
      List.cons_append, scanNumber, h3] at ht ⊢
    exact ht
  · simp only [if_true, List.append_nil, List.cons_append, List.nil_append, scanNumber, hm,
      List.append_assoc]
    exact scanUnsigned_decDigits mant true r rest hr

theorem parseValue_num (fuel depth : Nat) (n : Number) (h : n.exp = 0) (r : Char)
    (rest : List Char) (hr : isDelim r) :
    parseValue (fuel + 1) depth (n.text ++ r :: rest) = some (.num n, r :: rest) := by
  have hp := scanNumber_text n h r rest hr
  obtain ⟨c, cs, e, hc, _⟩ := text_head n h
  rw [e] at hp ⊢
  have h22 : c.toNat ≠ 0x22 := by
    rcases hc with h | h
    · omega
    · simp only [isDigit, Bool.and_eq_true, decide_eq_true_eq] at h; omega
  have h7b : c.toNat ≠ 0x7B := by
    rcases hc with h | h
    · omega
    · simp only [isDigit, Bool.and_eq_true, decide_eq_true_eq] at h; omega
  have h5b : c.toNat ≠ 0x5B := by
    rcases hc with h | h
    · omega
    · simp only [isDigit, Bool.and_eq_true, decide_eq_true_eq] at h; omega
  have ht : c ≠ Char.ofNat 0x74 ∧ c ≠ Char.ofNat 0x66 ∧ c ≠ Char.ofNat 0x6E := by
    refine ⟨?_, ?_, ?_⟩ <;>
    · intro hcc
      rw [hcc] at hc
      revert hc
      decide
  have e1 : "true".data = [Char.ofNat 0x74, Char.ofNat 0x72, Char.ofNat 0x75, Char.ofNat 0x65] := by
    decide
  have e2 : "false".data = [Char.ofNat 0x66, Char.ofNat 0x61, Char.ofNat 0x6C, Char.ofNat 0x73,
      Char.ofNat 0x65] := by decide
  have e3 : "null".data = [Char.ofNat 0x6E, Char.ofNat 0x75, Char.ofNat 0x6C, Char.ofNat 0x6C] := by
    decide
  simp only [parseValue, List.cons_append, h22, h7b, h5b, if_false, e1, e2, e3, List.isPrefixOf,
    beq_iff_eq, Bool.and_eq_true, decide_eq_true_eq]
  have n1 : ¬ Char.ofNat 0x74 = c := fun h => ht.1 h.symm
  have n2 : ¬ Char.ofNat 0x66 = c := fun h => ht.2.1 h.symm
  have n3 : ¬ Char.ofNat 0x6E = c := fun h => ht.2.2 h.symm
  simp only [n1, n2, n3, false_and, if_false, Bool.false_eq_true]
  simp only [List.cons_append] at hp
  rw [hp]
  rfl

/-- A value the program writes, followed by a comma or a closing brace, read
back. -/
theorem parseValue_render (fuel depth : Nat) (v : Value) (hv : v.flat = true) (r : Char)
    (rest : List Char) (hr : isDelim r) :
    parseValue (fuel + 1) depth (renderValue v ++ r :: rest) = some (v.read, r :: rest) := by
  cases v with
  | str s => simp only [renderValue, Value.read]; exact parseValue_str fuel depth s r rest
  | raw b => simp only [renderValue, Value.read]; exact parseValue_raw fuel depth b r rest
  | num n =>
    simp only [renderValue, Value.read]
    exact parseValue_num fuel depth n (by simpa [Value.flat] using hv) r rest hr
  | bool b =>
    cases b
    · have e : renderValue (.bool false) = [Char.ofNat 0x66, Char.ofNat 0x61, Char.ofNat 0x6C,
          Char.ofNat 0x73, Char.ofNat 0x65] := by rfl
      rw [e]
      rfl
    · have e : renderValue (.bool true) = [Char.ofNat 0x74, Char.ofNat 0x72, Char.ofNat 0x75,
          Char.ofNat 0x65] := by rfl
      rw [e]
      rfl
  | null =>
    have e : renderValue .null = [Char.ofNat 0x6E, Char.ofNat 0x75, Char.ofNat 0x6C,
        Char.ofNat 0x6C] := by rfl
    rw [e]
    rfl
  | arr xs => simp [Value.flat] at hv
  | obj ms => simp [Value.flat] at hv

/-- What the encoder writes for a value the program writes does not start with
white space. -/
theorem renderValue_head (v : Value) (hv : v.flat = true) (d : Char) (rest : List Char) :
    ∃ c cs, renderValue v ++ d :: rest = c :: cs ∧ isWs c = false := by
  cases v with
  | str s =>
    exact ⟨Char.ofNat 0x22, s.data.flatMap escapeChar ++ [Char.ofNat 0x22] ++ d :: rest,
      by simp only [renderValue, quote, List.cons_append], by decide⟩
  | raw b =>
    exact ⟨Char.ofNat 0x22, quoteAux b.length b ++ [Char.ofNat 0x22] ++ d :: rest,
      by simp only [renderValue, quoteBytes, List.cons_append], by decide⟩
  | num n =>
    obtain ⟨c, cs, e, hc, _⟩ := text_head n (by simpa [Value.flat] using hv)
    refine ⟨c, cs ++ d :: rest, by simp only [renderValue, e, List.cons_append], ?_⟩
    simp only [isWs, Bool.or_eq_false_iff, decide_eq_false_iff_not]
    rcases hc with h | h
    · omega
    · simp only [isDigit, Bool.and_eq_true, decide_eq_true_eq] at h; omega
  | bool b =>
    cases b
    · exact ⟨Char.ofNat 0x66, _, rfl, by decide⟩
    · exact ⟨Char.ofNat 0x74, _, rfl, by decide⟩
  | null => exact ⟨Char.ofNat 0x6E, _, rfl, by decide⟩
  | arr xs => simp [Value.flat] at hv
  | obj ms => simp [Value.flat] at hv

theorem parseStr_key (k : String) (rest : List Char) :
    ∃ body, quote k ++ rest = Char.ofNat 0x22 :: body
      ∧ parseStr body.length body = some (k.data, rest) := by
  have hq : (Char.ofNat 0x22).toNat = 0x22 := by decide
  refine ⟨k.data.flatMap escapeChar ++ Char.ofNat 0x22 :: rest, by simp [quote], ?_⟩
  exact parseStr_escaped k.data _ hq rest _ (by
    have := escaped_length k.data
    simp only [List.length_append, List.length_cons]
    omega)

/-- One member, followed by a comma or the closing brace, read back. -/
theorem parseMembers_step (fuel depth : Nat) (k : String) (v : Value) (hflat : v.flat = true)
    (d : Char) (rest : List Char) (hd : isDelim d) :
    parseMembers (fuel + 2) depth (quote k ++ Char.ofNat 0x3A :: (renderValue v ++ d :: rest))
      = if d.toNat = 0x2C then
          (parseMembers (fuel + 1) depth rest).map (fun p => (.cons k v.read p.1, p.2))
        else some (.cons k v.read .nil, rest) := by
  have hq : (Char.ofNat 0x22).toNat = 0x22 := by decide
  have hcol : (Char.ofNat 0x3A).toNat = 0x3A := by decide
  obtain ⟨body, e, hp⟩ := parseStr_key k (Char.ofNat 0x3A :: (renderValue v ++ d :: rest))
  have hv := parseValue_render fuel depth v hflat d rest hd
  obtain ⟨c, cs, ev, hcws⟩ := renderValue_head v hflat d rest
  rw [e]
  generalize hR : parseMembers (fuel + 1) depth rest = R
  rw [show fuel + 2 = (fuel + 1) + 1 from rfl, parseMembers]
  rw [skipWs_cons _ _ (quote_not_ws _ hq)]
  simp only [hq, ne_eq, not_true_eq_false, if_false, hp]
  rw [skipWs_cons _ _ (by decide)]
  simp only [hcol, ne_eq, not_true_eq_false, if_false]
  rw [ev, skipWs_cons _ _ hcws, ← ev, hv]
  simp only
  rw [skipWs_cons _ _ (isDelim_not_ws d hd)]
  simp only
  by_cases h2c : d.toNat = 0x2C
  · simp only [h2c, if_true, hR]
  · have h7d : d.toNat = 0x7D := by unfold isDelim at hd; tauto
    simp [h2c, h7d]

theorem renderMembers_length (ms : List (String × Value)) : ms.length ≤ (renderMembers ms).length := by
  induction ms with
  | nil => simp
  | cons m ms ih =>
    cases ms with
    | nil =>
      obtain ⟨k, v⟩ := m
      simp [renderMembers, quote]
    | cons m2 ms2 =>
      obtain ⟨k, v⟩ := m
      simp only [renderMembers, List.length_append, List.length_cons] at ih ⊢
      omega

/-- The members of an object the encoder wrote, read back. -/
theorem parseMembers_render (depth : Nat) (ms : List (String × Value)) (hne : ms ≠ [])
    (hflat : ∀ m ∈ ms, m.2.flat = true) (b : Char) (hb : b.toNat = 0x7D) (rest : List Char) :
    ∀ fuel, ms.length + 1 ≤ fuel →
      parseMembers fuel depth (renderMembers ms ++ b :: rest)
        = some (Members.ofList (ms.map fun m => (m.1, m.2.read)), rest) := by
  have hbd : isDelim b := Or.inr hb
  have hcomma : (Char.ofNat 0x2C).toNat = 0x2C := by decide
  induction ms with
  | nil => exact absurd rfl hne
  | cons m ms ih =>
    intro fuel hf
    obtain ⟨f, rfl⟩ : ∃ f, fuel = f + 2 := ⟨fuel - 2, by simp at hf; omega⟩
    obtain ⟨k, v⟩ := m
    have hv : v.flat = true := hflat (k, v) (by simp)
    cases ms with
    | nil =>
      simp only [renderMembers, List.append_assoc, List.cons_append]
      rw [parseMembers_step f depth k v hv b rest hbd, if_neg (by omega)]
      rfl
    | cons m2 ms2 =>
      simp only [renderMembers, List.append_assoc, List.cons_append]
      rw [parseMembers_step f depth k v hv _ _ (Or.inl hcomma), if_pos hcomma,
        ih (by simp) (fun m hm => hflat m (by simp [hm])) (f + 1) (by simp at hf ⊢; omega)]
      rfl

/-- An object the encoder wrote, read back. -/
theorem parseText_render (ms : List (String × Value)) (hflat : ∀ m ∈ ms, m.2.flat = true) :
    parseText (renderObject ms)
      = some (.obj (Members.ofList (ms.map fun m => (m.1, m.2.read)))) := by
  have hob : (Char.ofNat 0x7B).toNat = 0x7B := by decide
  have hcb : (Char.ofNat 0x7D).toNat = 0x7D := by decide
  have hq : (Char.ofNat 0x22).toNat = 0x22 := by decide
  have h22 : ¬ (Char.ofNat 0x7B).toNat = 0x22 := by decide
  have hd : ¬ maxNestingDepth ≤ 0 := by decide
  unfold renderObject parseText
  rw [skipWs_cons _ _ (by decide)]
  cases ms with
  | nil => rfl
  | cons m ms =>
    have hp := parseMembers_render (0 + 1) (m :: ms) (by simp) hflat _ hcb []
      ((Char.ofNat 0x7B :: (renderMembers (m :: ms) ++ [Char.ofNat 0x7D])).length) (by
        have := renderMembers_length (m :: ms)
        simp only [List.length_append, List.length_cons, List.length_nil] at this ⊢
        omega)
    obtain ⟨body, e⟩ : ∃ body, renderMembers (m :: ms) ++ [Char.ofNat 0x7D]
        = Char.ofNat 0x22 :: body := by
      obtain ⟨k, v⟩ := m
      cases ms <;> exact ⟨_, by simp [renderMembers, quote]; rfl⟩
    have hne : ¬ (Char.ofNat 0x22).toNat = 0x7D := by decide
    rw [parseValue]
    simp only [h22, hob, hd, if_true, if_false]
    rw [hp]
    rw [e, skipWs_cons _ _ (quote_not_ws _ hq)]
    simp only [hne, if_false, Option.map_some', skipWs, if_true]
    rfl

theorem toList_ofList (ms : List (String × Value)) : (Members.ofList ms).toList = ms := by
  induction ms with
  | nil => rfl
  | cons m ms ih =>
    obtain ⟨k, v⟩ := m
    simp [Members.ofList, Members.toList, ih]

theorem Unmarshal_Marshal (ms : List (String × Value)) (hflat : ∀ m ∈ ms, m.2.flat = true) :
    Unmarshal (Marshal ms) = some (ms.map fun m => (m.1, m.2.read)) := by
  rw [Unmarshal, Marshal, utf8.decode_encode_text, parseText_render ms hflat]
  simp only [toList_ofList]

end json

namespace uuid

theorem hexDigit_toNat (v : Nat) (h : v < 16) :
    (json.hexDigit v).toNat = if v < 10 then 48 + v else 87 + v := by
  unfold json.hexDigit
  exact toNat_ofNat_small _ (by split_ifs <;> omega)

theorem encodeChar_hexDigit (v : Nat) :
    utf8.encodeChar (json.hexDigit (v % 16)) = [(json.hexDigit (v % 16)).toNat] := by
  have h := hexDigit_toNat (v % 16) (Nat.mod_lt _ (by norm_num))
  unfold utf8.encodeChar
  simp only
  rw [if_pos (by rw [h]; split_ifs <;> omega)]

theorem hexValues_hexDigits (n x : Nat) :
    hexValues ((hexDigits n x).map Char.toNat) = some (digitValues n x) := by
  induction n with
  | zero => rfl
  | succ n ih =>
    simp only [hexDigits, List.map_cons, hexValues, digitValues, Char.ofNat_toNat,
      json.hexVal_hexDigit _ (Nat.mod_lt _ (by norm_num : 16 > 0)), ih, Option.map_some']

theorem foldl_digitValues (n x a : Nat) :
    (digitValues n x).foldl (fun a v => a * 16 + v) a = a * 16 ^ n + x % 16 ^ n := by
  induction n generalizing a with
  | zero => simp [digitValues, Nat.mod_one]
  | succ n ih =>
    simp only [digitValues, List.foldl_cons, ih]
    rw [Nat.mod_pow_succ]
    ring

theorem hexNumber_digitValues (x : Nat) (h : x < 2 ^ 128) :
    hexNumber (digitValues 32 x) % 2 ^ 128 = x := by
  unfold hexNumber
  rw [foldl_digitValues]
  have e : (16 : Nat) ^ 32 = 2 ^ 128 := by norm_num
  rw [e, Nat.mod_eq_of_lt h, Nat.zero_mul, Nat.zero_add, Nat.mod_eq_of_lt h]

/-- Parsing the text of a UUID gives the UUID back. -/
theorem Parse_String (u : UUID) : ParseBytes (utf8.encode u.String.data) = some u := by
  obtain ⟨x, hx⟩ := u
  have hv := hexValues_hexDigits 32 x
  have hn := hexNumber_digitValues x hx
  have hd : utf8.encodeChar (Char.ofNat 0x2D) = [0x2D] := by decide
  unfold ParseBytes canonicalPart UUID.String utf8.encode
  simp only [hexDigits, List.map_cons, List.map_nil] at hv ⊢
  simp only [List.take, List.drop, List.cons_append, List.nil_append, List.flatMap_cons,
    List.flatMap_nil, encodeChar_hexDigit, hd, List.singleton_append, List.length_cons,
    List.length_nil, List.getD_cons_succ, List.getD_cons_zero, and_self, if_true,
    Nat.reduceAdd, Nat.reduceEqDiff, if_false]
  rw [hv]
  simp only [Option.map_some', Option.some.injEq, UUID.mk.injEq]
  exact hn

end uuid

namespace gojwt

theorem NewNumericDate_wire (t : Int) : (NewNumericDate t).wire = NewNumericDate t := by
  have h : ¬ ((1000000000 : Int) ≤ 0) := by norm_num
  simp only [NumericDate.wire, NewNumericDate, time.Truncate, TimePrecision, time.Second, h,
    if_false, NumericDate.mk.injEq]
  omega

theorem wire_eq (d : NumericDate) :
    d.wire = ⟨time.Unix (time.Truncate d.Time TimePrecision) * time.Second⟩ := by
  have h : ¬ ((1000000000 : Int) ≤ 0) := by norm_num
  simp only [NumericDate.wire, NewNumericDate, time.Truncate, TimePrecision, time.Second,
    time.Unix, h, if_false, NumericDate.mk.injEq]
  omega

theorem exactDate_ofInt (n : Int) :
    exactDate (json.Number.ofInt n) = some ⟨n * time.Second⟩ := by
  unfold exactDate json.Number.ofInt
  simp only [le_refl, if_true, Int.toNat_zero, pow_zero, mul_one, Option.some.injEq,
    NumericDate.mk.injEq]
  by_cases h : n < 0
  · simp only [h, decide_True, if_true]
    congr 1
    omega
  · simp only [h, decide_False, Bool.false_eq_true, if_false]
    congr 1
    omega

/-- The exact reading reads back every date. -/
theorem readsBack_exactDate (d : Option NumericDate) : readsBack exactDate d := by
  intro x _
  rw [exactDate_ofInt, wire_eq]

end gojwt

namespace json

theorem read_str (s : String) : (Value.str s).read = .str s := rfl

theorem read_raw (b : Bytes) : (Value.raw b).read = .str ⟨utf8.decode b⟩ := rfl

theorem read_num (n : Number) : (Value.num n).read = .num n := rfl

end json

namespace jwt

theorem fold_user_id (read : json.Number → Option gojwt.NumericDate)
    (c : Claims) (u : uuid.UUID) :
    setFieldWith read c ("user_id", .str u.String) = some { c with UserID := u } := by
  simp only [setFieldWith]
  rw [if_pos (by decide)]
  simp only [setUUID, uuid.Parse_String, Option.map_some']

theorem fold_email (read : json.Number → Option gojwt.NumericDate)
    (c : Claims) (s : String) :
    setFieldWith read c ("email", .str s) = some { c with Email := utf8.encode s.data } := by
  simp only [setFieldWith]
  rw [if_neg (by decide), if_pos (by decide)]
  rfl

theorem fold_username (read : json.Number → Option gojwt.NumericDate)
    (c : Claims) (s : String) :
    setFieldWith read c ("username", .str s)
      = some { c with Username := utf8.encode s.data } := by
  simp only [setFieldWith]
  rw [if_neg (by decide), if_neg (by decide), if_pos (by decide)]
  rfl

theorem fold_iss (read : json.Number → Option gojwt.NumericDate)
    (c : Claims) (s : String) :
    setFieldWith read c ("iss", .str s)
      = some { c with RegisteredClaims := { c.RegisteredClaims with Issuer := s } } := by
  simp only [setFieldWith]
  rw [if_neg (by decide), if_neg (by decide), if_neg (by decide), if_pos (by decide)]
  rfl

theorem fold_sub (read : json.Number → Option gojwt.NumericDate)
    (c : Claims) (s : String) :
    setFieldWith read c ("sub", .str s)
      = some { c with RegisteredClaims := { c.RegisteredClaims with Subject := s } } := by
  simp only [setFieldWith]
  rw [if_neg (by decide), if_neg (by decide), if_neg (by decide), if_neg (by decide),
    if_pos (by decide)]
  rfl

theorem fold_exp (read : json.Number → Option gojwt.NumericDate)
    (c : Claims) (n : json.Number) (d : gojwt.NumericDate)
    (h : read n = some d) :
    setFieldWith read c ("exp", .num n)
      = some { c with RegisteredClaims := { c.RegisteredClaims with ExpiresAt := some d } } := by
  simp only [setFieldWith]
  rw [if_neg (by decide), if_neg (by decide), if_neg (by decide), if_neg (by decide),
    if_neg (by decide), if_neg (by decide), if_pos (by decide)]
  simp only [setDateWith, h, Option.map_some']

theorem fold_nbf (read : json.Number → Option gojwt.NumericDate)
    (c : Claims) (n : json.Number) (d : gojwt.NumericDate)
    (h : read n = some d) :
    setFieldWith read c ("nbf", .num n)
      = some { c with RegisteredClaims := { c.RegisteredClaims with NotBefore := some d } } := by
  simp only [setFieldWith]
  rw [if_neg (by decide), if_neg (by decide), if_neg (by decide), if_neg (by decide),
    if_neg (by decide), if_neg (by decide), if_neg (by decide), if_pos (by decide)]
  simp only [setDateWith, h, Option.map_some']

theorem fold_iat (read : json.Number → Option gojwt.NumericDate)
    (c : Claims) (n : json.Number) (d : gojwt.NumericDate)
    (h : read n = some d) :
    setFieldWith read c ("iat", .num n)
      = some { c with RegisteredClaims := { c.RegisteredClaims with IssuedAt := some d } } := by
  simp only [setFieldWith]
  rw [if_neg (by decide), if_neg (by decide), if_neg (by decide), if_neg (by decide),
    if_neg (by decide), if_neg (by decide), if_neg (by decide), if_neg (by decide),
    if_pos (by decide)]
  simp only [setDateWith, h, Option.map_some']

theorem fold_jti (read : json.Number → Option gojwt.NumericDate)
    (c : Claims) (s : String) :
    setFieldWith read c ("jti", .str s)
      = some { c with RegisteredClaims := { c.RegisteredClaims with ID := s } } := by
  simp only [setFieldWith]
  rw [if_neg (by decide), if_neg (by decide), if_neg (by decide), if_neg (by decide),
    if_neg (by decide), if_neg (by decide), if_neg (by decide), if_neg (by decide),
    if_neg (by decide), if_pos (by decide)]
  rfl

/-- The members the encoder writes are strings and whole numbers. -/
theorem members_flat (c : Claims) : ∀ m ∈ c.members, m.2.flat = true := by
  intro m hm
  simp only [Claims.members, omitEmpty, omitNil, List.cons_append, List.nil_append,
    List.mem_cons, List.mem_append] at hm
  rcases hm with h | h | h | h | h | h | h | h | h
  · subst h; rfl
  · subst h; rfl
  · subst h; rfl
  · split_ifs at h
    · simp at h
    · simp only [List.mem_singleton] at h; subst h; rfl
  · split_ifs at h
    · simp at h
    · simp only [List.mem_singleton] at h; subst h; rfl
  · cases hd : c.RegisteredClaims.ExpiresAt with
    | none => rw [hd] at h; simp at h
    | some d => rw [hd] at h; simp only [List.mem_singleton] at h; subst h; rfl
  · cases hd : c.RegisteredClaims.NotBefore with
    | none => rw [hd] at h; simp at h
    | some d => rw [hd] at h; simp only [List.mem_singleton] at h; subst h; rfl
  · cases hd : c.RegisteredClaims.IssuedAt with
    | none => rw [hd] at h; simp at h
    | some d => rw [hd] at h; simp only [List.mem_singleton] at h; subst h; rfl
  · split_ifs at h
    · simp at h
    · simp only [List.mem_singleton] at h; subst h; rfl

/-- Decoding the members of a struct, as they read from what the encoder
wrote, into the zero value gives the struct as it reads from the wire. -/
theorem foldlM_members (read : json.Number → Option gojwt.NumericDate)
    (c : Claims)
    (hexp : gojwt.readsBack read c.RegisteredClaims.ExpiresAt)
    (hnbf : gojwt.readsBack read c.RegisteredClaims.NotBefore)
    (hiat : gojwt.readsBack read c.RegisteredClaims.IssuedAt) :
    (c.members.map fun m => (m.1, m.2.read)).foldlM (setFieldWith read) Claims.zero
      = some c.wire := by
  obtain ⟨u, e, n, ⟨i, s, x, nb, ia, j⟩⟩ := c
  simp only at hexp hnbf hiat
  simp only [Claims.members, Claims.zero, List.cons_append, List.nil_append, List.map_cons,
    List.map_append, json.read_str, json.read_raw, json.read_num, List.foldlM_cons,
    List.foldlM_append, fold_user_id, fold_email, fold_username, Option.some_bind,
    Option.bind_eq_bind]
  have h1 : ∀ (acc : Claims) (v : String), acc.RegisteredClaims.Issuer = "" →
      ((omitEmpty "iss" v).map fun m => (m.1, m.2.read)).foldlM (setFieldWith read) acc
        = some { acc with RegisteredClaims := { acc.RegisteredClaims with Issuer := v } } := by
    intro acc v h
    unfold omitEmpty
    split_ifs with hv
    · subst hv
      obtain ⟨u, e, n, ⟨i, s, x, nb, ia, j⟩⟩ := acc
      simp only at h
      subst h
      rfl
    · simp only [List.map_cons, List.map_nil, json.read_str, json.read_raw, json.read_num, List.foldlM_cons,
        List.foldlM_nil, fold_iss, Option.some_bind, Option.bind_eq_bind]
      rfl
  have h2 : ∀ (acc : Claims) (v : String), acc.RegisteredClaims.Subject = "" →
      ((omitEmpty "sub" v).map fun m => (m.1, m.2.read)).foldlM (setFieldWith read) acc
        = some { acc with RegisteredClaims := { acc.RegisteredClaims with Subject := v } } := by
    intro acc v h
    unfold omitEmpty
    split_ifs with hv
    · subst hv
      obtain ⟨u, e, n, ⟨i, s, x, nb, ia, j⟩⟩ := acc
      simp only at h
      subst h
      rfl
    · simp only [List.map_cons, List.map_nil, json.read_str, json.read_raw, json.read_num, List.foldlM_cons,
        List.foldlM_nil, fold_sub, Option.some_bind, Option.bind_eq_bind]
      rfl
  have h6 : ∀ (acc : Claims) (v : String), acc.RegisteredClaims.ID = "" →
      ((omitEmpty "jti" v).map fun m => (m.1, m.2.read)).foldlM (setFieldWith read) acc
        = some { acc with RegisteredClaims := { acc.RegisteredClaims with ID := v } } := by
    intro acc v h
    unfold omitEmpty
    split_ifs with hv
    · subst hv
      obtain ⟨u, e, n, ⟨i, s, x, nb, ia, j⟩⟩ := acc
      simp only at h
      subst h
      rfl
    · simp only [List.map_cons, List.map_nil, json.read_str, json.read_raw, json.read_num, List.foldlM_cons,
        List.foldlM_nil, fold_jti, Option.some_bind, Option.bind_eq_bind]
      rfl
  have h3 : ∀ (acc : Claims) (d : Option gojwt.NumericDate), gojwt.readsBack read d →
      acc.RegisteredClaims.ExpiresAt = none →
      ((omitNil "exp" d).map fun m => (m.1, m.2.read)).foldlM (setFieldWith read) acc
        = some { acc with RegisteredClaims := { acc.RegisteredClaims with
            ExpiresAt := d.map gojwt.NumericDate.wire } } := by
    intro acc d hr h
    obtain ⟨u, e, n, ⟨i, s, x, nb, ia, j⟩⟩ := acc
    simp only at h
    subst h
    cases d with
    | none => rfl
    | some d =>
      simp only [omitNil, List.map_cons, List.map_nil, json.read_str, json.read_raw, json.read_num, List.foldlM_cons,
        List.foldlM_nil, fold_exp read _ _ _ (hr d rfl), Option.some_bind,
        Option.bind_eq_bind]
      rfl
  have h4 : ∀ (acc : Claims) (d : Option gojwt.NumericDate), gojwt.readsBack read d →
      acc.RegisteredClaims.NotBefore = none →
      ((omitNil "nbf" d).map fun m => (m.1, m.2.read)).foldlM (setFieldWith read) acc
        = some { acc with RegisteredClaims := { acc.RegisteredClaims with
            NotBefore := d.map gojwt.NumericDate.wire } } := by
    intro acc d hr h
    obtain ⟨u, e, n, ⟨i, s, x, nb, ia, j⟩⟩ := acc
    simp only at h
    subst h
    cases d with
    | none => rfl
    | some d =>
      simp only [omitNil, List.map_cons, List.map_nil, json.read_str, json.read_raw, json.read_num, List.foldlM_cons,
        List.foldlM_nil, fold_nbf read _ _ _ (hr d rfl), Option.some_bind,
        Option.bind_eq_bind]
      rfl
  have h5 : ∀ (acc : Claims) (d : Option gojwt.NumericDate), gojwt.readsBack read d →
      acc.RegisteredClaims.IssuedAt = none →
      ((omitNil "iat" d).map fun m => (m.1, m.2.read)).foldlM (setFieldWith read) acc
        = some { acc with RegisteredClaims := { acc.RegisteredClaims with
            IssuedAt := d.map gojwt.NumericDate.wire } } := by
    intro acc d hr h
    obtain ⟨u, e, n, ⟨i, s, x, nb, ia, j⟩⟩ := acc
    simp only at h
    subst h
    cases d with
    | none => rfl
    | some d =>
      simp only [omitNil, List.map_cons, List.map_nil, json.read_str, json.read_raw, json.read_num, List.foldlM_cons,
        List.foldlM_nil, fold_iat read _ _ _ (hr d rfl), Option.some_bind,
        Option.bind_eq_bind]
      rfl
  rw [h1 _ _ rfl]
  simp only [Option.some_bind, Option.bind_eq_bind]
  rw [h2 _ _ rfl]
  simp only [Option.some_bind, Option.bind_eq_bind]
  rw [h3 _ _ hexp rfl]
  simp only [Option.some_bind, Option.bind_eq_bind]
  rw [h4 _ _ hnbf rfl]
  simp only [Option.some_bind, Option.bind_eq_bind]
  rw [h5 _ _ hiat rfl]
  simp only [Option.some_bind, Option.bind_eq_bind]
  rw [h6 _ _ rfl]
  rfl

/-- Decoding undoes encoding, up to the coercion of the strings and the
precision of the dates, when the dates read back through float64. -/
theorem unmarshalClaims_Marshal (c : Claims)
    (hexp : gojwt.readsBack floatDate c.RegisteredClaims.ExpiresAt)
    (hnbf : gojwt.readsBack floatDate c.RegisteredClaims.NotBefore)
    (hiat : gojwt.readsBack floatDate c.RegisteredClaims.IssuedAt) :
    unmarshalClaims (json.Marshal c.members) Claims.zero = some c.wire := by
  simp only [unmarshalClaims, json.Unmarshal_Marshal _ (members_flat c)]
  exact foldlM_members floatDate c hexp hnbf hiat

end jwt

namespace strconv

theorem bitLen_le : ∀ fuel n k, n < 2 ^ k → bitLen fuel n ≤ k := by
  intro fuel
  induction fuel with
  | zero => intro n k _; simp [bitLen]
  | succ f ih =>
    intro n k h
    unfold bitLen
    split_ifs with h0
    · omega
    · obtain ⟨j, rfl⟩ : ∃ j, k = j + 1 := by
        cases k with
        | zero => simp at h; omega
        | succ j => exact ⟨j, rfl⟩
      have := ih (n / 2) j (by rw [pow_succ] at h; omega)
      omega

theorem log2_le (n k : Nat) (h : n < 2 ^ (k + 1)) : log2 n ≤ k := by
  have := bitLen_le n n (k + 1) h
  unfold log2
  omega

/-- A whole number below 2 ^ 53 is a float64. -/
theorem roundRatio_small (p : Nat) (h : p < 2 ^ 53) :
    ∃ k : Nat, roundRatio p 1 = some (p * 2 ^ k, -(k : Int)) := by
  by_cases h0 : p = 0
  · subst h0
    exact ⟨0, by simp [roundRatio]⟩
  · have hl := log2_le p 52 h
    have hl1 : log2 1 = 0 := by decide
    unfold roundRatio
    rw [if_neg h0, hl1]
    simp only
    generalize he : (if atLeastPow p 1 ((log2 p : Int) - (0 : Nat)) = true
      then (log2 p : Int) - (0 : Nat) else (log2 p : Int) - (0 : Nat) - 1) = e
    have hle : e ≤ 52 := by
      rw [← he]
      split_ifs <;> omega
    by_cases hu : max (e - 52) (-1074) < 0
    · refine ⟨(-(max (e - 52) (-1074))).toNat, ?_⟩
      have h971 : ¬ (971 < max (e - 52) (-1074) ∨ (max (e - 52) (-1074) = 971 ∧ True)) := by
        omega
      simp only [hu, if_true, Nat.div_one, Nat.mod_one, mul_zero, Nat.not_lt_zero,
        zero_ne_one, false_and, or_self, if_false]
      rw [if_neg (by omega)]
      congr 2
      omega
    · have hu0 : max (e - 52) (-1074) = 0 := by omega
      refine ⟨0, ?_⟩
      simp only [hu0, lt_self_iff_false, if_false, Int.toNat_zero, pow_zero, mul_one,
        Nat.div_one, Nat.mod_one, mul_zero, Nat.not_lt_zero, zero_ne_one, false_and, or_self,
        Nat.cast_zero, neg_zero]
      rw [if_neg (by omega)]

end strconv

namespace time

theorem wrap64_id (x : Int) (h1 : -(2 : Int) ^ 63 ≤ x) (h2 : x < 2 ^ 63) : wrap64 x = x := by
  unfold wrap64
  omega

theorem UnixTime_whole (sec : Int) (h1 : -(2 : Int) ^ 62 ≤ sec) (h2 : sec < 2 ^ 62) :
    UnixTime sec 0 = sec * Second := by
  unfold UnixTime
  simp only [lt_self_iff_false, false_or, show ¬ ((1000000000 : Int) ≤ 0) by norm_num,
    if_false, add_zero, zero_mul, sub_zero]
  rw [wrap64_id sec (by omega) (by omega),
    wrap64_id (sec + unixToInternal) (by unfold unixToInternal; omega)
      (by unfold unixToInternal; omega)]
  ring

end time

namespace gojwt

theorem NewNumericDate_whole (sec : Int) : NewNumericDate (sec * time.Second) = ⟨sec * time.Second⟩ := by
  have h : ¬ ((1000000000 : Int) ≤ 0) := by norm_num
  simp only [NewNumericDate, time.Truncate, TimePrecision, time.Second, h, if_false,
    NumericDate.mk.injEq]
  omega

/-- The date of a float64 that is a whole number below 2 ^ 53 in size. -/
theorem newNumericDateFromSeconds_whole (neg : Bool) (p k : Nat) (h : p < 2 ^ 53) :
    newNumericDateFromSeconds ⟨neg, p * 2 ^ k, -(k : Int)⟩
      = ⟨(if neg then -(p : Int) else (p : Int)) * time.Second⟩ := by
  have hp : (p : Int) < 2 ^ 53 := by exact_mod_cast h
  have hpos : 0 < 2 ^ k := by positivity
  have hint : (math.Modf ⟨neg, p * 2 ^ k, -(k : Int)⟩).1.int64
      = (if neg then -(p : Int) else (p : Int)) := by
    unfold math.Modf strconv.Float64.int64 strconv.Float64.trunc
    by_cases hk : k = 0
    · subst hk
      simp only [Nat.cast_zero, neg_zero, le_refl, if_true, pow_zero, mul_one, Int.toNat_zero]
      cases neg
      · simp only [Bool.false_eq_true, if_false]
        rw [if_pos (by omega)]
      · simp only [if_true]
        rw [if_pos (by omega)]
    · have hneg : ¬ (0 : Int) ≤ -(k : Int) := by omega
      simp only [hneg, if_false, le_refl, if_true, Int.toNat_zero, pow_zero, mul_one, neg_neg,
        Int.toNat_ofNat, Nat.mul_div_cancel _ hpos]
      cases neg
      · simp only [Bool.false_eq_true, if_false]
        rw [if_pos (by omega)]
      · simp only [if_true]
        rw [if_pos (by omega)]
  have hfrac : strconv.int64Of
      ((math.Modf ⟨neg, p * 2 ^ k, -(k : Int)⟩).2.mul ⟨false, 1000000000, 0⟩) = 0 := by
    unfold math.Modf strconv.Float64.mul
    by_cases hk : k = 0
    · subst hk
      simp only [Nat.cast_zero, neg_zero, le_refl, if_true, add_zero, zero_mul, Int.toNat_zero,
        pow_zero, mul_one, strconv.roundRatio]
      cases neg <;> decide
    · have hneg : ¬ (0 : Int) ≤ -(k : Int) := by omega
      simp only [hneg, if_false, add_zero, neg_neg, Int.toNat_ofNat, Nat.mul_mod_left, zero_mul,
        strconv.roundRatio, if_true]
      cases neg <;> decide
  unfold newNumericDateFromSeconds
  simp only [hint, hfrac]
  rw [time.UnixTime_whole _ (by split_ifs <;> omega) (by split_ifs <;> omega)]
  exact NewNumericDate_whole _

theorem floatDate_ofInt (n : Int) (h1 : -(2 : Int) ^ 53 ≤ n) (h2 : n ≤ 2 ^ 53) :
    jwt.floatDate (json.Number.ofInt n) = some ⟨n * time.Second⟩ := by
  by_cases hb : n.natAbs = 2 ^ 53
  · have hcase : n = 2 ^ 53 ∨ n = -(2 : Int) ^ 53 := by omega
    rcases hcase with e | e
    · subst e
      decide!
    · subst e
      decide!
  · have hlt : n.natAbs < 2 ^ 53 := by omega
    obtain ⟨k, hk⟩ := strconv.roundRatio_small n.natAbs hlt
    unfold jwt.floatDate json.Number.ofInt strconv.ParseFloat
    simp only
    by_cases h0 : n.natAbs = 0
    · have hn : n = 0 := by omega
      subst hn
      decide!
    · rw [if_neg h0, if_neg (by norm_num), if_neg (by norm_num)]
      simp only [le_refl, if_true, Int.toNat_zero, pow_zero, mul_one, hk, Option.map_some',
        newNumericDateFromSeconds_whole _ _ _ hlt, Option.some.injEq, NumericDate.mk.injEq]
      by_cases hneg : n < 0
      · simp only [hneg, decide_True, if_true]
        congr 1
        omega
      · simp only [hneg, decide_False, Bool.false_eq_true, if_false]
        congr 1
        omega

/-- The reading through float64 reads back every date within 2 ^ 53 seconds of
the epoch. -/
theorem readsBack_floatDate (d : NumericDate) (h : time.exact d.Time) :
    readsBack jwt.floatDate (some d) := by
  intro x hx
  simp only [Option.some.injEq] at hx
  subst hx
  unfold time.exact at h
  have hs : ¬ ((1000000000 : Int) ≤ 0) := by norm_num
  rw [floatDate_ofInt, wire_eq]
  · simp only [time.Unix, time.Truncate, TimePrecision, time.Second, hs, if_false] at h ⊢
    omega
  · simp only [time.Unix, time.Truncate, TimePrecision, time.Second, hs, if_false] at h ⊢
    omega

theorem readsBack_none (read : json.Number → Option NumericDate) : readsBack read Option.none := by
  intro x hx
  simp at hx

end gojwt

namespace sha2

theorem beBytes_lt (n x : Nat) : ∀ b ∈ beBytes n x, b < 256 := by
  induction n with
  | zero => intro b hb; simp [beBytes] at hb
  | succ n ih =>
    intro b hb
    simp only [beBytes, List.mem_cons] at hb
    rcases hb with h | h
    · subst h; exact Nat.mod_lt _ (by norm_num)
    · exact ih b h

theorem digest_lt (p : Params) (iv : List Nat) (n : Nat) (msg : Bytes) :
    ∀ b ∈ digest p iv n msg, b < 256 := by
  intro b hb
  unfold digest at hb
  have hb := List.mem_of_mem_take hb
  simp only [List.mem_flatMap] at hb
  obtain ⟨w, _, h⟩ := hb
  exact beBytes_lt _ _ b h

end sha2

namespace hmac

/-- Every byte of a MAC is a byte. -/
theorem sum_lt (h : Hash) (key msg : Bytes) : ∀ b ∈ sum h key msg, b < 256 := by
  unfold sum
  cases h <;> exact sha2.digest_lt _ _ _ _

end hmac

namespace base64

theorem decodeChars_mem (cs : Bytes) (vs : List Nat) (h : decodeChars cs = some vs) :
    ∀ c ∈ cs, decodeChar c ≠ none := by
  induction cs generalizing vs with
  | nil => intro c hc; simp at hc
  | cons a cs ih =>
    intro c hc
    unfold decodeChars at h
    cases ha : decodeChar a with
    | none => rw [ha] at h; simp at h
    | some v =>
      rw [ha] at h
      simp only at h
      cases hr : decodeChars cs with
      | none => rw [hr] at h; simp at h
      | some ws =>
        rcases List.mem_cons.1 hc with e | e
        · rw [e, ha]; simp
        · exact ih ws hr c e

/-- A segment that decodes holds no dot. -/
theorem decode_no_dot (s bs : Bytes) (h : decode s = some bs) : ∀ c ∈ s, c ≠ 46 := by
  intro c hc hdot
  subst hdot
  unfold decode at h
  cases hd : decodeChars (s.filter (fun c => c != 10 && c != 13)) with
  | none => rw [hd] at h; simp at h
  | some vs =>
    have := decodeChars_mem _ vs hd 46 (by
      rw [List.mem_filter]
      exact ⟨hc, by decide⟩)
    exact this decodeChar_dot

theorem encode_no_dot (bs : Bytes) : ∀ c ∈ encode bs, c ≠ 46 :=
  fun c hc => (encode_chars bs c hc).2

end base64

namespace gojwt

theorem splitDots_ne_nil (p : Bytes) : splitDots p ≠ [] := by
  induction p with
  | nil => simp [splitDots]
  | cons c cs ih =>
    unfold splitDots
    split_ifs
    · simp
    · cases h : splitDots cs with
      | nil => exact absurd h ih
      | cons a as => simp

theorem splitDots_no_dot (p : Bytes) (h : ∀ c ∈ p, c ≠ 46) : splitDots p = [p] := by
  induction p with
  | nil => rfl
  | cons c cs ih =>
    have hc : c ≠ 46 := h c (by simp)
    have := ih (fun x hx => h x (by simp [hx]))
    unfold splitDots
    rw [if_neg hc, this]

theorem splitDots_append (a r : Bytes) (h : ∀ c ∈ a, c ≠ 46) :
    splitDots (a ++ 46 :: r) = a :: splitDots r := by
  induction a with
  | nil => simp [splitDots]
  | cons c cs ih =>
    have hc : c ≠ 46 := h c (by simp)
    have := ih (fun x hx => h x (by simp [hx]))
    rw [List.cons_append, splitDots, if_neg hc, this]

theorem splitDots_dot (p : Bytes) (h : 46 ∈ p) : 2 ≤ (splitDots p).length := by
  induction p with
  | nil => simp at h
  | cons c cs ih =>
    unfold splitDots
    split_ifs with hc
    · have := splitDots_ne_nil cs
      cases hs : splitDots cs with
      | nil => exact absurd hs this
      | cons a as => simp
    · have hm : 46 ∈ cs := by
        rcases List.mem_cons.1 h with e | e
        · exact absurd e.symm hc
        · exact e
      have := ih hm
      cases hs : splitDots cs with
      | nil => rw [hs] at this; simp at this
      | cons a as => rw [hs] at this; simpa using this

theorem Marshal_lt (ms : List (String × json.Value)) : ∀ b ∈ json.Marshal ms, b < 256 :=
  utf8.encode_lt _

theorem GetSigningMethod_Alg (m : SigningMethod) : GetSigningMethod m.Alg = some m := by
  cases m <;> decide

theorem headerAlg_new (a : String) :
    headerAlg [("alg", .str a), ("typ", .str "JWT")] = some a := by
  have h1 : ¬ (("typ" : String) = "alg") := by decide
  simp [headerAlg, json.lookup, List.find?, h1]

/-- The header NewWithClaims builds, read back. -/
theorem UnmarshalMap_header (a : String) :
    json.UnmarshalMap (json.Marshal [("alg", .str a), ("typ", .str "JWT")])
      = some [("alg", .str a), ("typ", .str "JWT")] := by
  rw [json.UnmarshalMap, json.Marshal, utf8.decode_encode_text,
    json.parseText_render _ (by
      intro m hm
      simp only [List.mem_cons, List.mem_singleton, List.not_mem_nil, or_false] at hm
      rcases hm with h | h <;> subst h <;> rfl)]
  rfl

/-- The parser reads back the header of a signing string and the claims as
json.Unmarshal decodes them, whatever third segment without a dot follows. -/
theorem ParseUnverified_signing (m : SigningMethod) (c cl : jwt.Claims) (p2 : Bytes)
    (h2 : ∀ x ∈ p2, x ≠ 46)
    (hc : jwt.unmarshalClaims (json.Marshal c.members) jwt.Claims.zero = some cl) :
    ParseUnverified ((NewWithClaims m c).SigningString ++ 46 :: p2) jwt.Claims.zero
      = .ok (⟨(NewWithClaims m c).SigningString ++ 46 :: p2, m,
              [("alg", .str m.Alg), ("typ", .str "JWT")], cl, [], false⟩,
             base64.encode (json.Marshal [("alg", .str m.Alg), ("typ", .str "JWT")]),
             base64.encode (json.Marshal c.members), p2) := by
  unfold ParseUnverified
  simp only [Token.SigningString, NewWithClaims, List.append_assoc, List.cons_append]
  rw [splitDots_append _ _ (base64.encode_no_dot _), splitDots_append _ _ (base64.encode_no_dot _),
    splitDots_no_dot _ h2]
  simp only [base64.decode_encode_bytes _ (Marshal_lt _), UnmarshalMap_header, hc,
    headerAlg_new, GetSigningMethod_Alg]

/-- When json.Unmarshal does not decode the claims of a signing string, the
parser answers that the token is malformed. -/
theorem ParseUnverified_unreadable (m : SigningMethod) (c : jwt.Claims) (p2 : Bytes)
    (hc : jwt.unmarshalClaims (json.Marshal c.members) jwt.Claims.zero = none) :
    ParseUnverified ((NewWithClaims m c).SigningString ++ 46 :: p2) jwt.Claims.zero
      = .error .malformed := by
  unfold ParseUnverified
  simp only [Token.SigningString, NewWithClaims, List.append_assoc, List.cons_append]
  rw [splitDots_append _ _ (base64.encode_no_dot _), splitDots_append _ _ (base64.encode_no_dot _)]
  cases hs : splitDots p2 with
  | nil => rfl
  | cons a as =>
    cases as with
    | nil =>
      simp only [base64.decode_encode_bytes _ (Marshal_lt _), UnmarshalMap_header, hc]
    | cons b bs => rfl

theorem ParseUnverified_dot (m : SigningMethod) (c : jwt.Claims) (p2 : Bytes) (h2 : 46 ∈ p2) :
    ParseUnverified ((NewWithClaims m c).SigningString ++ 46 :: p2) jwt.Claims.zero
      = .error .malformed := by
  unfold ParseUnverified
  simp only [Token.SigningString, NewWithClaims, List.append_assoc, List.cons_append]
  rw [splitDots_append _ _ (base64.encode_no_dot _), splitDots_append _ _ (base64.encode_no_dot _)]
  have := splitDots_dot p2 h2
  cases hs : splitDots p2 with
  | nil => rfl
  | cons a as =>
    cases as with
    | nil => rw [hs] at this; simp at this
    | cons b bs => rfl

end gojwt

namespace jwt

open gojwt in
/-- What ValidateToken returns for the signing string of a token of the HMAC
family, whose claims json.Unmarshal decodes, followed by a third segment that
decodes: the claims when the decoded bytes are the MAC and the time checks
pass. -/
theorem ValidateToken_segment (s : Service) (now : Int) (m : SigningMethod) (h : hmac.Hash)
    (hm : m.asHMAC = some h) (c cl : Claims)
    (hc : unmarshalClaims (json.Marshal c.members) Claims.zero = some cl)
    (p2 sig : Bytes) (hd : base64.decode p2 = some sig) :
    s.ValidateToken now ((NewWithClaims m c).SigningString ++ 46 :: p2) =
      if sig = hmac.sum h s.secretKey (NewWithClaims m c).SigningString then
        (match validateTimes now cl.RegisteredClaims with
         | .error e => .error e
         | .ok _ => .ok cl)
      else .error .signatureInvalid := by
  have hnd := base64.decode_no_dot p2 sig hd
  unfold Service.ValidateToken ParseWithClaims
  rw [ParseUnverified_signing m c cl p2 hnd hc]
  simp only [hd, Service.keyFunc, hm, SigningMethod.Verify, hmac.Equal]
  have hs : (NewWithClaims m c).SigningString
      = base64.encode (json.Marshal [("alg", .str m.Alg), ("typ", .str "JWT")])
        ++ 46 :: base64.encode (json.Marshal c.members) := rfl
  rw [← hs]
  by_cases he : sig = hmac.sum h s.secretKey (NewWithClaims m c).SigningString
  · simp only [he, decide_True, if_true]
    cases validateTimes now cl.RegisteredClaims <;> rfl
  · simp only [he, decide_False, if_false, Bool.false_eq_true]

open gojwt in
/-- When json.Unmarshal does not decode the claims of a signing string,
ValidateToken returns an error whatever follows the signing string. -/
theorem ValidateToken_unreadable (s : Service) (now : Int) (m : SigningMethod) (c : Claims)
    (hc : unmarshalClaims (json.Marshal c.members) Claims.zero = none) (p2 : Bytes) :
    s.ValidateToken now ((NewWithClaims m c).SigningString ++ 46 :: p2) = .error .malformed := by
  unfold Service.ValidateToken ParseWithClaims
  rw [ParseUnverified_unreadable m c p2 hc]

open gojwt in
theorem ValidateToken_undecodable (s : Service) (now : Int) (m : SigningMethod) (c : Claims)
    (p2 : Bytes) (hd : base64.decode p2 = none) :
    s.ValidateToken now ((NewWithClaims m c).SigningString ++ 46 :: p2) = .error .malformed := by
  cases hc : unmarshalClaims (json.Marshal c.members) Claims.zero with
  | none => exact ValidateToken_unreadable s now m c hc p2
  | some cl =>
    unfold Service.ValidateToken ParseWithClaims
    by_cases hdot : 46 ∈ p2
    · rw [ParseUnverified_dot m c p2 hdot]
    · rw [ParseUnverified_signing m c cl p2 (fun x hx e => hdot (e ▸ hx)) hc]
      simp only [hd]

open gojwt in
theorem SignedString_ok (m : SigningMethod) (h : hmac.Hash) (hm : m.asHMAC = some h)
    (c : Claims) (key : Bytes) :
    (NewWithClaims m c).SignedString key
      = .ok ((NewWithClaims m c).SigningString
          ++ 46 :: base64.encode (hmac.sum h key (NewWithClaims m c).SigningString)) := by
  unfold Token.SignedString SigningMethod.Sign
  have hm2 : (NewWithClaims m c).Method.asHMAC = some h := hm
  simp only [hm2]

open gojwt in
/-- Validation of a token signed with the secret of the service by a method of
the HMAC family, when the dates of its claims read back through float64: the
outcome of the two time checks. -/
theorem ValidateToken_signed (s : Service) (now : Int) (m : SigningMethod) (h : hmac.Hash)
    (hm : m.asHMAC = some h) (c : Claims)
    (hexp : readsBack floatDate c.RegisteredClaims.ExpiresAt)
    (hnbf : readsBack floatDate c.RegisteredClaims.NotBefore)
    (hiat : readsBack floatDate c.RegisteredClaims.IssuedAt) (tok : Bytes)
    (ht : (NewWithClaims m c).SignedString s.secretKey = .ok tok) :
    s.ValidateToken now tok =
      (match validateTimes now c.wire.RegisteredClaims with
       | .error e => .error e
       | .ok _ => .ok c.wire) := by
  rw [SignedString_ok m h hm c s.secretKey] at ht
  injection ht with ht
  subst ht
  rw [ValidateToken_segment s now m h hm c c.wire (unmarshalClaims_Marshal c hexp hnbf hiat) _ _
    (base64.decode_encode_bytes _ (hmac.sum_lt _ _ _)), if_pos rfl]

end jwt

namespace gojwt

/-- The time checks pass exactly when now is before exp and not before nbf,
for the claims that are present. -/
theorem validateTimes_ok (now : Int) (c : RegisteredClaims) :
    validateTimes now c = .ok () ↔
      (∀ e, c.ExpiresAt = some e → now < e.Time) ∧ (∀ n, c.NotBefore = some n → n.Time ≤ now) := by
  obtain ⟨i, s, x, nb, ia, j⟩ := c
  unfold validateTimes
  cases x with
  | none =>
    cases nb with
    | none => simp
    | some n =>
      simp only [time.Before, Bool.false_or, decide_eq_true_eq]
      by_cases h : now < n.Time
      · simp [h]
      · simp [h]; omega
  | some e =>
    cases nb with
    | none =>
      simp only [time.Before, Bool.or_false]
      by_cases h : now < e.Time
      · simp [h]
      · simp [h]
    | some n =>
      simp only [time.Before]
      by_cases h : now < e.Time <;> by_cases h' : now < n.Time
      · simp [h, h']
      · simp [h, h']; omega
      · simp [h, h']
      · simp [h, h']

end gojwt

namespace gojwt

theorem NewNumericDate_le (t : Int) : (NewNumericDate t).Time ≤ t := by
  simp only [NewNumericDate, time.Truncate, TimePrecision, time.Second]
  split_ifs <;> omega

theorem NewNumericDate_gt (t : Int) : t < (NewNumericDate t).Time + time.Second := by
  simp only [NewNumericDate, time.Truncate, TimePrecision, time.Second]
  split_ifs <;> omega

theorem NewNumericDate_mod (t : Int) : (NewNumericDate t).Time % time.Second = 0 := by
  simp only [NewNumericDate, time.Truncate, TimePrecision, time.Second]
  split_ifs <;> omega

/-- A whole number of seconds added to a time passes through the truncation. -/
theorem NewNumericDate_add (t k : Int) :
    (NewNumericDate (time.Add t (k * time.Second))).Time
      = (NewNumericDate t).Time + k * time.Second := by
  simp only [NewNumericDate, time.Truncate, TimePrecision, time.Second, time.Add]
  split_ifs <;> omega

/-- The date of a time within 2 ^ 53 seconds of the epoch reads back through
float64. -/
theorem readsBack_NewNumericDate (t : Int) (h : time.exact t) :
    readsBack jwt.floatDate (some (NewNumericDate t)) := by
  apply readsBack_floatDate
  have h1 := NewNumericDate_le t
  have h2 := NewNumericDate_gt t
  have h3 := NewNumericDate_mod t
  unfold time.exact at h ⊢
  simp only [time.Second] at h h1 h2 h3 ⊢
  omega

end gojwt

namespace jwt

theorem accessClaims_wire (s : Service) (tExp tIat tNbf : Int) (userID : uuid.UUID)
    (email username : Bytes) :
    (s.accessClaims tExp tIat tNbf userID email username).wire
      = s.accessClaims tExp tIat tNbf userID (json.coerce email) (json.coerce username) := by
  simp only [Claims.wire, Service.accessClaims, Option.map_some', gojwt.NewNumericDate_wire]

theorem refreshClaims_wire (tExp tIat tNbf : Int) (userID : uuid.UUID) :
    (refreshClaims tExp tIat tNbf userID).wire = refreshClaims tExp tIat tNbf userID := by
  simp only [Claims.wire, refreshClaims, Option.map_some', gojwt.NewNumericDate_wire]
  rfl

/-- The claims a signed token of the HMAC family carries. -/
theorem encodedClaims_signed (m : gojwt.SigningMethod) (h : hmac.Hash) (hm : m.asHMAC = some h)
    (c : Claims) (key tok : Bytes) (ht : (gojwt.NewWithClaims m c).SignedString key = .ok tok) :
    gojwt.encodedClaims tok = some c.wire := by
  rw [SignedString_ok m h hm c key] at ht
  injection ht with ht
  subst ht
  unfold gojwt.encodedClaims
  simp only [gojwt.Token.SigningString, gojwt.NewWithClaims, List.append_assoc,
    List.cons_append]
  rw [gojwt.splitDots_append _ _ (base64.encode_no_dot _),
    gojwt.splitDots_append _ _ (base64.encode_no_dot _),
    gojwt.splitDots_no_dot _ (base64.encode_no_dot _)]
  simp only [base64.decode_encode_bytes _ (gojwt.Marshal_lt _),
    json.Unmarshal_Marshal _ (members_flat c)]
  exact foldlM_members gojwt.exactDate c (gojwt.readsBack_exactDate _)
    (gojwt.readsBack_exactDate _) (gojwt.readsBack_exactDate _)

/-- GenerateToken returns a token, and the token carries the claims it built,
the e-mail and the user name as the encoder coerces them to valid UTF-8. -/
theorem GenerateToken_claims (s : Service) (tExp tIat tNbf : Int) (userID : uuid.UUID)
    (email username : Bytes) :
    ∃ tok, s.GenerateToken tExp tIat tNbf userID email username = .ok tok
      ∧ gojwt.encodedClaims tok
          = some (s.accessClaims tExp tIat tNbf userID (json.coerce email)
              (json.coerce username)) := by
  have h := SignedString_ok .HS256 .SHA256 rfl
    (s.accessClaims tExp tIat tNbf userID email username) s.secretKey
  refine ⟨_, h, ?_⟩
  rw [encodedClaims_signed .HS256 .SHA256 rfl _ _ _ h, accessClaims_wire]

/-- GenerateRefreshToken returns a token, and the token carries the claims it
built. -/
theorem GenerateRefreshToken_claims (s : Service) (tExp tIat tNbf : Int) (userID : uuid.UUID) :
    ∃ tok, s.GenerateRefreshToken tExp tIat tNbf userID = .ok tok
      ∧ gojwt.encodedClaims tok = some (refreshClaims tExp tIat tNbf userID) := by
  have h := SignedString_ok .HS256 .SHA256 rfl (refreshClaims tExp tIat tNbf userID) s.secretKey
  refine ⟨_, h, ?_⟩
  rw [encodedClaims_signed .HS256 .SHA256 rfl _ _ _ h, refreshClaims_wire]

/-- Validation of a token GenerateToken returned, when its three dates lie
within 2 ^ 53 seconds of the epoch: the outcome of the two time checks on the
claims it built. -/
theorem ValidateToken_GenerateToken (s : Service) (now tExp tIat tNbf : Int) (userID : uuid.UUID)
    (email username : Bytes) (tok : Bytes)
    (hE : time.exact (time.Add tExp s.expiry)) (hI : time.exact tIat) (hN : time.exact tNbf)
    (ht : s.GenerateToken tExp tIat tNbf userID email username = .ok tok) :
    s.ValidateToken now tok =
      (match gojwt.validateTimes now
          (s.accessClaims tExp tIat tNbf userID (json.coerce email)
            (json.coerce username)).RegisteredClaims with
       | .error e => .error e
       | .ok _ => .ok (s.accessClaims tExp tIat tNbf userID (json.coerce email)
            (json.coerce username))) := by
  have := ValidateToken_signed s now .HS256 .SHA256 rfl
    (s.accessClaims tExp tIat tNbf userID email username)
    (gojwt.readsBack_NewNumericDate _ hE) (gojwt.readsBack_NewNumericDate _ hN)
    (gojwt.readsBack_NewNumericDate _ hI) tok ht
  rw [accessClaims_wire] at this
  exact this

theorem ValidateToken_GenerateRefreshToken (s : Service) (now tExp tIat tNbf : Int)
    (userID : uuid.UUID) (tok : Bytes)
    (hE : time.exact (time.Add tExp (7 * 24 * time.Hour))) (hI : time.exact tIat)
    (hN : time.exact tNbf)
    (ht : s.GenerateRefreshToken tExp tIat tNbf userID = .ok tok) :
    s.ValidateToken now tok =
      (match gojwt.validateTimes now (refreshClaims tExp tIat tNbf userID).RegisteredClaims with
       | .error e => .error e
       | .ok _ => .ok (refreshClaims tExp tIat tNbf userID)) := by
  have := ValidateToken_signed s now .HS256 .SHA256 rfl (refreshClaims tExp tIat tNbf userID)
    (gojwt.readsBack_NewNumericDate _ hE) (gojwt.readsBack_NewNumericDate _ hN)
    (gojwt.readsBack_NewNumericDate _ hI) tok ht
  rw [refreshClaims_wire] at this
  exact this

theorem New_expiry (secret : Bytes) (hours : Int) (h0 : 0 ≤ hours)
    (hfit : hours * time.Hour < 2 ^ 63) : (New secret hours).expiry = hours * time.Hour := by
  simp only [New, time.wrap64, time.Hour, time.Second] at hfit ⊢
  omega

/-- ValidateToken looks at the secret of the service only. -/
theorem ValidateToken_secret (s s' : Service) (hk : s'.secretKey = s.secretKey) (now : Int)
    (tok : Bytes) : s'.ValidateToken now tok = s.ValidateToken now tok := by
  have hf : s'.keyFunc = s.keyFunc := by
    funext t
    simp only [Service.keyFunc, hk]
  simp only [Service.ValidateToken, hf]

/-- The bytes of valid UTF-8 are what the encoder and the decoder make of
them. -/
theorem coerce_encode (cs : List Char) : json.coerce (utf8.encode cs) = utf8.encode cs := by
  unfold json.coerce
  rw [utf8.decode_encode_text]

theorem coerce_nil : json.coerce [] = [] := rfl

theorem coerce_coerce (b : Bytes) : json.coerce (json.coerce b) = json.coerce b :=
  coerce_encode _

end jwt

namespace jwt

/-- The byte 0xFF, which is not valid UTF-8, reads back as U+FFFD. -/
theorem coerce_invalid : json.coerce [0xFF] = [0xEF, 0xBF, 0xBD] := by decide

end jwt

/-- C1, the claim as stated fails: for an e-mail that is not valid UTF-8,
here the one byte 0xFF, ValidateToken at the issuing instant returns claims
whose e-mail is not the one supplied but the three bytes of U+FFFD, which the
encoder wrote in its place. -/
theorem C1_counterexample :
    ∃ tok c,
      (jwt.New (ascii "s3cr3t") 24).GenerateToken 1700000000500000000 1700000000500000000
        1700000000500000000 ⟨0x11111111111111111111111111111111, by norm_num⟩
        [0xFF] (ascii "alice") = .ok tok
      ∧ (jwt.New (ascii "s3cr3t") 24).ValidateToken 1700000000500000000 tok = .ok c
      ∧ c.Email = [0xEF, 0xBF, 0xBD] ∧ c.Email ≠ [0xFF] := by
  obtain ⟨tok, ht, _⟩ := jwt.GenerateToken_claims (jwt.New (ascii "s3cr3t") 24)
    1700000000500000000 1700000000500000000 1700000000500000000
    ⟨0x11111111111111111111111111111111, by norm_num⟩ [0xFF] (ascii "alice")
  have hv := jwt.ValidateToken_GenerateToken (jwt.New (ascii "s3cr3t") 24) 1700000000500000000
    1700000000500000000 1700000000500000000 1700000000500000000
    ⟨0x11111111111111111111111111111111, by norm_num⟩ [0xFF] (ascii "alice") tok
    (by decide) (by decide) (by decide) ht
  have ht2 : gojwt.validateTimes 1700000000500000000
      ((jwt.New (ascii "s3cr3t") 24).accessClaims 1700000000500000000 1700000000500000000
        1700000000500000000 ⟨0x11111111111111111111111111111111, by norm_num⟩
        (json.coerce [0xFF]) (json.coerce (ascii "alice"))).RegisteredClaims = .ok () := by
    decide
  rw [ht2] at hv
  refine ⟨tok, _, ht, hv, ?_, ?_⟩
  · exact jwt.coerce_invalid
  · rw [show ((jwt.New (ascii "s3cr3t") 24).accessClaims 1700000000500000000 1700000000500000000
        1700000000500000000 ⟨0x11111111111111111111111111111111, by norm_num⟩
        (json.coerce [0xFF]) (json.coerce (ascii "alice"))).Email = json.coerce [0xFF] from rfl,
      jwt.coerce_invalid]
    decide

/-- C1 (round trip), amended. For every secret, every positive number of hours
whose duration fits an int64, every identity and every four clock readings
within 2 ^ 53 seconds of the epoch, three taken by GenerateToken and one by
ValidateToken, the last not before the one taken for notBefore and at most
the lifetime less a second after the one taken for expiresAt (as when all
four are one and the same instant): GenerateToken returns a token, and
ValidateToken on the same service returns claims whose subject is the text of
the id, whose user id is the one supplied, and whose e-mail and user name are
the ones supplied with every byte that is not part of a valid UTF-8 sequence
replaced by U+FFFD; they are exactly the ones supplied when those are valid
UTF-8. -/
theorem C1_round_trip (secret : Bytes) (hours : Int) (hpos : 0 < hours)
    (hfit : hours * time.Hour < 2 ^ 63) (id : uuid.UUID) (email username : Bytes)
    (tExp tIat tNbf now : Int)
    (hE : time.exact (tExp + hours * time.Hour)) (hI : time.exact tIat) (hN : time.exact tNbf)
    (hnbf : tNbf ≤ now) (hexp : now - tExp ≤ hours * time.Hour - time.Second) :
    ∃ tok c, (jwt.New secret hours).GenerateToken tExp tIat tNbf id email username = .ok tok
      ∧ (jwt.New secret hours).ValidateToken now tok = .ok c
      ∧ c.RegisteredClaims.Subject = id.String ∧ c.UserID = id
      ∧ c.Email = utf8.encode (utf8.decode email)
      ∧ c.Username = utf8.encode (utf8.decode username)
      ∧ (∀ text : List Char, email = utf8.encode text → c.Email = email)
      ∧ (∀ text : List Char, username = utf8.encode text → c.Username = username) := by
  have hexpiry := jwt.New_expiry secret hours (le_of_lt hpos) hfit
  obtain ⟨tok, ht, _⟩ := jwt.GenerateToken_claims (jwt.New secret hours) tExp tIat tNbf id
    email username
  have hv := jwt.ValidateToken_GenerateToken (jwt.New secret hours) now tExp tIat tNbf id email
    username tok (by rw [hexpiry]; exact hE) hI hN ht
  have hok : gojwt.validateTimes now
      ((jwt.New secret hours).accessClaims tExp tIat tNbf id (json.coerce email)
        (json.coerce username)).RegisteredClaims = .ok () := by
    rw [gojwt.validateTimes_ok]
    constructor
    · intro e he
      simp only [jwt.Service.accessClaims, Option.some.injEq] at he
      subst he
      rw [hexpiry]
      have hs : ¬ ((1000000000 : Int) ≤ 0) := by norm_num
      simp only [gojwt.NewNumericDate, time.Truncate, gojwt.TimePrecision, time.Add, time.Hour,
        time.Second, hs, if_false] at hexp ⊢
      omega
    · intro n hn
      simp only [jwt.Service.accessClaims, Option.some.injEq] at hn
      subst hn
      have hs : ¬ ((1000000000 : Int) ≤ 0) := by norm_num
      simp only [gojwt.NewNumericDate, time.Truncate, gojwt.TimePrecision, time.Second, hs,
        if_false]
      omega
  rw [hok] at hv
  refine ⟨tok, _, ht, hv, rfl, rfl, rfl, rfl, ?_, ?_⟩
  · intro text he
    rw [he]
    exact jwt.coerce_encode text
  · intro text he
    rw [he]
    exact jwt.coerce_encode text

/-- C1, the scenario of the specification at one and the same instant: secret
s3cr3t, 24 hours, the id 11111111-1111-1111-1111-111111111111, a@b.com,
alice. -/
theorem C1_round_trip_witness :
    (0 : Int) < 24 ∧ (24 : Int) * time.Hour < 2 ^ 63
    ∧ time.exact (1700000000500000000 + 24 * time.Hour)
    ∧ time.exact 1700000000500000000
    ∧ (1700000000500000000 : Int) ≤ 1700000000500000000
    ∧ (1700000000500000000 : Int) - 1700000000500000000 ≤ 24 * time.Hour - time.Second
    ∧ ∃ tok c, (jwt.New (ascii "s3cr3t") 24).GenerateToken 1700000000500000000
        1700000000500000000 1700000000500000000
        ⟨0x11111111111111111111111111111111, by norm_num⟩
        (ascii "a@b.com") (ascii "alice") = .ok tok
      ∧ (jwt.New (ascii "s3cr3t") 24).ValidateToken 1700000000500000000 tok = .ok c
      ∧ c.RegisteredClaims.Subject
          = uuid.UUID.String ⟨0x11111111111111111111111111111111, by norm_num⟩
      ∧ c.UserID = ⟨0x11111111111111111111111111111111, by norm_num⟩
      ∧ c.Email = utf8.encode (utf8.decode (ascii "a@b.com"))
      ∧ c.Username = utf8.encode (utf8.decode (ascii "alice"))
      ∧ (∀ text : List Char, ascii "a@b.com" = utf8.encode text → c.Email = ascii "a@b.com")
      ∧ (∀ text : List Char, ascii "alice" = utf8.encode text → c.Username = ascii "alice") :=
  ⟨by decide, by decide, by decide, by decide, by decide, by decide,
   C1_round_trip (ascii "s3cr3t") 24 (by decide) (by decide)
     ⟨0x11111111111111111111111111111111, by norm_num⟩ (ascii "a@b.com") (ascii "alice")
     1700000000500000000 1700000000500000000 1700000000500000000 1700000000500000000
     (by decide) (by decide) (by decide) (by decide) (by decide)⟩

/-- C6, the claim as stated fails: for an e-mail that is not valid UTF-8, here
the one byte 0xFF, the claims GenerateToken encodes carry as e-mail the three
bytes of U+FFFD, not the e-mail of the identity. -/
theorem C6_counterexample :
    ∃ tok c,
      (jwt.New (ascii "s3cr3t") 24).GenerateToken 1700000000000000000 1700000000000000000
        1700000000000000000 ⟨0x11111111111111111111111111111111, by norm_num⟩
        [0xFF] (ascii "alice") = .ok tok
      ∧ gojwt.encodedClaims tok = some c
      ∧ c.Email = [0xEF, 0xBF, 0xBD] ∧ c.Email ≠ [0xFF] := by
  obtain ⟨tok, ht, hc⟩ := jwt.GenerateToken_claims (jwt.New (ascii "s3cr3t") 24)
    1700000000000000000 1700000000000000000 1700000000000000000
    ⟨0x11111111111111111111111111111111, by norm_num⟩ [0xFF] (ascii "alice")
  refine ⟨tok, _, ht, hc, ?_, ?_⟩
  · exact jwt.coerce_invalid
  · rw [show ((jwt.New (ascii "s3cr3t") 24).accessClaims 1700000000000000000 1700000000000000000
        1700000000000000000 ⟨0x11111111111111111111111111111111, by norm_num⟩
        (json.coerce [0xFF]) (json.coerce (ascii "alice"))).Email = json.coerce [0xFF] from rfl,
      jwt.coerce_invalid]
    decide

/-- C6 (access-token claims), amended. For every service, identity and clock,
GenerateToken returns a token whose claims carry: as issuedAt, notBefore and
expiresAt the whole second at or below the clock reading taken for each, the
reading for expiresAt moved on by the lifetime of the service (so that with
one reading now for the three, issuedAt = notBefore = the second of now, and
expiresAt = the second of now + lifetime, which is issuedAt + lifetime when
the lifetime is a whole number of seconds); as subject the text of the id; as
user id the id; and as e-mail and user name those of the identity with every
byte that is not part of a valid UTF-8 sequence replaced by U+FFFD, which are
those of the identity when these are valid UTF-8. -/
theorem C6_access_token_claims (s : jwt.Service) (tExp tIat tNbf : Int) (id : uuid.UUID)
    (email username : Bytes) :
    ∃ tok c iat nbf exp, s.GenerateToken tExp tIat tNbf id email username = .ok tok
      ∧ gojwt.encodedClaims tok = some c
      ∧ c.RegisteredClaims.IssuedAt = some iat
      ∧ c.RegisteredClaims.NotBefore = some nbf
      ∧ c.RegisteredClaims.ExpiresAt = some exp
      ∧ iat = gojwt.NewNumericDate tIat
      ∧ nbf = gojwt.NewNumericDate tNbf
      ∧ exp = gojwt.NewNumericDate (time.Add tExp s.expiry)
      ∧ (iat.Time % 1000000000 = 0 ∧ iat.Time ≤ tIat ∧ tIat < iat.Time + 1000000000)
      ∧ (nbf.Time % 1000000000 = 0 ∧ nbf.Time ≤ tNbf ∧ tNbf < nbf.Time + 1000000000)
      ∧ (exp.Time % 1000000000 = 0 ∧ exp.Time ≤ tExp + s.expiry
          ∧ tExp + s.expiry < exp.Time + 1000000000)
      ∧ (tIat = tExp → tNbf = tExp →
          iat = nbf ∧ (s.expiry % 1000000000 = 0 → exp.Time = iat.Time + s.expiry))
      ∧ c.RegisteredClaims.Subject = id.String
      ∧ c.UserID = id
      ∧ c.Email = utf8.encode (utf8.decode email)
      ∧ c.Username = utf8.encode (utf8.decode username)
      ∧ (∀ text : List Char, email = utf8.encode text → c.Email = email)
      ∧ (∀ text : List Char, username = utf8.encode text → c.Username = username) := by
  obtain ⟨tok, ht, hc⟩ := jwt.GenerateToken_claims s tExp tIat tNbf id email username
  have hs : ¬ ((1000000000 : Int) ≤ 0) := by norm_num
  have floor : ∀ t : Int, (gojwt.NewNumericDate t).Time % 1000000000 = 0
      ∧ (gojwt.NewNumericDate t).Time ≤ t ∧ t < (gojwt.NewNumericDate t).Time + 1000000000 := by
    intro t
    simp only [gojwt.NewNumericDate, time.Truncate, gojwt.TimePrecision, time.Second, hs,
      if_false]
    omega
  have hadd : time.Add tExp s.expiry = tExp + s.expiry := rfl
  have e := floor (time.Add tExp s.expiry)
  rw [hadd] at e
  refine ⟨tok, _, _, _, _, ht, hc, rfl, rfl, rfl, rfl, rfl, rfl, floor tIat, floor tNbf,
    ?_, ?_, rfl, rfl, rfl, rfl, ?_, ?_⟩
  · rw [← hadd] at e ⊢
    exact e
  · intro h1 h2
    rw [h1, h2]
    refine ⟨rfl, ?_⟩
    intro hs
    have e0 := floor tExp
    have e1 := floor (tExp + s.expiry)
    have hadd2 : time.Add tExp s.expiry = tExp + s.expiry := rfl
    rw [hadd2]
    omega
  · intro text he
    rw [he]
    exact jwt.coerce_encode text
  · intro text he
    rw [he]
    exact jwt.coerce_encode text

/-- C7 (refresh-token claims). For every service, user id and clock, the token
GenerateRefreshToken returns carries claims whose subject is the text of the
user id, whose e-mail and user name are empty, whose issuedAt and notBefore
are the dates of the clock readings taken for them and whose expiresAt is the
date of its reading moved on by seven days, whatever the lifetime of the
service. With one reading now for the three readings this is issuedAt =
notBefore = now and expiresAt = now + 7 days. -/
theorem C7_refresh_token_claims (s : jwt.Service) (tExp tIat tNbf : Int) (userID : uuid.UUID) :
    ∃ tok c, s.GenerateRefreshToken tExp tIat tNbf userID = .ok tok
      ∧ gojwt.encodedClaims tok = some c
      ∧ c.RegisteredClaims.Subject = userID.String ∧ c.UserID = userID
      ∧ c.Email = [] ∧ c.Username = []
      ∧ c.RegisteredClaims.IssuedAt = some (gojwt.NewNumericDate tIat)
      ∧ c.RegisteredClaims.NotBefore = some (gojwt.NewNumericDate tNbf)
      ∧ c.RegisteredClaims.ExpiresAt
          = some (gojwt.NewNumericDate (time.Add tExp (7 * 24 * time.Hour)))
      ∧ (c.RegisteredClaims.ExpiresAt.map fun d => d.Time)
          = some ((gojwt.NewNumericDate tExp).Time + 7 * 24 * time.Hour) := by
  obtain ⟨tok, ht, hc⟩ := jwt.GenerateRefreshToken_claims s tExp tIat tNbf userID
  refine ⟨tok, _, ht, hc, rfl, rfl, rfl, rfl, rfl, rfl, rfl, ?_⟩
  have hs : ¬ ((1000000000 : Int) ≤ 0) := by norm_num
  simp only [jwt.refreshClaims, Option.map_some', Option.some.injEq, gojwt.NewNumericDate,
    time.Truncate, gojwt.TimePrecision, time.Hour, time.Add, time.Second, hs, if_false]
  omega

/-- C2, the claim as stated fails: a token that GenerateToken issued for 24
hours, presented at the very instant of its expiry, has notBefore at or before
now and now at or before expiresAt, and ValidateToken rejects it as
expired. -/
theorem C2_counterexample :
    ∃ tok c nbf exp,
      (jwt.New (ascii "s3cr3t") 24).GenerateToken 1700000000000000000 1700000000000000000
        1700000000000000000 ⟨0x11111111111111111111111111111111, by norm_num⟩
        (ascii "a@b.com") (ascii "alice") = .ok tok
      ∧ gojwt.encodedClaims tok = some c
      ∧ c.RegisteredClaims.NotBefore = some nbf ∧ c.RegisteredClaims.ExpiresAt = some exp
      ∧ nbf.Time ≤ 1700086400000000000 ∧ (1700086400000000000 : Int) ≤ exp.Time
      ∧ (jwt.New (ascii "s3cr3t") 24).ValidateToken 1700086400000000000 tok
          = .error (.invalidClaims true false) := by
  obtain ⟨tok, ht, hc⟩ := jwt.GenerateToken_claims (jwt.New (ascii "s3cr3t") 24)
    1700000000000000000 1700000000000000000 1700000000000000000
    ⟨0x11111111111111111111111111111111, by norm_num⟩ (ascii "a@b.com") (ascii "alice")
  refine ⟨tok, _, _, _, ht, hc, rfl, rfl, by decide, by decide, ?_⟩
  rw [jwt.ValidateToken_GenerateToken _ _ _ _ _ _ _ _ tok (by decide) (by decide) (by decide) ht]
  decide

/-- C2 (validity window), amended. For every token string that the parser
reads, whose header names HS256, whose third segment decodes to the
HMAC-SHA256 of its first two segments under the secret of the service, and
whose claims, as the parser reads them, carry notBefore = nbf and expiresAt =
exp, and for every clock reading now, ValidateToken succeeds if and only if
nbf ≤ now < exp, and it then returns the claims of the token: the instant of
expiry itself is outside the window. In particular a token with expiresAt at
now or one second before now fails, one with expiresAt one second after now
succeeds when its notBefore has come, and one with notBefore an hour after now
fails now and succeeds at every later reading from notBefore on that is before
expiresAt. -/
theorem C2_validity_window (s : jwt.Service) (tok p0 p1 p2 : Bytes) (token : gojwt.Token)
    (nbf exp : gojwt.NumericDate)
    (hparse : gojwt.ParseUnverified tok jwt.Claims.zero = .ok (token, p0, p1, p2))
    (halg : token.Method = .HS256)
    (hsig : base64.decode p2 = some (hmac.sum .SHA256 s.secretKey (p0 ++ 46 :: p1)))
    (hnbf : token.Claims.RegisteredClaims.NotBefore = some nbf)
    (hexp : token.Claims.RegisteredClaims.ExpiresAt = some exp) :
    ∀ now : Int,
      ((∃ c, s.ValidateToken now tok = .ok c) ↔ nbf.Time ≤ now ∧ now < exp.Time)
      ∧ (nbf.Time ≤ now → now < exp.Time → s.ValidateToken now tok = .ok token.Claims)
      ∧ (exp.Time = now → ¬ ∃ c, s.ValidateToken now tok = .ok c)
      ∧ (exp.Time = now - 1000000000 → ¬ ∃ c, s.ValidateToken now tok = .ok c)
      ∧ (exp.Time = now + 1000000000 → nbf.Time ≤ now → ∃ c, s.ValidateToken now tok = .ok c)
      ∧ (nbf.Time = now + 3600 * 1000000000 →
          (¬ ∃ c, s.ValidateToken now tok = .ok c)
          ∧ ∀ later : Int, nbf.Time ≤ later → later < exp.Time →
              ∃ c, s.ValidateToken later tok = .ok c) := by
  have hval : ∀ now : Int, s.ValidateToken now tok =
      (match gojwt.validateTimes now token.Claims.RegisteredClaims with
       | .error e => .error e
       | .ok _ => .ok token.Claims) := by
    intro now
    unfold jwt.Service.ValidateToken gojwt.ParseWithClaims
    rw [hparse]
    simp only [hsig, jwt.Service.keyFunc, halg, gojwt.SigningMethod.asHMAC,
      gojwt.SigningMethod.Verify, hmac.Equal, decide_True, if_true]
    cases gojwt.validateTimes now token.Claims.RegisteredClaims <;> rfl
  have hwin : ∀ now : Int, gojwt.validateTimes now token.Claims.RegisteredClaims = .ok ()
      ↔ nbf.Time ≤ now ∧ now < exp.Time := by
    intro now
    rw [gojwt.validateTimes_ok]
    simp only [hnbf, hexp, Option.some.injEq, forall_eq']
    exact ⟨fun h => ⟨h.2, h.1⟩, fun h => ⟨h.2, h.1⟩⟩
  have hok : ∀ now : Int, nbf.Time ≤ now → now < exp.Time →
      s.ValidateToken now tok = .ok token.Claims := by
    intro now h1 h2
    rw [hval now, (hwin now).2 ⟨h1, h2⟩]
  have hiff : ∀ now : Int,
      ((∃ c, s.ValidateToken now tok = .ok c) ↔ nbf.Time ≤ now ∧ now < exp.Time) := by
    intro now
    constructor
    · rintro ⟨c, hc⟩
      rw [hval now] at hc
      cases hv : gojwt.validateTimes now token.Claims.RegisteredClaims with
      | error e => rw [hv] at hc; simp at hc
      | ok u => exact (hwin now).1 hv
    · intro h
      exact ⟨_, hok now h.1 h.2⟩
  intro now
  refine ⟨hiff now, hok now, ?_, ?_, ?_, ?_⟩
  · intro he hc
    have := ((hiff now).1 hc).2
    omega
  · intro he hc
    have := ((hiff now).1 hc).2
    omega
  · intro he hn
    exact (hiff now).2 ⟨hn, by omega⟩
  · intro hn
    refine ⟨?_, fun later h1 h2 => (hiff later).2 ⟨h1, h2⟩⟩
    intro hc
    have := ((hiff now).1 hc).1
    omega

/-- C2 on the access token of the scenario, at the reading of its issue. -/
theorem C2_validity_window_witness :
    gojwt.ParseUnverified scenario.token jwt.Claims.zero
        = .ok (scenario.parsed, scenario.segments.1, scenario.segments.2.1,
            scenario.segments.2.2)
    ∧ scenario.parsed.Method = .HS256
    ∧ base64.decode scenario.segments.2.2
        = some (hmac.sum .SHA256 scenario.service.secretKey
            (scenario.segments.1 ++ 46 :: scenario.segments.2.1))
    ∧ scenario.parsed.Claims.RegisteredClaims.NotBefore = some ⟨1700000000000000000⟩
    ∧ scenario.parsed.Claims.RegisteredClaims.ExpiresAt = some ⟨1700086400000000000⟩
    ∧ ∀ now : Int,
      ((∃ c, scenario.service.ValidateToken now scenario.token = .ok c)
        ↔ (1700000000000000000 : Int) ≤ now ∧ now < 1700086400000000000)
      ∧ ((1700000000000000000 : Int) ≤ now → now < 1700086400000000000 →
          scenario.service.ValidateToken now scenario.token = .ok scenario.parsed.Claims)
      ∧ ((1700086400000000000 : Int) = now →
          ¬ ∃ c, scenario.service.ValidateToken now scenario.token = .ok c)
      ∧ ((1700086400000000000 : Int) = now - 1000000000 →
          ¬ ∃ c, scenario.service.ValidateToken now scenario.token = .ok c)
      ∧ ((1700086400000000000 : Int) = now + 1000000000 → (1700000000000000000 : Int) ≤ now →
          ∃ c, scenario.service.ValidateToken now scenario.token = .ok c)
      ∧ ((1700000000000000000 : Int) = now + 3600 * 1000000000 →
          (¬ ∃ c, scenario.service.ValidateToken now scenario.token = .ok c)
          ∧ ∀ later : Int, (1700000000000000000 : Int) ≤ later → later < 1700086400000000000 →
              ∃ c, scenario.service.ValidateToken later scenario.token = .ok c) :=
  ⟨by decide!, by decide, by decide!, by decide, by decide,
   C2_validity_window scenario.service scenario.token scenario.segments.1 scenario.segments.2.1
     scenario.segments.2.2 scenario.parsed ⟨1700000000000000000⟩ ⟨1700086400000000000⟩
     (by decide!) (by decide) (by decide!) (by decide) (by decide)⟩

/-- C9, the claim as stated fails: a service built with a negative number of
hours issues a token whose expiresAt lies before its notBefore. -/
theorem C9_counterexample :
    ∃ tok c nbf exp,
      (jwt.New (ascii "s3cr3t") (-1)).GenerateToken 1700000000000000000 1700000000000000000
        1700000000000000000 ⟨0x11111111111111111111111111111111, by norm_num⟩
        (ascii "a@b.com") (ascii "alice") = .ok tok
      ∧ gojwt.encodedClaims tok = some c
      ∧ c.RegisteredClaims.NotBefore = some nbf ∧ c.RegisteredClaims.ExpiresAt = some exp
      ∧ exp.Time < nbf.Time := by
  obtain ⟨tok, ht, hc⟩ := jwt.GenerateToken_claims (jwt.New (ascii "s3cr3t") (-1))
    1700000000000000000 1700000000000000000 1700000000000000000
    ⟨0x11111111111111111111111111111111, by norm_num⟩ (ascii "a@b.com") (ascii "alice")
  exact ⟨tok, _, _, _, ht, hc, rfl, rfl, by decide⟩

/-- C9 (claims ordering), amended. For every service built by New with a
number of hours that is not negative and whose duration fits an int64, every
identity and every three clock readings taken in the order of the code
(expiresAt, issuedAt, notBefore) by a clock that does not run backwards, the
claims of the token GenerateToken issues satisfy issuedAt ≤ notBefore, and
notBefore ≤ expiresAt when the last reading is at most the lifetime after the
first; expiresAt − issuedAt is the lifetime less the whole seconds between the
first two readings: the lifetime when they fall in the same second, and the
lifetime or one second less when they are less than a second apart. The
same holds for the token GenerateRefreshToken issues, with seven days for the
lifetime. -/
theorem C9_claims_ordering (secret : Bytes) (hours : Int) (h0 : 0 ≤ hours)
    (hfit : hours * time.Hour < 2 ^ 63) (id : uuid.UUID) (email username : Bytes)
    (tExp tIat tNbf : Int) (h1 : tExp ≤ tIat) (h2 : tIat ≤ tNbf) :
    (∃ tok c iat nbf exp,
      (jwt.New secret hours).GenerateToken tExp tIat tNbf id email username = .ok tok
      ∧ gojwt.encodedClaims tok = some c
      ∧ c.RegisteredClaims.IssuedAt = some iat ∧ c.RegisteredClaims.NotBefore = some nbf
      ∧ c.RegisteredClaims.ExpiresAt = some exp
      ∧ iat.Time ≤ nbf.Time
      ∧ (tNbf - tExp ≤ hours * (3600 * 1000000000) → nbf.Time ≤ exp.Time)
      ∧ exp.Time - iat.Time
          = hours * (3600 * 1000000000) - (tIat / 1000000000 - tExp / 1000000000) * 1000000000
      ∧ (tIat / 1000000000 = tExp / 1000000000 →
          exp.Time - iat.Time = hours * (3600 * 1000000000))
      ∧ (tIat - tExp < 1000000000 →
          exp.Time - iat.Time = hours * (3600 * 1000000000)
          ∨ exp.Time - iat.Time = hours * (3600 * 1000000000) - 1000000000)
      ∧ (jwt.New secret hours).expiry = hours * (3600 * 1000000000))
    ∧ (∃ tok c iat nbf exp,
      (jwt.New secret hours).GenerateRefreshToken tExp tIat tNbf id = .ok tok
      ∧ gojwt.encodedClaims tok = some c
      ∧ c.RegisteredClaims.IssuedAt = some iat ∧ c.RegisteredClaims.NotBefore = some nbf
      ∧ c.RegisteredClaims.ExpiresAt = some exp
      ∧ iat.Time ≤ nbf.Time
      ∧ (tNbf - tExp ≤ 7 * 24 * (3600 * 1000000000) → nbf.Time ≤ exp.Time)
      ∧ exp.Time - iat.Time
          = 7 * 24 * (3600 * 1000000000) - (tIat / 1000000000 - tExp / 1000000000) * 1000000000
      ∧ (tIat / 1000000000 = tExp / 1000000000 →
          exp.Time - iat.Time = 7 * 24 * (3600 * 1000000000))
      ∧ (tIat - tExp < 1000000000 →
          exp.Time - iat.Time = 7 * 24 * (3600 * 1000000000)
          ∨ exp.Time - iat.Time = 7 * 24 * (3600 * 1000000000) - 1000000000)) := by
  have he := jwt.New_expiry secret hours h0 hfit
  have hs : ¬ ((1000000000 : Int) ≤ 0) := by norm_num
  have key : ∀ L : Int, L % 1000000000 = 0 →
      ((gojwt.NewNumericDate tIat).Time ≤ (gojwt.NewNumericDate tNbf).Time
      ∧ (tNbf - tExp ≤ L →
          (gojwt.NewNumericDate tNbf).Time ≤ (gojwt.NewNumericDate (time.Add tExp L)).Time)
      ∧ (gojwt.NewNumericDate (time.Add tExp L)).Time - (gojwt.NewNumericDate tIat).Time
          = L - (tIat / 1000000000 - tExp / 1000000000) * 1000000000
      ∧ (tIat / 1000000000 = tExp / 1000000000 →
          (gojwt.NewNumericDate (time.Add tExp L)).Time - (gojwt.NewNumericDate tIat).Time = L)
      ∧ (tIat - tExp < 1000000000 →
          (gojwt.NewNumericDate (time.Add tExp L)).Time - (gojwt.NewNumericDate tIat).Time = L
          ∨ (gojwt.NewNumericDate (time.Add tExp L)).Time - (gojwt.NewNumericDate tIat).Time
              = L - 1000000000)) := by
    intro L hL
    simp only [gojwt.NewNumericDate, time.Truncate, gojwt.TimePrecision, time.Second, time.Add,
      hs, if_false]
    refine ⟨by omega, fun _ => by omega, by omega, fun _ => by omega, fun _ => by omega⟩
  constructor
  · obtain ⟨tok, ht, hc⟩ := jwt.GenerateToken_claims (jwt.New secret hours) tExp tIat tNbf id
      email username
    have k := key (hours * (3600 * 1000000000)) (by omega)
    simp only [time.Hour, time.Second] at he
    refine ⟨tok, _, _, _, _, ht, hc, rfl, rfl, rfl, ?_, ?_, ?_, ?_, ?_, he⟩
    · exact k.1
    · simp only [jwt.Service.accessClaims, he]; exact k.2.1
    · simp only [jwt.Service.accessClaims, he]; exact k.2.2.1
    · simp only [jwt.Service.accessClaims, he]; exact k.2.2.2.1
    · simp only [jwt.Service.accessClaims, he]; exact k.2.2.2.2
  · obtain ⟨tok, ht, hc⟩ := jwt.GenerateRefreshToken_claims (jwt.New secret hours) tExp tIat
      tNbf id
    have k := key (7 * 24 * (3600 * 1000000000)) (by norm_num)
    refine ⟨tok, _, _, _, _, ht, hc, rfl, rfl, rfl, ?_, ?_, ?_, ?_, ?_⟩
    · exact k.1
    · simp only [jwt.refreshClaims, time.Hour, time.Second]; exact k.2.1
    · simp only [jwt.refreshClaims, time.Hour, time.Second]; exact k.2.2.1
    · simp only [jwt.refreshClaims, time.Hour, time.Second]; exact k.2.2.2.1
    · simp only [jwt.refreshClaims, time.Hour, time.Second]; exact k.2.2.2.2

/-- C9 at 24 hours, the lifetime the handlers configure, for three readings a
nanosecond apart that straddle a second: expiresAt − issuedAt is then one
second less than the lifetime. -/
theorem C9_claims_ordering_witness :
    (0 : Int) ≤ 24 ∧ (24 : Int) * time.Hour < 2 ^ 63
    ∧ (1700000000999999999 : Int) ≤ 1700000001000000000
    ∧ (1700000001000000000 : Int) ≤ 1700000001000000001
    ∧ ((∃ tok c iat nbf exp,
      (jwt.New (ascii "s3cr3t") 24).GenerateToken 1700000000999999999 1700000001000000000
        1700000001000000001 uuid.Nil (ascii "a@b.com") (ascii "alice") = .ok tok
      ∧ gojwt.encodedClaims tok = some c
      ∧ c.RegisteredClaims.IssuedAt = some iat ∧ c.RegisteredClaims.NotBefore = some nbf
      ∧ c.RegisteredClaims.ExpiresAt = some exp
      ∧ iat.Time ≤ nbf.Time
      ∧ ((1700000001000000001 : Int) - 1700000000999999999 ≤ 24 * (3600 * 1000000000) →
          nbf.Time ≤ exp.Time)
      ∧ exp.Time - iat.Time
          = 24 * (3600 * 1000000000)
            - ((1700000001000000000 : Int) / 1000000000 - 1700000000999999999 / 1000000000)
              * 1000000000
      ∧ ((1700000001000000000 : Int) / 1000000000 = 1700000000999999999 / 1000000000 →
          exp.Time - iat.Time = 24 * (3600 * 1000000000))
      ∧ ((1700000001000000000 : Int) - 1700000000999999999 < 1000000000 →
          exp.Time - iat.Time = 24 * (3600 * 1000000000)
          ∨ exp.Time - iat.Time = 24 * (3600 * 1000000000) - 1000000000)
      ∧ (jwt.New (ascii "s3cr3t") 24).expiry = 24 * (3600 * 1000000000))
    ∧ (∃ tok c iat nbf exp,
      (jwt.New (ascii "s3cr3t") 24).GenerateRefreshToken 1700000000999999999
        1700000001000000000 1700000001000000001 uuid.Nil = .ok tok
      ∧ gojwt.encodedClaims tok = some c
      ∧ c.RegisteredClaims.IssuedAt = some iat ∧ c.RegisteredClaims.NotBefore = some nbf
      ∧ c.RegisteredClaims.ExpiresAt = some exp
      ∧ iat.Time ≤ nbf.Time
      ∧ ((1700000001000000001 : Int) - 1700000000999999999 ≤ 7 * 24 * (3600 * 1000000000) →
          nbf.Time ≤ exp.Time)
      ∧ exp.Time - iat.Time
          = 7 * 24 * (3600 * 1000000000)
            - ((1700000001000000000 : Int) / 1000000000 - 1700000000999999999 / 1000000000)
              * 1000000000
      ∧ ((1700000001000000000 : Int) / 1000000000 = 1700000000999999999 / 1000000000 →
          exp.Time - iat.Time = 7 * 24 * (3600 * 1000000000))
      ∧ ((1700000001000000000 : Int) - 1700000000999999999 < 1000000000 →
          exp.Time - iat.Time = 7 * 24 * (3600 * 1000000000)
          ∨ exp.Time - iat.Time = 7 * 24 * (3600 * 1000000000) - 1000000000))) :=
  ⟨by decide, by decide, by decide, by decide,
   C9_claims_ordering (ascii "s3cr3t") 24 (by decide) (by decide) uuid.Nil (ascii "a@b.com")
     (ascii "alice") 1700000000999999999 1700000001000000000 1700000001000000001
     (by decide) (by decide)⟩

/-- C10, the claim as stated fails: the issuer of a token GenerateToken issues
is not the text auth-service. -/
theorem C10_counterexample :
    ∃ tok c,
      (jwt.New (ascii "s3cr3t") 24).GenerateToken 1700000000000000000 1700000000000000000
        1700000000000000000 ⟨0x11111111111111111111111111111111, by norm_num⟩
        (ascii "a@b.com") (ascii "alice") = .ok tok
      ∧ gojwt.encodedClaims tok = some c
      ∧ c.RegisteredClaims.Issuer ≠ "auth-service" := by
  obtain ⟨tok, ht, hc⟩ := jwt.GenerateToken_claims (jwt.New (ascii "s3cr3t") 24)
    1700000000000000000 1700000000000000000 1700000000000000000
    ⟨0x11111111111111111111111111111111, by norm_num⟩ (ascii "a@b.com") (ascii "alice")
  exact ⟨tok, _, ht, hc, by decide⟩

/-- C10 (issuer), amended. Every token GenerateToken issues and every token
GenerateRefreshToken issues carries the issuer claim gc_auth_service. -/
theorem C10_issuer (s : jwt.Service) (tExp tIat tNbf : Int) (id : uuid.UUID)
    (email username : Bytes) :
    (∃ tok c, s.GenerateToken tExp tIat tNbf id email username = .ok tok
      ∧ gojwt.encodedClaims tok = some c ∧ c.RegisteredClaims.Issuer = "gc_auth_service")
    ∧ (∃ tok c, s.GenerateRefreshToken tExp tIat tNbf id = .ok tok
      ∧ gojwt.encodedClaims tok = some c ∧ c.RegisteredClaims.Issuer = "gc_auth_service") := by
  obtain ⟨tok, ht, hc⟩ := jwt.GenerateToken_claims s tExp tIat tNbf id email username
  obtain ⟨tok2, ht2, hc2⟩ := jwt.GenerateRefreshToken_claims s tExp tIat tNbf id
  exact ⟨⟨tok, _, ht, hc, rfl⟩, ⟨tok2, _, ht2, hc2, rfl⟩⟩

namespace gojwt

theorem GetSigningMethod_some (alg : String) (m : SigningMethod)
    (h : GetSigningMethod alg = some m) : m.Alg = alg := by
  unfold GetSigningMethod at h
  have := List.find?_some h
  simpa using this

theorem asHMAC_Alg (m : SigningMethod) (h : hmac.Hash) (hm : m.asHMAC = some h) :
    m.Alg = "HS256" ∨ m.Alg = "HS384" ∨ m.Alg = "HS512" := by
  cases m <;> simp [SigningMethod.asHMAC] at hm <;> simp [SigningMethod.Alg]

/-- The method the parser finds is the one the header of the token string
declares. -/
theorem ParseUnverified_tokenHeader (tok : Bytes) (c : jwt.Claims) (t : Token) (p0 p1 p2 : Bytes)
    (h : ParseUnverified tok c = .ok (t, p0, p1, p2)) :
    ∃ header, tokenHeader tok = some header ∧ headerAlg header = some t.Method.Alg := by
  unfold ParseUnverified at h
  unfold tokenHeader
  split at h
  · rename_i q0 q1 q2 hs
    cases hd : base64.decode q0 with
    | none => rw [hd] at h; simp at h
    | some hb =>
      rw [hd] at h
      simp only at h ⊢
      cases hu : json.UnmarshalMap hb with
      | none => rw [hu] at h; simp at h
      | some hdr =>
        rw [hu] at h
        simp only at h ⊢
        cases hc : base64.decode q1 with
        | none => rw [hc] at h; simp at h
        | some cb =>
          rw [hc] at h
          simp only at h
          cases hm : jwt.unmarshalClaims cb c with
          | none => rw [hm] at h; simp at h
          | some cl =>
            rw [hm] at h
            simp only at h
            cases ha : headerAlg hdr with
            | none => rw [ha] at h; simp at h
            | some alg =>
              rw [ha] at h
              simp only at h
              cases hg : GetSigningMethod alg with
              | none => rw [hg] at h; simp at h
              | some method =>
                rw [hg] at h
                simp only [Except.ok.injEq, Prod.mk.injEq] at h
                refine ⟨hdr, rfl, ?_⟩
                rw [← h.1, ha]
                simp only [Option.some.injEq]
                exact (GetSigningMethod_some alg method hg).symm
  · simp at h

end gojwt

/-- C4, the claim as stated fails: a token whose header declares HS384, not
the HS256 the service signs with, and whose signature is correct for HS384
under the secret of the service, is accepted. -/
theorem C4_counterexample :
    gojwt.declaredAlg scenario.hs384Token = some "HS384"
      ∧ scenario.service.ValidateToken scenario.clock scenario.hs384Token
          = .ok scenario.claims := by
  decide!

/-- C4 (algorithm substitution), amended. For every token string of three
segments whose first segment decodes to a JSON object, the header, in which
the member alg is none of the strings HS256, HS384 and HS512 (it is another
string, it is not a string, or it is missing), ValidateToken returns an error,
whatever the secret, the claims and the signature. -/
theorem C4_algorithm_rejection (s : jwt.Service) (now : Int) (tok : Bytes)
    (header : List (String × json.Value))
    (hh : gojwt.tokenHeader tok = some header)
    (h : gojwt.headerAlg header ≠ some "HS256" ∧ gojwt.headerAlg header ≠ some "HS384"
      ∧ gojwt.headerAlg header ≠ some "HS512") :
    ∃ e, s.ValidateToken now tok = .error e := by
  unfold jwt.Service.ValidateToken gojwt.ParseWithClaims
  cases hp : gojwt.ParseUnverified tok jwt.Claims.zero with
  | error e => exact ⟨e, rfl⟩
  | ok r =>
    obtain ⟨t, p0, p1, p2⟩ := r
    obtain ⟨hdr, hd1, hd2⟩ := gojwt.ParseUnverified_tokenHeader tok _ t p0 p1 p2 hp
    rw [hh] at hd1
    cases hd1
    simp only
    cases hs : base64.decode p2 with
    | none => exact ⟨_, rfl⟩
    | some sig =>
      simp only
      cases hm : t.Method.asHMAC with
      | none =>
        simp only [jwt.Service.keyFunc, hm]
        exact ⟨_, rfl⟩
      | some hh =>
        exfalso
        rw [hd2] at h
        rcases gojwt.asHMAC_Alg t.Method hh hm with e | e | e <;> rw [e] at h <;> simp at h

/-- C4 on a token whose header declares the algorithm none. -/
theorem C4_algorithm_rejection_witness :
    gojwt.tokenHeader scenario.noneToken = some [("alg", .str "none"), ("typ", .str "JWT")]
    ∧ ∃ e, scenario.service.ValidateToken scenario.clock scenario.noneToken = .error e :=
  ⟨by decide!, C4_algorithm_rejection scenario.service scenario.clock scenario.noneToken
    [("alg", .str "none"), ("typ", .str "JWT")] (by decide!) (by decide)⟩

namespace gin

theorem Get_Set_same (c : Context) (k : String) (v : Any) : (c.Set k v).Get k = some v := by
  unfold Context.Get Context.Set
  simp only
  rw [List.find?_append]
  have h : (c.Keys.filter (fun kv => kv.1 != k)).find? (fun kv => decide (kv.1 = k)) = none := by
    rw [List.find?_eq_none]
    intro x hx
    have := (List.mem_filter.1 hx).2
    simpa using this
  rw [h]
  simp

theorem find_filter_other (l : List (String × Any)) (k k' : String) (hk : k' ≠ k) :
    (l.filter (fun kv => kv.1 != k)).find? (fun kv => decide (kv.1 = k'))
      = l.find? (fun kv => decide (kv.1 = k')) := by
  induction l with
  | nil => rfl
  | cons a l ih =>
    by_cases ha : a.1 = k
    · have hb : ¬ a.1 = k' := fun h => hk (h.symm.trans ha)
      rw [List.filter_cons_of_neg (by simp [ha]), List.find?_cons_of_neg _ (by simp [hb]), ih]
    · rw [List.filter_cons_of_pos (by simp [ha])]
      by_cases hb : a.1 = k'
      · rw [List.find?_cons_of_pos _ (by simp [hb]), List.find?_cons_of_pos _ (by simp [hb])]
      · rw [List.find?_cons_of_neg _ (by simp [hb]), List.find?_cons_of_neg _ (by simp [hb]), ih]

theorem Get_Set_other (c : Context) (k k' : String) (v : Any) (hk : k' ≠ k) :
    (c.Set k v).Get k' = c.Get k' := by
  unfold Context.Get Context.Set
  simp only
  rw [List.find?_append, find_filter_other _ _ _ hk]
  have h2 : [(k, v)].find? (fun kv => decide (kv.1 = k')) = none := by
    simp [List.find?, Ne.symm hk]
  rw [h2]
  simp

end gin

namespace strings

theorem bearer_bytes : ascii "Bearer " = [66, 101, 97, 114, 101, 114, 32] := by decide

theorem HasPrefix_bearer (t : Bytes) : HasPrefix (ascii "Bearer " ++ t) (ascii "Bearer ") = true := by
  rw [bearer_bytes]
  simp [HasPrefix, List.isPrefixOf]

theorem TrimPrefix_bearer (t : Bytes) : TrimPrefix (ascii "Bearer " ++ t) (ascii "Bearer ") = t := by
  unfold TrimPrefix
  rw [HasPrefix_bearer, if_pos rfl]
  simp

/-- The text Token abc does not start with the text Bearer and a blank, and
the text Bearer abc does. -/
theorem HasPrefix_known :
    HasPrefix (ascii "Token abc") (ascii "Bearer ") = false
    ∧ HasPrefix (ascii "Bearer abc") (ascii "Bearer ") = true
    ∧ HasPrefix (ascii "Bearer") (ascii "Bearer ") = false
    ∧ TrimPrefix (ascii "Bearer abc") (ascii "Bearer ") = ascii "abc" := by
  decide

end strings

/-- C5 (auth gate). For every request, AuthMiddleware (a) answers that the
header is required when the Authorization header is absent or empty, (b)
answers that the format is invalid when the header is present and does not
start with the text "Bearer ", (c) answers that the token is invalid or
expired when ValidateToken fails on the text after that text, whatever the
error, and (d) otherwise runs the handlers that follow on the context with
the user id, e-mail and user name of the validated claims set under the keys
user_id, user_email and user_username. Each of the three answers has status
401 and success false, aborts the chain and leaves the keys of the context
as they were. -/
theorem C5_auth_gate (s : jwt.Service) (now : Int) (next : gin.Context → gin.Context)
    (c : gin.Context) :
    ((c.Authorization = none ∨ c.Authorization = some []) →
      middleware.AuthMiddleware s now next c
        = (c.JSON 401 ⟨false, "Authorization header is required", .none, ""⟩).Abort)
    ∧ (∀ h, c.Authorization = some h → h ≠ [] →
        strings.HasPrefix h (ascii "Bearer ") = false →
      middleware.AuthMiddleware s now next c
        = (c.JSON 401 ⟨false, "Invalid authorization header format", .none, ""⟩).Abort)
    ∧ (∀ t e, c.Authorization = some (ascii "Bearer " ++ t) → s.ValidateToken now t = .error e →
      middleware.AuthMiddleware s now next c
        = (c.JSON 401 ⟨false, "Invalid or expired token", .none, ""⟩).Abort)
    ∧ (∀ t claims, c.Authorization = some (ascii "Bearer " ++ t) →
        s.ValidateToken now t = .ok claims →
      ∃ c1, middleware.AuthMiddleware s now next c = next c1
        ∧ c1.Get "user_id" = some (.uuid claims.UserID)
        ∧ c1.Get "user_email" = some (.str claims.Email)
        ∧ c1.Get "user_username" = some (.str claims.Username)
        ∧ c1.Authorization = c.Authorization ∧ c1.Response = c.Response
        ∧ c1.Aborted = c.Aborted)
    ∧ (∀ msg, ((c.JSON 401 ⟨false, msg, .none, ""⟩).Abort).Response
          = some (401, ⟨false, msg, .none, ""⟩)
        ∧ ((c.JSON 401 ⟨false, msg, .none, ""⟩).Abort).Aborted = true
        ∧ ((c.JSON 401 ⟨false, msg, .none, ""⟩).Abort).Keys = c.Keys) := by
  have hne : ∀ t : Bytes, ascii "Bearer " ++ t ≠ [] := by
    intro t
    rw [strings.bearer_bytes]
    simp
  refine ⟨?_, ?_, ?_, ?_, ?_⟩
  · intro h
    have hg : c.GetHeader = [] := by
      rcases h with h | h <;> simp [gin.Context.GetHeader, h]
    simp only [middleware.AuthMiddleware, hg, if_true, middleware.StatusUnauthorized]
  · intro h hc hn hp
    have hg : c.GetHeader = h := by simp [gin.Context.GetHeader, hc]
    simp only [middleware.AuthMiddleware, hg, hn, if_false, hp, Bool.not_false, if_true,
      middleware.StatusUnauthorized]
  · intro t e hc hv
    have hg : c.GetHeader = ascii "Bearer " ++ t := by simp [gin.Context.GetHeader, hc]
    simp only [middleware.AuthMiddleware, hg, hne t, if_false, strings.HasPrefix_bearer,
      Bool.not_true, Bool.false_eq_true, strings.TrimPrefix_bearer, hv,
      middleware.StatusUnauthorized]
  · intro t claims hc hv
    have hg : c.GetHeader = ascii "Bearer " ++ t := by simp [gin.Context.GetHeader, hc]
    refine ⟨((c.Set "user_id" (.uuid claims.UserID)).Set "user_email" (.str claims.Email)).Set
      "user_username" (.str claims.Username), ?_, ?_, ?_, ?_, rfl, rfl, rfl⟩
    · simp only [middleware.AuthMiddleware, hg, hne t, if_false, strings.HasPrefix_bearer,
        Bool.not_true, Bool.false_eq_true, strings.TrimPrefix_bearer, hv]
    · rw [gin.Get_Set_other _ _ _ _ (by decide), gin.Get_Set_other _ _ _ _ (by decide),
        gin.Get_Set_same]
    · rw [gin.Get_Set_other _ _ _ _ (by decide), gin.Get_Set_same]
    · rw [gin.Get_Set_same]
  · intro msg
    exact ⟨rfl, rfl, rfl⟩

namespace handlers

theorem NewAuthHandler_expiry : NewAuthHandler.jwtService.expiry = 24 * time.Hour := by decide

/-- The refresh handler on a token its service validates: it issues an access
token for the user id, the e-mail and the user name of the validated claims
and answers with it. -/
theorem RefreshToken_valid (h : AuthHandler) (tV tE tI tN : Int) (rt : Bytes)
    (claims : jwt.Claims) (c : gin.Context)
    (hval : h.jwtService.ValidateToken tV rt = .ok claims) :
    ∃ acc, h.jwtService.GenerateToken tE tI tN claims.UserID claims.Email claims.Username
        = .ok acc
      ∧ h.RefreshToken tV tE tI tN (.ok ⟨rt⟩) c
          = c.JSON 200 ⟨true, "Token refreshed successfully",
              .refreshed acc (24 * 60 * 60), ""⟩
      ∧ gojwt.encodedClaims acc
          = some (h.jwtService.accessClaims tE tI tN claims.UserID (json.coerce claims.Email)
              (json.coerce claims.Username)) := by
  obtain ⟨acc, hacc, hcl⟩ := jwt.GenerateToken_claims h.jwtService tE tI tN claims.UserID
    claims.Email claims.Username
  refine ⟨acc, hacc, ?_, hcl⟩
  simp only [AuthHandler.RefreshToken, hval, hacc]

/-- The two time checks pass on the claims of a refresh token from its
notBefore until before its expiresAt. -/
theorem validateTimes_refreshClaims (now tExp tIat tNbf : Int) (userID : uuid.UUID)
    (h0 : tNbf ≤ now)
    (h1 : now < (gojwt.NewNumericDate (time.Add tExp (7 * 24 * time.Hour))).Time) :
    gojwt.validateTimes now (jwt.refreshClaims tExp tIat tNbf userID).RegisteredClaims
      = .ok () := by
  rw [gojwt.validateTimes_ok]
  constructor
  · intro e he
    simp only [jwt.refreshClaims, Option.some.injEq] at he
    subst he
    exact h1
  · intro n hn
    simp only [jwt.refreshClaims, Option.some.injEq] at hn
    subst hn
    exact le_trans (gojwt.NewNumericDate_le tNbf) h0

/-- The two time checks pass on the claims of an access token from its
notBefore until before its expiresAt. -/
theorem validateTimes_accessClaims (s : jwt.Service) (now tExp tIat tNbf : Int)
    (userID : uuid.UUID) (email username : Bytes) (h0 : tNbf ≤ now)
    (h1 : now < (gojwt.NewNumericDate (time.Add tExp s.expiry)).Time) :
    gojwt.validateTimes now
      (s.accessClaims tExp tIat tNbf userID email username).RegisteredClaims = .ok () := by
  rw [gojwt.validateTimes_ok]
  constructor
  · intro e he
    simp only [jwt.Service.accessClaims, Option.some.injEq] at he
    subst he
    exact h1
  · intro n hn
    simp only [jwt.Service.accessClaims, Option.some.injEq] at hn
    subst hn
    exact le_trans (gojwt.NewNumericDate_le tNbf) h0

end handlers

/-- C8, the claim as stated fails: the handler takes the clock reading for
expiresAt before the one for issuedAt, and when a second begins between the
two, here a nanosecond apart, the new access token carries expiresAt =
issuedAt + 24 hours − 1 second. -/
theorem C8_counterexample :
    ∃ rt acc cl iat exp,
      handlers.NewAuthHandler.jwtService.GenerateRefreshToken 1700000000500000000
        1700000000500000000 1700000000500000000 scenario.userID = .ok rt
      ∧ (handlers.NewAuthHandler.RefreshToken 1700003600999999998 1700003600999999999
          1700003601000000000 1700003601000000001 (.ok ⟨rt⟩) ⟨none, [], none, false⟩).Response
          = some (200, ⟨true, "Token refreshed successfully",
              .refreshed acc (24 * 60 * 60), ""⟩)
      ∧ gojwt.encodedClaims acc = some cl
      ∧ cl.RegisteredClaims.IssuedAt = some iat ∧ cl.RegisteredClaims.ExpiresAt = some exp
      ∧ iat.Time = 1700003601000000000
      ∧ exp.Time = 1700003601000000000 + 24 * 3600 * 1000000000 - 1000000000
      ∧ exp.Time ≠ iat.Time + 24 * 3600 * 1000000000 := by
  obtain ⟨rt, hrt, _⟩ := jwt.GenerateRefreshToken_claims handlers.NewAuthHandler.jwtService
    1700000000500000000 1700000000500000000 1700000000500000000 scenario.userID
  have hval := jwt.ValidateToken_GenerateRefreshToken handlers.NewAuthHandler.jwtService
    1700003600999999998 1700000000500000000 1700000000500000000 1700000000500000000
    scenario.userID rt (by decide) (by decide) (by decide) hrt
  rw [handlers.validateTimes_refreshClaims 1700003600999999998 1700000000500000000
    1700000000500000000 1700000000500000000 scenario.userID (by decide) (by decide)] at hval
  obtain ⟨acc, _, hr, hcl⟩ := handlers.RefreshToken_valid handlers.NewAuthHandler
    1700003600999999998 1700003600999999999 1700003601000000000 1700003601000000001 rt _
    ⟨none, [], none, false⟩ hval
  refine ⟨rt, acc, _, _, _, hrt, ?_, hcl, rfl, rfl, ?_, ?_, ?_⟩
  · rw [hr]
    rfl
  · decide
  · decide
  · decide

/-- C8 (refresh flow), amended. For every user id, the token
GenerateRefreshToken returned on the service of the handler, with dates
within 2 ^ 53 seconds of the epoch, submitted to the RefreshToken handler at
any time from its issue until before it expires, is answered with status 200
and a new access token, the context otherwise as it was. The claims of the
new token carry the subject and the user id of that user; issuedAt is the
whole second of the clock reading the handler takes for it, and expiresAt is
the whole second of the reading it takes for expiresAt, the earlier of the
two, plus 24 hours. So expiresAt − issuedAt is 24 hours less the whole
seconds between the two readings: 24 hours when they fall in the same second,
and 24 hours or one second less when they are less than a second apart. -/
theorem C8_refresh_flow (userID : uuid.UUID) (t0E t0I t0N tV tE tI tN : Int) (c : gin.Context)
    (hE : time.exact (time.Add t0E (7 * 24 * time.Hour))) (hI : time.exact t0I)
    (hN : time.exact t0N) (h0 : t0N ≤ tV)
    (h1 : tV < (gojwt.NewNumericDate (time.Add t0E (7 * 24 * time.Hour))).Time) :
    ∃ rt acc cl iat exp,
      handlers.NewAuthHandler.jwtService.GenerateRefreshToken t0E t0I t0N userID = .ok rt
      ∧ (handlers.NewAuthHandler.RefreshToken tV tE tI tN (.ok ⟨rt⟩) c).Response
          = some (200, ⟨true, "Token refreshed successfully",
              .refreshed acc (24 * 60 * 60), ""⟩)
      ∧ (handlers.NewAuthHandler.RefreshToken tV tE tI tN (.ok ⟨rt⟩) c).Aborted = c.Aborted
      ∧ (handlers.NewAuthHandler.RefreshToken tV tE tI tN (.ok ⟨rt⟩) c).Keys = c.Keys
      ∧ handlers.NewAuthHandler.jwtService.GenerateToken tE tI tN userID [] [] = .ok acc
      ∧ gojwt.encodedClaims acc = some cl
      ∧ cl.RegisteredClaims.Subject = userID.String ∧ cl.UserID = userID
      ∧ cl.RegisteredClaims.IssuedAt = some iat ∧ cl.RegisteredClaims.ExpiresAt = some exp
      ∧ (iat.Time % 1000000000 = 0 ∧ iat.Time ≤ tI ∧ tI < iat.Time + 1000000000)
      ∧ (exp.Time % 1000000000 = 0 ∧ exp.Time ≤ tE + 24 * 3600 * 1000000000
          ∧ tE + 24 * 3600 * 1000000000 < exp.Time + 1000000000)
      ∧ exp.Time - iat.Time
          = 24 * 3600 * 1000000000 - (tI / 1000000000 - tE / 1000000000) * 1000000000
      ∧ (tI / 1000000000 = tE / 1000000000 → exp.Time = iat.Time + 24 * 3600 * 1000000000)
      ∧ (tE ≤ tI → tI - tE < 1000000000 →
          exp.Time = iat.Time + 24 * 3600 * 1000000000
          ∨ exp.Time = iat.Time + 24 * 3600 * 1000000000 - 1000000000) := by
  obtain ⟨rt, hrt, _⟩ := jwt.GenerateRefreshToken_claims handlers.NewAuthHandler.jwtService
    t0E t0I t0N userID
  have hval := jwt.ValidateToken_GenerateRefreshToken handlers.NewAuthHandler.jwtService tV
    t0E t0I t0N userID rt hE hI hN hrt
  rw [handlers.validateTimes_refreshClaims tV t0E t0I t0N userID h0 h1] at hval
  obtain ⟨acc, hacc, hr, hcl⟩ := handlers.RefreshToken_valid handlers.NewAuthHandler
    tV tE tI tN rt _ c hval
  have hs : ¬ ((1000000000 : Int) ≤ 0) := by norm_num
  have hd : ((gojwt.NewNumericDate tI).Time % 1000000000 = 0
        ∧ (gojwt.NewNumericDate tI).Time ≤ tI
        ∧ tI < (gojwt.NewNumericDate tI).Time + 1000000000)
      ∧ ((gojwt.NewNumericDate (time.Add tE handlers.NewAuthHandler.jwtService.expiry)).Time
            % 1000000000 = 0
        ∧ (gojwt.NewNumericDate (time.Add tE handlers.NewAuthHandler.jwtService.expiry)).Time
            ≤ tE + 24 * 3600 * 1000000000
        ∧ tE + 24 * 3600 * 1000000000
            < (gojwt.NewNumericDate
                (time.Add tE handlers.NewAuthHandler.jwtService.expiry)).Time + 1000000000)
      ∧ (gojwt.NewNumericDate (time.Add tE handlers.NewAuthHandler.jwtService.expiry)).Time
          - (gojwt.NewNumericDate tI).Time
          = 24 * 3600 * 1000000000 - (tI / 1000000000 - tE / 1000000000) * 1000000000 := by
    rw [handlers.NewAuthHandler_expiry]
    simp only [gojwt.NewNumericDate, time.Truncate, gojwt.TimePrecision, time.Second, time.Add,
      time.Hour, hs, if_false]
    refine ⟨⟨by omega, by omega, by omega⟩, ⟨by omega, by omega, by omega⟩, by omega⟩
  obtain ⟨d1, d2, d3⟩ := hd
  refine ⟨rt, acc, _, _, _, hrt, ?_, ?_, ?_, hacc, hcl, rfl, rfl, rfl, rfl, d1, d2, d3, ?_, ?_⟩
  · rw [hr]
    rfl
  · rw [hr]
    rfl
  · rw [hr]
    rfl
  · intro h
    rw [h] at d3
    omega
  · intro ha hb
    omega

/-- C8 in the scenario: the refresh token of the user, submitted an hour after
it was issued, the handler reading the clock in one and the same second. -/
theorem C8_refresh_flow_witness :
    time.exact (time.Add scenario.clock (7 * 24 * time.Hour))
    ∧ time.exact scenario.clock
    ∧ scenario.clock ≤ scenario.clock + time.Hour
    ∧ scenario.clock + time.Hour
        < (gojwt.NewNumericDate (time.Add scenario.clock (7 * 24 * time.Hour))).Time
    ∧ ∃ rt acc cl iat exp,
      handlers.NewAuthHandler.jwtService.GenerateRefreshToken scenario.clock scenario.clock
        scenario.clock scenario.userID = .ok rt
      ∧ (handlers.NewAuthHandler.RefreshToken (scenario.clock + time.Hour)
          (scenario.clock + time.Hour + 1) (scenario.clock + time.Hour + 2)
          (scenario.clock + time.Hour + 3) (.ok ⟨rt⟩) ⟨none, [], none, false⟩).Response
          = some (200, ⟨true, "Token refreshed successfully",
              .refreshed acc (24 * 60 * 60), ""⟩)
      ∧ (handlers.NewAuthHandler.RefreshToken (scenario.clock + time.Hour)
          (scenario.clock + time.Hour + 1) (scenario.clock + time.Hour + 2)
          (scenario.clock + time.Hour + 3) (.ok ⟨rt⟩) ⟨none, [], none, false⟩).Aborted
          = (⟨none, [], none, false⟩ : gin.Context).Aborted
      ∧ (handlers.NewAuthHandler.RefreshToken (scenario.clock + time.Hour)
          (scenario.clock + time.Hour + 1) (scenario.clock + time.Hour + 2)
          (scenario.clock + time.Hour + 3) (.ok ⟨rt⟩) ⟨none, [], none, false⟩).Keys
          = (⟨none, [], none, false⟩ : gin.Context).Keys
      ∧ handlers.NewAuthHandler.jwtService.GenerateToken (scenario.clock + time.Hour + 1)
          (scenario.clock + time.Hour + 2) (scenario.clock + time.Hour + 3) scenario.userID
          [] [] = .ok acc
      ∧ gojwt.encodedClaims acc = some cl
      ∧ cl.RegisteredClaims.Subject = scenario.userID.String ∧ cl.UserID = scenario.userID
      ∧ cl.RegisteredClaims.IssuedAt = some iat ∧ cl.RegisteredClaims.ExpiresAt = some exp
      ∧ (iat.Time % 1000000000 = 0 ∧ iat.Time ≤ scenario.clock + time.Hour + 2
          ∧ scenario.clock + time.Hour + 2 < iat.Time + 1000000000)
      ∧ (exp.Time % 1000000000 = 0
          ∧ exp.Time ≤ scenario.clock + time.Hour + 1 + 24 * 3600 * 1000000000
          ∧ scenario.clock + time.Hour + 1 + 24 * 3600 * 1000000000 < exp.Time + 1000000000)
      ∧ exp.Time - iat.Time
          = 24 * 3600 * 1000000000
            - ((scenario.clock + time.Hour + 2) / 1000000000
              - (scenario.clock + time.Hour + 1) / 1000000000) * 1000000000
      ∧ ((scenario.clock + time.Hour + 2) / 1000000000
            = (scenario.clock + time.Hour + 1) / 1000000000 →
          exp.Time = iat.Time + 24 * 3600 * 1000000000)
      ∧ (scenario.clock + time.Hour + 1 ≤ scenario.clock + time.Hour + 2 →
          scenario.clock + time.Hour + 2 - (scenario.clock + time.Hour + 1) < 1000000000 →
          exp.Time = iat.Time + 24 * 3600 * 1000000000
          ∨ exp.Time = iat.Time + 24 * 3600 * 1000000000 - 1000000000) :=
  ⟨by decide, by decide, by decide, by decide,
   C8_refresh_flow scenario.userID scenario.clock scenario.clock scenario.clock
     (scenario.clock + time.Hour) (scenario.clock + time.Hour + 1)
     (scenario.clock + time.Hour + 2) (scenario.clock + time.Hour + 3)
     ⟨none, [], none, false⟩ (by decide) (by decide) (by decide) (by decide) (by decide)⟩

namespace base64

theorem decodeChar_lt (c v : Nat) (h : decodeChar c = some v) : v < 64 := by
  unfold decodeChar at h
  split_ifs at h <;> simp only [Option.some.injEq] at h <;> omega

theorem decodeChar_inj (c c' v : Nat) (h : decodeChar c = some v) (h' : decodeChar c' = some v) :
    c = c' := by
  unfold decodeChar at h h'
  split_ifs at h h' <;> simp only [Option.some.injEq] at h h' <;> omega

theorem decodeChars_append (a b : Bytes) :
    decodeChars (a ++ b)
      = (decodeChars a).bind (fun x => (decodeChars b).map (fun y => x ++ y)) := by
  induction a with
  | nil =>
    rw [List.nil_append]
    cases decodeChars b <;> simp [decodeChars]
  | cons c a ih =>
    rw [List.cons_append,
      show decodeChars (c :: (a ++ b)) = (match decodeChar c with
        | none => none
        | some v => (decodeChars (a ++ b)).map (fun vs => v :: vs)) from rfl,
      show decodeChars (c :: a) = (match decodeChar c with
        | none => none
        | some v => (decodeChars a).map (fun vs => v :: vs)) from rfl]
    cases hc : decodeChar c with
    | none => rfl
    | some v =>
      simp only [ih]
      cases decodeChars a <;> cases decodeChars b <;> rfl

theorem decodeChars_length (cs : Bytes) (vs : List Nat) (h : decodeChars cs = some vs) :
    vs.length = cs.length ∧ ∀ v ∈ vs, v < 64 := by
  induction cs generalizing vs with
  | nil =>
    simp only [decodeChars, Option.some.injEq] at h
    subst h
    simp
  | cons c cs ih =>
    unfold decodeChars at h
    cases hc : decodeChar c with
    | none => rw [hc] at h; simp at h
    | some v =>
      rw [hc] at h
      simp only at h
      cases hr : decodeChars cs with
      | none => rw [hr] at h; simp at h
      | some ws =>
        rw [hr] at h
        simp only [Option.map_some', Option.some.injEq] at h
        subst h
        obtain ⟨h1, h2⟩ := ih ws hr
        refine ⟨by simp [h1], ?_⟩
        intro x hx
        rcases List.mem_cons.1 hx with e | e
        · rw [e]; exact decodeChar_lt c v hc
        · exact h2 x e

/-- The number of bytes that a run of six-bit values decodes to. -/
theorem decodeSextets_length (vs : List Nat) (bs : Bytes) (h : decodeSextets vs = some bs) :
    bs.length = vs.length / 4 * 3 + (vs.length % 4 - 1) ∧ vs.length % 4 ≠ 1 := by
  induction vs using decodeSextets.induct generalizing bs with
  | case1 s0 s1 s2 s3 rest ih =>
    simp only [decodeSextets] at h
    cases hr : decodeSextets rest with
    | none => rw [hr] at h; simp at h
    | some r =>
      rw [hr] at h
      simp only [Option.map_some', Option.some.injEq] at h
      subst h
      obtain ⟨h1, h2⟩ := ih r hr
      simp only [List.length_cons]
      omega
  | case2 s0 s1 s2 =>
    simp only [decodeSextets, Option.some.injEq] at h
    subst h
    simp
  | case3 s0 s1 =>
    simp only [decodeSextets, Option.some.injEq] at h
    subst h
    simp
  | case4 s0 => simp [decodeSextets] at h
  | case5 =>
    simp only [decodeSextets, Option.some.injEq] at h
    subst h
    simp

/-- Two runs of six-bit values of one length that decode to the same bytes
agree everywhere but possibly in their last value. -/
theorem decodeSextets_agree (xs : List Nat) :
    ∀ (ys : List Nat) (bs : Bytes), xs.length = ys.length → (∀ v ∈ xs, v < 64) →
      (∀ v ∈ ys, v < 64) → decodeSextets xs = some bs → decodeSextets ys = some bs →
      ∀ j, j + 1 < xs.length → xs[j]? = ys[j]? := by
  induction xs using decodeSextets.induct with
  | case1 s0 s1 s2 s3 rest ih =>
    intro ys bs hl hx hy h1 h2 j hj
    match ys, hl with
    | t0 :: t1 :: t2 :: t3 :: rest', hl =>
      simp only [decodeSextets] at h1 h2
      cases hr : decodeSextets rest with
      | none => rw [hr] at h1; simp at h1
      | some r =>
        cases hr' : decodeSextets rest' with
        | none => rw [hr'] at h2; simp at h2
        | some r' =>
          rw [hr] at h1
          rw [hr'] at h2
          simp only [Option.map_some', Option.some.injEq] at h1 h2
          rw [← h1] at h2
          simp only [List.cons.injEq] at h2
          obtain ⟨e0, e1, e2, e3⟩ := h2
          have a0 := hx s0 (by simp)
          have a1 := hx s1 (by simp)
          have a2 := hx s2 (by simp)
          have a3 := hx s3 (by simp)
          have b0 := hy t0 (by simp)
          have b1 := hy t1 (by simp)
          have b2 := hy t2 (by simp)
          have b3 := hy t3 (by simp)
          have c0 : s0 = t0 := by omega
          have c1 : s1 = t1 := by omega
          have c2 : s2 = t2 := by omega
          have c3 : s3 = t3 := by omega
          subst c0 c1 c2 c3
          match j with
          | 0 => simp
          | 1 => simp
          | 2 => simp
          | 3 => simp
          | j + 4 =>
            simp only [List.getElem?_cons_succ]
            have hl' : rest.length = rest'.length := by simpa using hl
            exact ih rest' r hl' (fun v hv => hx v (by simp [hv]))
              (fun v hv => hy v (by simp [hv])) hr (by rw [hr', e3]) j
              (by simp only [List.length_cons] at hj; omega)
  | case2 s0 s1 s2 =>
    intro ys bs hl hx hy h1 h2 j hj
    match ys, hl with
    | [t0, t1, t2], _ =>
      simp only [decodeSextets, Option.some.injEq] at h1 h2
      rw [← h1] at h2
      simp only [List.cons.injEq, and_true] at h2
      obtain ⟨e0, e1⟩ := h2
      have a0 := hx s0 (by simp)
      have a1 := hx s1 (by simp)
      have a2 := hx s2 (by simp)
      have b0 := hy t0 (by simp)
      have b1 := hy t1 (by simp)
      have b2 := hy t2 (by simp)
      have c0 : s0 = t0 := by omega
      have c1 : s1 = t1 := by omega
      subst c0 c1
      match j, hj with
      | 0, _ => simp
      | 1, _ => simp
      | j + 2, hj => exact absurd hj (by simp)
  | case3 s0 s1 =>
    intro ys bs hl hx hy h1 h2 j hj
    match ys, hl with
    | [t0, t1], _ =>
      simp only [decodeSextets, Option.some.injEq] at h1 h2
      rw [← h1] at h2
      simp only [List.cons.injEq, and_true] at h2
      have a0 := hx s0 (by simp)
      have a1 := hx s1 (by simp)
      have b0 := hy t0 (by simp)
      have b1 := hy t1 (by simp)
      have c0 : s0 = t0 := by omega
      subst c0
      match j, hj with
      | 0, _ => simp
      | j + 1, hj => exact absurd hj (by simp)
  | case4 s0 =>
    intro ys bs hl hx hy h1
    simp [decodeSextets] at h1
  | case5 =>
    intro ys bs hl hx hy h1 h2 j hj
    simp at hj

theorem filter_clean (cs : Bytes) (h : ∀ c ∈ cs, 45 ≤ c) :
    cs.filter (fun c => c != 10 && c != 13) = cs := by
  rw [List.filter_eq_self]
  intro c hc
  have := h c hc
  simp only [bne_iff_ne, ne_eq, Bool.and_eq_true, decide_eq_true_eq]
  omega

/-- Replacing a character of an encoding, other than its last, by a different
byte gives a string that does not decode to the encoded bytes. -/
theorem decode_modify_ne (bs : Bytes) (hb : ∀ b ∈ bs, b < 256) (i : Nat)
    (hi : i + 1 < (encode bs).length) (f : Nat → Nat) (hf : ∀ c, f c ≠ c) :
    decode ((encode bs).modify f i) ≠ some bs := by
  have hi' : i < (encode bs).length := by omega
  obtain ⟨vs, hvs, hds⟩ := decode_sextets_encode bs hb
  rw [List.modify_eq_take_cons_drop hi']
  have hsplit : encode bs
      = (encode bs).take i ++ (encode bs)[i] :: (encode bs).drop (i + 1) := by
    rw [List.getElem_cons_drop, List.take_append_drop]
  generalize hpre : (encode bs).take i = pre at hsplit ⊢
  generalize hpost : (encode bs).drop (i + 1) = post at hsplit ⊢
  generalize hc : (encode bs)[i] = c at hsplit ⊢
  have hpostlen : 1 ≤ post.length := by
    rw [← hpost, List.length_drop]
    omega
  have hclean := encode_chars bs
  rw [hsplit] at hclean hvs
  have hpre45 : ∀ x ∈ pre, 45 ≤ x := fun x hx => (hclean x (by simp [hx])).1
  have hpost45 : ∀ x ∈ post, 45 ≤ x := fun x hx => (hclean x (by simp [hx])).1
  -- the six-bit values of the three parts
  rw [decodeChars_append] at hvs
  cases hvp : decodeChars pre with
  | none => rw [hvp] at hvs; simp at hvs
  | some vp =>
    rw [hvp] at hvs
    simp only [Option.some_bind] at hvs
    rw [show decodeChars (c :: post) = (match decodeChar c with
        | none => none
        | some v => (decodeChars post).map (fun vs => v :: vs)) from rfl] at hvs
    cases hv : decodeChar c with
    | none => rw [hv] at hvs; simp at hvs
    | some v =>
      rw [hv] at hvs
      simp only at hvs
      cases hvq : decodeChars post with
      | none => rw [hvq] at hvs; simp at hvs
      | some vq =>
        rw [hvq] at hvs
        simp only [Option.map_some', Option.some.injEq] at hvs
        subst hvs
        have hlp := decodeChars_length pre vp hvp
        have hlq := decodeChars_length post vq hvq
        have hvlt := decodeChar_lt c v hv
        intro hdec
        unfold decode at hdec
        rw [List.filter_append, List.filter_cons, filter_clean pre hpre45,
          filter_clean post hpost45] at hdec
        by_cases hnl : f c = 10 ∨ f c = 13
        · have hfalse : ((f c != 10) && (f c != 13)) = false := by
            rcases hnl with h | h <;> simp [h]
          rw [hfalse] at hdec
          simp only [Bool.false_eq_true, if_false] at hdec
          rw [decodeChars_append, hvp, hvq] at hdec
          simp only [Option.some_bind, Option.map_some'] at hdec
          have l1 := decodeSextets_length _ _ hds
          have l2 := decodeSextets_length _ _ hdec
          simp only [List.length_append, List.length_cons] at l1 l2
          omega
        · have htrue : ((f c != 10) && (f c != 13)) = true := by
            simp only [bne_iff_ne, ne_eq, Bool.and_eq_true, decide_eq_true_eq]
            tauto
          rw [htrue] at hdec
          simp only [if_true] at hdec
          rw [decodeChars_append, hvp] at hdec
          simp only [Option.some_bind] at hdec
          rw [show decodeChars (f c :: post) = (match decodeChar (f c) with
              | none => none
              | some v => (decodeChars post).map (fun vs => v :: vs)) from rfl] at hdec
          cases hv' : decodeChar (f c) with
          | none => rw [hv'] at hdec; simp at hdec
          | some v' =>
            rw [hv', hvq] at hdec
            simp only [Option.map_some'] at hdec
            have hv'lt := decodeChar_lt (f c) v' hv'
            have hag := decodeSextets_agree (vp ++ v :: vq) (vp ++ v' :: vq) bs
              (by simp)
              (by
                intro x hx
                rcases List.mem_append.1 hx with h | h
                · exact hlp.2 x h
                · rcases List.mem_cons.1 h with h | h
                  · rw [h]; exact hvlt
                  · exact hlq.2 x h)
              (by
                intro x hx
                rcases List.mem_append.1 hx with h | h
                · exact hlp.2 x h
                · rcases List.mem_cons.1 h with h | h
                  · rw [h]; exact hv'lt
                  · exact hlq.2 x h)
              hds hdec vp.length
              (by
                simp only [List.length_append, List.length_cons]
                have := hlq.1
                omega)
            simp only [List.getElem?_append_right (le_refl _), Nat.sub_self,
              List.getElem?_cons_zero, Option.some.injEq] at hag
            subst hag
            exact hf c (decodeChar_inj (f c) c v hv' hv)

end base64

/-- A bit flipped behind a dot that follows a string is a bit flipped in what
stands behind the dot. -/
theorem flipBit_segment (a seg : Bytes) (i k : Nat) :
    flipBit (a ++ 46 :: seg) (a.length + 1 + i) k = a ++ 46 :: flipBit seg i k := by
  unfold flipBit
  induction a with
  | nil =>
    have e : ([] : Bytes).length + 1 + i = i + 1 := by simp; omega
    rw [e]
    simp
  | cons x a ih =>
    have e : (x :: a).length + 1 + i = (a.length + 1 + i) + 1 := by simp; omega
    rw [e, List.cons_append, List.modify_succ_cons, ih, List.cons_append]

theorem xor_pow_ne (k c : Nat) : c ^^^ 2 ^ k ≠ c := by
  intro h
  have h0 : c ^^^ 2 ^ k = c ^^^ 0 := by rw [Nat.xor_zero]; exact h
  have := Nat.xor_right_injective h0
  exact absurd this (by positivity)

/-- The signature segment of a signing string followed by a dot and a segment
without a dot is that segment. -/
theorem signatureSegment_signed (m : gojwt.SigningMethod) (c : jwt.Claims) (seg : Bytes)
    (h : ∀ x ∈ seg, x ≠ 46) :
    signatureSegment ((gojwt.NewWithClaims m c).SigningString ++ 46 :: seg)
      = some ((gojwt.NewWithClaims m c).SigningString.length + 1, seg) := by
  unfold signatureSegment
  simp only [gojwt.Token.SigningString, List.append_assoc, List.cons_append]
  rw [gojwt.splitDots_append _ _ (base64.encode_no_dot _),
    gojwt.splitDots_append _ _ (base64.encode_no_dot _), gojwt.splitDots_no_dot _ h]
  simp only [List.length_append, List.length_cons, Option.some.injEq, Prod.mk.injEq, and_true]
  omega

namespace jwt

open gojwt in
/-- A token of the HMAC family with its third segment replaced validates
exactly when the new segment decodes to the MAC of the token and the token
itself validates. -/
theorem ValidateToken_replaced (s : Service) (now : Int) (m : SigningMethod) (h : hmac.Hash)
    (hm : m.asHMAC = some h) (c : Claims) (seg : Bytes) :
    (∃ c1, s.ValidateToken now ((NewWithClaims m c).SigningString ++ 46 :: seg) = .ok c1)
      ↔ base64.decode seg = some (hmac.sum h s.secretKey (NewWithClaims m c).SigningString)
        ∧ ∃ c1, s.ValidateToken now ((NewWithClaims m c).SigningString ++ 46 ::
            base64.encode (hmac.sum h s.secretKey (NewWithClaims m c).SigningString)) = .ok c1 := by
  cases hc : unmarshalClaims (json.Marshal c.members) Claims.zero with
  | none =>
    rw [ValidateToken_unreadable s now m c hc seg, ValidateToken_unreadable s now m c hc _]
    simp
  | some cl =>
    have horig := ValidateToken_segment s now m h hm c cl hc
      (base64.encode (hmac.sum h s.secretKey (NewWithClaims m c).SigningString)) _
      (base64.decode_encode_bytes _ (hmac.sum_lt _ _ _))
    rw [if_pos rfl] at horig
    cases hd : base64.decode seg with
    | none =>
      rw [ValidateToken_undecodable s now m c seg hd]
      simp
    | some sig =>
      rw [ValidateToken_segment s now m h hm c cl hc seg sig hd, horig]
      by_cases he : sig = hmac.sum h s.secretKey (NewWithClaims m c).SigningString
      · rw [if_pos he, he]
        simp
      · rw [if_neg he]
        simp [he]

end jwt

/-- C3, the claim as stated fails: the access token of the scenario validates,
and so does the string obtained from it by flipping one bit of the last
character of its signature segment, which turns the letter U into the letter
W. The two letters differ only in bits the decoder of the segment drops. -/
theorem C3_counterexample :
    scenario.service.GenerateToken scenario.clock scenario.clock scenario.clock
        scenario.userID (ascii "a@b.com") (ascii "alice") = .ok scenario.token
      ∧ scenario.service.ValidateToken scenario.clock scenario.token = .ok scenario.claims
      ∧ signatureSegment scenario.token
          = some (scenario.token.length - 43, ascii "rkaMghDKPMkdlJ8ejp2-b-IDg3ezWnLw8wLJcIHG3JU")
      ∧ scenario.flippedToken = flipBit scenario.token (scenario.token.length - 1) 1
      ∧ scenario.flippedToken ≠ scenario.token
      ∧ scenario.service.ValidateToken scenario.clock scenario.flippedToken
          = .ok scenario.claims := by
  decide!

/-- C3 (tamper detection), amended. For every token GenerateToken or
GenerateRefreshToken issued and every string obtained from it by flipping a
bit inside its signature segment, ValidateToken accepts the new string only
if the segment still decodes to the same signature bytes and the token itself
validates; otherwise it returns an error and no claims. A flip in any
character of the segment but the last always gives an error. -/
theorem C3_tamper_detection (s : jwt.Service) (tExp tIat tNbf now : Int) (userID : uuid.UUID)
    (email username : Bytes) (i k : Nat) :
    (∃ tok start sig, s.GenerateToken tExp tIat tNbf userID email username = .ok tok
      ∧ signatureSegment tok = some (start, sig)
      ∧ ((∃ c, s.ValidateToken now (flipBit tok (start + i) k) = .ok c)
          ↔ base64.decode (flipBit sig i k) = base64.decode sig
            ∧ ∃ c, s.ValidateToken now tok = .ok c)
      ∧ (base64.decode (flipBit sig i k) ≠ base64.decode sig
          → ∃ e, s.ValidateToken now (flipBit tok (start + i) k) = .error e)
      ∧ (i + 1 < sig.length
          → ∃ e, s.ValidateToken now (flipBit tok (start + i) k) = .error e))
    ∧ (∃ tok start sig, s.GenerateRefreshToken tExp tIat tNbf userID = .ok tok
      ∧ signatureSegment tok = some (start, sig)
      ∧ ((∃ c, s.ValidateToken now (flipBit tok (start + i) k) = .ok c)
          ↔ base64.decode (flipBit sig i k) = base64.decode sig
            ∧ ∃ c, s.ValidateToken now tok = .ok c)
      ∧ (base64.decode (flipBit sig i k) ≠ base64.decode sig
          → ∃ e, s.ValidateToken now (flipBit tok (start + i) k) = .error e)
      ∧ (i + 1 < sig.length
          → ∃ e, s.ValidateToken now (flipBit tok (start + i) k) = .error e)) := by
  have key : ∀ c : jwt.Claims,
      ∃ tok start sig, (gojwt.NewWithClaims .HS256 c).SignedString s.secretKey = .ok tok
        ∧ signatureSegment tok = some (start, sig)
        ∧ ((∃ c1, s.ValidateToken now (flipBit tok (start + i) k) = .ok c1)
            ↔ base64.decode (flipBit sig i k) = base64.decode sig
              ∧ ∃ c1, s.ValidateToken now tok = .ok c1)
        ∧ (base64.decode (flipBit sig i k) ≠ base64.decode sig
            → ∃ e, s.ValidateToken now (flipBit tok (start + i) k) = .error e)
        ∧ (i + 1 < sig.length
            → ∃ e, s.ValidateToken now (flipBit tok (start + i) k) = .error e) := by
    intro c
    have hs := jwt.SignedString_ok .HS256 .SHA256 rfl c s.secretKey
    have hd := base64.decode_encode_bytes _
      (hmac.sum_lt .SHA256 s.secretKey (gojwt.NewWithClaims .HS256 c).SigningString)
    have hiff : (∃ c1, s.ValidateToken now (flipBit ((gojwt.NewWithClaims .HS256 c).SigningString
          ++ 46 :: base64.encode (hmac.sum .SHA256 s.secretKey
            (gojwt.NewWithClaims .HS256 c).SigningString))
          ((gojwt.NewWithClaims .HS256 c).SigningString.length + 1 + i) k) = .ok c1)
        ↔ base64.decode (flipBit (base64.encode (hmac.sum .SHA256 s.secretKey
            (gojwt.NewWithClaims .HS256 c).SigningString)) i k)
            = base64.decode (base64.encode (hmac.sum .SHA256 s.secretKey
              (gojwt.NewWithClaims .HS256 c).SigningString))
          ∧ ∃ c1, s.ValidateToken now ((gojwt.NewWithClaims .HS256 c).SigningString
            ++ 46 :: base64.encode (hmac.sum .SHA256 s.secretKey
              (gojwt.NewWithClaims .HS256 c).SigningString)) = .ok c1 := by
      rw [flipBit_segment, hd]
      exact jwt.ValidateToken_replaced s now .HS256 .SHA256 rfl c _
    have herr : base64.decode (flipBit (base64.encode (hmac.sum .SHA256 s.secretKey
            (gojwt.NewWithClaims .HS256 c).SigningString)) i k)
          ≠ base64.decode (base64.encode (hmac.sum .SHA256 s.secretKey
              (gojwt.NewWithClaims .HS256 c).SigningString))
        → ∃ e, s.ValidateToken now (flipBit ((gojwt.NewWithClaims .HS256 c).SigningString
          ++ 46 :: base64.encode (hmac.sum .SHA256 s.secretKey
            (gojwt.NewWithClaims .HS256 c).SigningString))
          ((gojwt.NewWithClaims .HS256 c).SigningString.length + 1 + i) k) = .error e := by
      intro hne
      cases hr : s.ValidateToken now (flipBit ((gojwt.NewWithClaims .HS256 c).SigningString
            ++ 46 :: base64.encode (hmac.sum .SHA256 s.secretKey
              (gojwt.NewWithClaims .HS256 c).SigningString))
            ((gojwt.NewWithClaims .HS256 c).SigningString.length + 1 + i) k) with
      | error e => exact ⟨e, rfl⟩
      | ok c1 => exact absurd (hiff.1 ⟨c1, hr⟩).1 hne
    refine ⟨_, _, _, hs, signatureSegment_signed .HS256 c _ (base64.encode_no_dot _), hiff,
      herr, ?_⟩
    intro hlast
    apply herr
    rw [hd]
    exact base64.decode_modify_ne _ (hmac.sum_lt _ _ _) i hlast _ (xor_pow_ne k)
  exact ⟨key _, key _⟩

/-- C11, the claim as stated fails in its part (ii): for an e-mail that is
not valid UTF-8, here the one byte 0xFF, the access token the RefreshToken
handler returns for the access token of that identity carries as e-mail the
three bytes of U+FFFD, not the e-mail of the identity. -/
theorem C11_counterexample :
    ∃ tok acc cl,
      handlers.NewAuthHandler.jwtService.GenerateToken 1700000000500000000
        1700000000500000000 1700000000500000000 scenario.userID [0xFF] (ascii "alice")
        = .ok tok
      ∧ (handlers.NewAuthHandler.RefreshToken 1700003600500000000 1700003600500000001
          1700003600500000002 1700003600500000003 (.ok ⟨tok⟩) ⟨none, [], none, false⟩).Response
          = some (200, ⟨true, "Token refreshed successfully",
              .refreshed acc (24 * 60 * 60), ""⟩)
      ∧ gojwt.encodedClaims acc = some cl
      ∧ cl.UserID = scenario.userID
      ∧ cl.Email = [0xEF, 0xBF, 0xBD] ∧ cl.Email ≠ [0xFF] := by
  obtain ⟨tok, htok, _⟩ := jwt.GenerateToken_claims handlers.NewAuthHandler.jwtService
    1700000000500000000 1700000000500000000 1700000000500000000 scenario.userID [0xFF]
    (ascii "alice")
  have hval := jwt.ValidateToken_GenerateToken handlers.NewAuthHandler.jwtService
    1700003600500000000 1700000000500000000 1700000000500000000 1700000000500000000
    scenario.userID [0xFF] (ascii "alice") tok (by decide) (by decide) (by decide) htok
  rw [handlers.validateTimes_accessClaims handlers.NewAuthHandler.jwtService
    1700003600500000000 1700000000500000000 1700000000500000000 1700000000500000000
    scenario.userID _ _ (by decide) (by decide)] at hval
  obtain ⟨acc, _, hr, hcl⟩ := handlers.RefreshToken_valid handlers.NewAuthHandler
    1700003600500000000 1700003600500000001 1700003600500000002 1700003600500000003 tok _
    ⟨none, [], none, false⟩ hval
  have he : json.coerce (json.coerce [0xFF]) = [0xEF, 0xBF, 0xBD] := by
    rw [jwt.coerce_coerce, jwt.coerce_invalid]
  refine ⟨tok, acc, _, htok, ?_, hcl, rfl, ?_, ?_⟩
  · rw [hr]
    rfl
  · exact he
  · rw [show (handlers.NewAuthHandler.jwtService.accessClaims 1700003600500000001
        1700003600500000002 1700003600500000003
        (handlers.NewAuthHandler.jwtService.accessClaims 1700000000500000000
          1700000000500000000 1700000000500000000 scenario.userID (json.coerce [0xFF])
          (json.coerce (ascii "alice"))).UserID
        (json.coerce (handlers.NewAuthHandler.jwtService.accessClaims 1700000000500000000
          1700000000500000000 1700000000500000000 scenario.userID (json.coerce [0xFF])
          (json.coerce (ascii "alice"))).Email)
        (json.coerce (handlers.NewAuthHandler.jwtService.accessClaims 1700000000500000000
          1700000000500000000 1700000000500000000 scenario.userID (json.coerce [0xFF])
          (json.coerce (ascii "alice"))).Username)).Email
        = json.coerce (json.coerce [0xFF]) from rfl, he]
    decide

/-- C11 (no token-kind distinction), amended. Take an issuing service, a
service for the middleware and a refresh handler that share the secret, their
lifetimes being any, any user id, e-mail and user name, and clock readings of
the issue within 2 ^ 53 seconds of the epoch. (i) GenerateRefreshToken
returns a token which ValidateToken of the middleware accepts at every reading
from its notBefore until before its expiresAt, seven days after the issue, and
a request whose Authorization header is "Bearer " followed by that token
passes AuthMiddleware: the handlers that follow run, with that user id and an
empty e-mail and user name set in the context, and no response written.
(ii) GenerateToken returns a token which ValidateToken of the handler accepts
at every reading from its notBefore until before its expiresAt, and the
RefreshToken handler answers it with status 200 and a new access token, the
context otherwise as it was; the claims of the new token carry the same user
id, and the e-mail and the user name with every byte that is not part of a
valid UTF-8 sequence replaced by U+FFFD: the same e-mail and user name when
these are valid UTF-8. -/
theorem C11_no_token_kind (issuer mw : jwt.Service) (h : handlers.AuthHandler)
    (hg : mw.secretKey = issuer.secretKey) (hh : h.jwtService.secretKey = issuer.secretKey)
    (id : uuid.UUID) (email username : Bytes) (tExp tIat tNbf nowA nowB tE tI tN : Int)
    (next : gin.Context → gin.Context) (c : gin.Context)
    (hI : time.exact tIat) (hN : time.exact tNbf)
    (hE7 : time.exact (time.Add tExp (7 * 24 * time.Hour)))
    (hEL : time.exact (time.Add tExp issuer.expiry))
    (hA0 : tNbf ≤ nowA)
    (hA1 : nowA < (gojwt.NewNumericDate (time.Add tExp (7 * 24 * time.Hour))).Time)
    (hB0 : tNbf ≤ nowB)
    (hB1 : nowB < (gojwt.NewNumericDate (time.Add tExp issuer.expiry)).Time) :
    (∃ rt, issuer.GenerateRefreshToken tExp tIat tNbf id = .ok rt
      ∧ mw.ValidateToken nowA rt = .ok (jwt.refreshClaims tExp tIat tNbf id)
      ∧ ∃ c1, middleware.AuthMiddleware mw nowA next
            ⟨some (ascii "Bearer " ++ rt), c.Keys, c.Response, c.Aborted⟩ = next c1
          ∧ c1.Get "user_id" = some (.uuid id)
          ∧ c1.Get "user_email" = some (.str [])
          ∧ c1.Get "user_username" = some (.str [])
          ∧ c1.Response = c.Response ∧ c1.Aborted = c.Aborted)
    ∧ (∃ tok, issuer.GenerateToken tExp tIat tNbf id email username = .ok tok
      ∧ h.jwtService.ValidateToken nowB tok
          = .ok (issuer.accessClaims tExp tIat tNbf id (utf8.encode (utf8.decode email))
              (utf8.encode (utf8.decode username)))
      ∧ ∃ acc cl,
        (h.RefreshToken nowB tE tI tN (.ok ⟨tok⟩) c).Response
          = some (200, ⟨true, "Token refreshed successfully",
              .refreshed acc (24 * 60 * 60), ""⟩)
        ∧ (h.RefreshToken nowB tE tI tN (.ok ⟨tok⟩) c).Aborted = c.Aborted
        ∧ (h.RefreshToken nowB tE tI tN (.ok ⟨tok⟩) c).Keys = c.Keys
        ∧ h.jwtService.GenerateToken tE tI tN id (utf8.encode (utf8.decode email))
            (utf8.encode (utf8.decode username)) = .ok acc
        ∧ gojwt.encodedClaims acc = some cl
        ∧ cl.UserID = id
        ∧ cl.Email = utf8.encode (utf8.decode email)
        ∧ cl.Username = utf8.encode (utf8.decode username)
        ∧ (∀ text : List Char, email = utf8.encode text → cl.Email = email)
        ∧ (∀ text : List Char, username = utf8.encode text → cl.Username = username)) := by
  constructor
  · obtain ⟨rt, hrt, _⟩ := jwt.GenerateRefreshToken_claims issuer tExp tIat tNbf id
    have hval : mw.ValidateToken nowA rt = .ok (jwt.refreshClaims tExp tIat tNbf id) := by
      rw [jwt.ValidateToken_secret issuer mw hg, jwt.ValidateToken_GenerateRefreshToken
        issuer nowA tExp tIat tNbf id rt hE7 hI hN hrt,
        handlers.validateTimes_refreshClaims nowA tExp tIat tNbf id hA0 hA1]
    refine ⟨rt, hrt, hval, ?_⟩
    have hne : ascii "Bearer " ++ rt ≠ [] := by
      rw [strings.bearer_bytes]
      simp
    refine ⟨(((⟨some (ascii "Bearer " ++ rt), c.Keys, c.Response, c.Aborted⟩ :
      gin.Context).Set "user_id" (.uuid id)).Set "user_email" (.str [])).Set
      "user_username" (.str []), ?_, ?_, ?_, ?_, rfl, rfl⟩
    · simp only [middleware.AuthMiddleware, gin.Context.GetHeader, Option.getD_some, hne,
        if_false, strings.HasPrefix_bearer, Bool.not_true, Bool.false_eq_true,
        strings.TrimPrefix_bearer, hval, jwt.refreshClaims]
    · rw [gin.Get_Set_other _ _ _ _ (by decide), gin.Get_Set_other _ _ _ _ (by decide),
        gin.Get_Set_same]
    · rw [gin.Get_Set_other _ _ _ _ (by decide), gin.Get_Set_same]
    · rw [gin.Get_Set_same]
  · obtain ⟨tok, htok, _⟩ := jwt.GenerateToken_claims issuer tExp tIat tNbf id email username
    have hval : h.jwtService.ValidateToken nowB tok
        = .ok (issuer.accessClaims tExp tIat tNbf id (json.coerce email)
            (json.coerce username)) := by
      rw [jwt.ValidateToken_secret issuer h.jwtService hh, jwt.ValidateToken_GenerateToken
        issuer nowB tExp tIat tNbf id email username tok hEL hI hN htok,
        handlers.validateTimes_accessClaims issuer nowB tExp tIat tNbf id _ _ hB0 hB1]
    obtain ⟨acc, hacc, hr, hcl⟩ := handlers.RefreshToken_valid h nowB tE tI tN tok _ c hval
    have e1 : json.coerce (json.coerce email) = utf8.encode (utf8.decode email) :=
      jwt.coerce_coerce email
    have e2 : json.coerce (json.coerce username) = utf8.encode (utf8.decode username) :=
      jwt.coerce_coerce username
    refine ⟨tok, htok, hval, acc, _, ?_, ?_, ?_, hacc, hcl, rfl, e1, e2, ?_, ?_⟩
    · rw [hr]
      rfl
    · rw [hr]
      rfl
    · rw [hr]
      rfl
    · intro text he
      refine e1.trans ?_
      rw [he]
      exact jwt.coerce_encode text
    · intro text he
      refine e2.trans ?_
      rw [he]
      exact jwt.coerce_encode text

/-- C11 in the scenario, on the secret of the handler: the refresh token of
the user passes a middleware whose access tokens live one hour, three days after
its issue, and the access token of the user is taken by the refresh handler
an hour after its issue. -/
theorem C11_no_token_kind_witness :
    (jwt.New (ascii "your-secret-key-change-in-production") 1).secretKey
      = handlers.NewAuthHandler.jwtService.secretKey
    ∧ time.exact scenario.clock
    ∧ time.exact (time.Add scenario.clock (7 * 24 * time.Hour))
    ∧ time.exact (time.Add scenario.clock handlers.NewAuthHandler.jwtService.expiry)
    ∧ scenario.clock ≤ scenario.clock + 72 * time.Hour
    ∧ scenario.clock + 72 * time.Hour
        < (gojwt.NewNumericDate (time.Add scenario.clock (7 * 24 * time.Hour))).Time
    ∧ scenario.clock ≤ scenario.clock + time.Hour
    ∧ scenario.clock + time.Hour
        < (gojwt.NewNumericDate
            (time.Add scenario.clock handlers.NewAuthHandler.jwtService.expiry)).Time
    ∧ ((∃ rt, handlers.NewAuthHandler.jwtService.GenerateRefreshToken scenario.clock
          scenario.clock scenario.clock scenario.userID = .ok rt
      ∧ (jwt.New (ascii "your-secret-key-change-in-production") 1).ValidateToken
            (scenario.clock + 72 * time.Hour) rt
          = .ok (jwt.refreshClaims scenario.clock scenario.clock scenario.clock scenario.userID)
      ∧ ∃ c1, middleware.AuthMiddleware (jwt.New (ascii "your-secret-key-change-in-production") 1)
            (scenario.clock + 72 * time.Hour) id
            ⟨some (ascii "Bearer " ++ rt), (⟨none, [], none, false⟩ : gin.Context).Keys,
              (⟨none, [], none, false⟩ : gin.Context).Response,
              (⟨none, [], none, false⟩ : gin.Context).Aborted⟩ = id c1
          ∧ c1.Get "user_id" = some (.uuid scenario.userID)
          ∧ c1.Get "user_email" = some (.str [])
          ∧ c1.Get "user_username" = some (.str [])
          ∧ c1.Response = (⟨none, [], none, false⟩ : gin.Context).Response
          ∧ c1.Aborted = (⟨none, [], none, false⟩ : gin.Context).Aborted)
    ∧ (∃ tok, handlers.NewAuthHandler.jwtService.GenerateToken scenario.clock scenario.clock
          scenario.clock scenario.userID (ascii "a@b.com") (ascii "alice") = .ok tok
      ∧ handlers.NewAuthHandler.jwtService.ValidateToken (scenario.clock + time.Hour) tok
          = .ok (handlers.NewAuthHandler.jwtService.accessClaims scenario.clock scenario.clock
              scenario.clock scenario.userID (utf8.encode (utf8.decode (ascii "a@b.com")))
              (utf8.encode (utf8.decode (ascii "alice"))))
      ∧ ∃ acc cl,
        (handlers.NewAuthHandler.RefreshToken (scenario.clock + time.Hour)
            (scenario.clock + time.Hour + 1) (scenario.clock + time.Hour + 2)
            (scenario.clock + time.Hour + 3) (.ok ⟨tok⟩) ⟨none, [], none, false⟩).Response
          = some (200, ⟨true, "Token refreshed successfully",
              .refreshed acc (24 * 60 * 60), ""⟩)
        ∧ (handlers.NewAuthHandler.RefreshToken (scenario.clock + time.Hour)
            (scenario.clock + time.Hour + 1) (scenario.clock + time.Hour + 2)
            (scenario.clock + time.Hour + 3) (.ok ⟨tok⟩) ⟨none, [], none, false⟩).Aborted
          = (⟨none, [], none, false⟩ : gin.Context).Aborted
        ∧ (handlers.NewAuthHandler.RefreshToken (scenario.clock + time.Hour)
            (scenario.clock + time.Hour + 1) (scenario.clock + time.Hour + 2)
            (scenario.clock + time.Hour + 3) (.ok ⟨tok⟩) ⟨none, [], none, false⟩).Keys
          = (⟨none, [], none, false⟩ : gin.Context).Keys
        ∧ handlers.NewAuthHandler.jwtService.GenerateToken (scenario.clock + time.Hour + 1)
            (scenario.clock + time.Hour + 2) (scenario.clock + time.Hour + 3) scenario.userID
            (utf8.encode (utf8.decode (ascii "a@b.com")))
            (utf8.encode (utf8.decode (ascii "alice"))) = .ok acc
        ∧ gojwt.encodedClaims acc = some cl
        ∧ cl.UserID = scenario.userID
        ∧ cl.Email = utf8.encode (utf8.decode (ascii "a@b.com"))
        ∧ cl.Username = utf8.encode (utf8.decode (ascii "alice"))
        ∧ (∀ text : List Char, ascii "a@b.com" = utf8.encode text → cl.Email = ascii "a@b.com")
        ∧ (∀ text : List Char, ascii "alice" = utf8.encode text
            → cl.Username = ascii "alice"))) :=
  ⟨by decide, by decide, by decide, by decide, by decide, by decide, by decide, by decide,
   C11_no_token_kind handlers.NewAuthHandler.jwtService
     (jwt.New (ascii "your-secret-key-change-in-production") 1) handlers.NewAuthHandler
     (by decide) rfl scenario.userID (ascii "a@b.com") (ascii "alice")
     scenario.clock scenario.clock scenario.clock
     (scenario.clock + 72 * time.Hour) (scenario.clock + time.Hour)
     (scenario.clock + time.Hour + 1) (scenario.clock + time.Hour + 2)
     (scenario.clock + time.Hour + 3)
     id ⟨none, [], none, false⟩ (by decide) (by decide) (by decide) (by decide) (by decide)
     (by decide) (by decide) (by decide)⟩
